import Mathlib

/-!
CARL completion subsystem: embedding of `.carl/hooks/lib/carl-completion.js`.

The definitions below transcribe the JavaScript functions of
`src/.carl/hooks/lib/carl-completion.js` into pure Lean functions.

Modelling conventions

* JavaScript numbers are `JSNum`: a finite value, given by the rational number it
  denotes, or one of the three special values `NaN`, `Infinity`, `-Infinity`.  The
  arithmetic operators `+`, `-`, `*` and `/` round their exact result to the nearest
  IEEE 754 binary64 number, ties to even, with gradual underflow and overflow to an
  infinity (`JSNum.ofRat`); a decimal literal of the source such as `0.01` is the
  binary64 number nearest to it.  `Math.round`, `Math.abs`, `Math.min`, `Math.max`
  and the comparisons are exact.  The sign of zero is not represented.  A number
  returned by a library parameter (`yaml.parse`) is taken as it is given.
* Values produced by `yaml.parse` are `JSValue`s.  A mapping is an association list
  in insertion order; a property read returns the first binding of the key.  Values
  have no identity: sharing between parts of one parsed document (YAML anchors) is not
  represented, and an in-place update of a nested mapping is written back into its
  parent.
* The module is a non-strict CommonJS module: an assignment to a property of a
  primitive is silently ignored.
* Library code that is not part of the repository (`yaml`, `path`, `Date`, template
  literal conversion) is a parameter, bundled in `Lib`.
* The file system, the version-control tool and the clock are the `World`: reads are
  functions of the world, mutations return a new world, and every mutation is also
  appended to `World.trace`.  Paths are identified by their strings.  What a
  version-control command does to the files is a parameter of the world (`World.git`).
* An `async` function is the function from the world before the call to its result and
  the world after it; a caught exception is the branch the `catch` block takes.
* `recalculateParentCompletion`, `getParentIntentPath` and `getChildIntentPaths`
  receive the relationship graph, the result of `buildHierarchicalMap()`, as an
  argument.
* Directory listings and `fs.stat` are the `Directories`.  The module-level variables
  `relationshipCache` and `cacheTimestamp` are an explicit `RelationshipCache` value,
  and the reading of `Date.now()` in `buildHierarchicalMap` is an explicit argument.
* A JavaScript `Map` is an association list in insertion order.  Keys are compared as
  `Map` compares them (SameValueZero); a sequence or mapping used as a key equals no
  other key, because every key comes from its own call of `yaml.parse`.
* `console.log` / `console.error` output is not represented.
-/

namespace Carl

/-! ## JavaScript numbers -/

/-- A JavaScript number: a finite value, as the rational it denotes, or one of the
IEEE special values. -/
inductive JSNum where
  | fin (q : ℚ)
  | nan
  | posInf
  | negInf
  deriving DecidableEq

namespace JSNum

/-- The predicate "is a finite number". -/
def isFinite : JSNum → Bool
  | fin _ => true
  | _ => false

/-- JavaScript `a === b` on numbers (`NaN` equals nothing). -/
def strictEq : JSNum → JSNum → Bool
  | fin a, fin b => decide (a = b)
  | posInf, posInf => true
  | negInf, negInf => true
  | _, _ => false

/-- JavaScript `a >= b` on numbers (false as soon as one side is `NaN`). -/
def ge : JSNum → JSNum → Bool
  | nan, _ => false
  | _, nan => false
  | fin a, fin b => decide (b ≤ a)
  | posInf, _ => true
  | _, negInf => true
  | fin _, posInf => false
  | negInf, fin _ => false
  | negInf, posInf => false

/-- JavaScript `Math.min(a, b)`. -/
def min : JSNum → JSNum → JSNum
  | nan, _ => nan
  | _, nan => nan
  | negInf, _ => negInf
  | _, negInf => negInf
  | posInf, b => b
  | a, posInf => a
  | fin a, fin b => fin (Min.min a b)

/-- JavaScript `Math.max(a, b)`. -/
def max : JSNum → JSNum → JSNum
  | nan, _ => nan
  | _, nan => nan
  | posInf, _ => posInf
  | _, posInf => posInf
  | negInf, b => b
  | a, negInf => a
  | fin a, fin b => fin (Max.max a b)

/-- Number of binary digits of `n`; the first argument bounds the recursion and is
taken to be `n` itself. -/
def bitLength : Nat → Nat → Nat
  | 0, _ => 0
  | fuel + 1, n => if n = 0 then 0 else bitLength fuel (n / 2) + 1

/-- The rational `2 ^ k` for an integer exponent. -/
def twoPow (k : ℤ) : ℚ :=
  if 0 ≤ k then ((2 ^ k.toNat : ℕ) : ℚ) else 1 / ((2 ^ (-k).toNat : ℕ) : ℚ)

/-- Nearest integer, ties to the even neighbour. -/
def roundHalfEven (x : ℚ) : ℤ :=
  if x - ⌊x⌋ < 1 / 2 then ⌊x⌋
  else if 1 / 2 < x - ⌊x⌋ then ⌊x⌋ + 1
  else if ⌊x⌋ % 2 = 0 then ⌊x⌋ else ⌊x⌋ + 1

/-- The binary exponent of a positive rational: the `e` with `2 ^ e ≤ a < 2 ^ (e + 1)`. -/
def binade (a : ℚ) : ℤ :=
  let e : ℤ := (bitLength a.num.natAbs a.num.natAbs : ℤ) - (bitLength a.den a.den : ℤ)
  if twoPow e ≤ a then e else e - 1

/-- The IEEE 754 binary64 number nearest to the rational `q` (round to nearest, ties to
even): 53 significant bits, least exponent `-1022` with gradual underflow, and overflow
to an infinity when the rounded magnitude reaches `2 ^ 1024`. -/
def ofRat (q : ℚ) : JSNum :=
  if q = 0 then fin 0
  else
    let c := Max.max (binade |q|) (-1022) - 52
    let r := (roundHalfEven (|q| / twoPow c) : ℚ) * twoPow c
    if twoPow 1024 ≤ r then (if 0 < q then posInf else negInf)
    else fin (if 0 < q then r else -r)

/-- JavaScript `a + b`. -/
def add : JSNum → JSNum → JSNum
  | nan, _ => nan
  | _, nan => nan
  | posInf, negInf => nan
  | negInf, posInf => nan
  | posInf, _ => posInf
  | _, posInf => posInf
  | negInf, _ => negInf
  | _, negInf => negInf
  | fin a, fin b => ofRat (a + b)

/-- JavaScript unary minus. -/
def neg : JSNum → JSNum
  | fin a => fin (-a)
  | nan => nan
  | posInf => negInf
  | negInf => posInf

/-- JavaScript `a - b`. -/
def sub (a b : JSNum) : JSNum := add a (neg b)

/-- JavaScript `a * b`. -/
def mul : JSNum → JSNum → JSNum
  | nan, _ => nan
  | _, nan => nan
  | fin a, fin b => ofRat (a * b)
  | fin a, posInf => if 0 < a then posInf else if a < 0 then negInf else nan
  | fin a, negInf => if 0 < a then negInf else if a < 0 then posInf else nan
  | posInf, fin b => if 0 < b then posInf else if b < 0 then negInf else nan
  | negInf, fin b => if 0 < b then negInf else if b < 0 then posInf else nan
  | posInf, posInf => posInf
  | posInf, negInf => negInf
  | negInf, posInf => negInf
  | negInf, negInf => posInf

/-- JavaScript `a / b` (a zero divisor is read as `+0`). -/
def div : JSNum → JSNum → JSNum
  | nan, _ => nan
  | _, nan => nan
  | fin a, fin b =>
    if b = 0 then (if 0 < a then posInf else if a < 0 then negInf else nan)
    else ofRat (a / b)
  | fin _, posInf => fin 0
  | fin _, negInf => fin 0
  | posInf, fin b => if b < 0 then negInf else posInf
  | negInf, fin b => if b < 0 then posInf else negInf
  | posInf, posInf => nan
  | posInf, negInf => nan
  | negInf, posInf => nan
  | negInf, negInf => nan

/-- JavaScript `Math.round(a)`: nearest integer, halves towards `+Infinity`. -/
def round : JSNum → JSNum
  | fin a => fin (⌊a + 1 / 2⌋ : ℤ)
  | x => x

/-- JavaScript `Math.abs(a)`. -/
def abs : JSNum → JSNum
  | fin a => fin |a|
  | nan => nan
  | _ => posInf

/-- JavaScript truthiness of a number: `0` and `NaN` are falsy. -/
def truthy : JSNum → Bool
  | fin a => decide (a ≠ 0)
  | nan => false
  | _ => true

/-- The expression `Math.round(x * 100) / 100` used to round to two decimals. -/
def round2 (x : JSNum) : JSNum := div (round (mul x (fin 100))) (fin 100)

end JSNum

/-! ## JavaScript values -/

/-- A JavaScript value as produced by `yaml.parse`, plus `undefined`. -/
inductive JSValue where
  | undefined
  | null
  | bool (b : Bool)
  | num (n : JSNum)
  | str (s : String)
  | arr (items : List JSValue)
  | obj (fields : List (String × JSValue))

namespace JSValue

/-- JavaScript truthiness (`!v` is its negation). -/
def truthy : JSValue → Bool
  | undefined => false
  | null => false
  | bool b => b
  | num n => n.truthy
  | str s => decide (s ≠ "")
  | arr _ => true
  | obj _ => true

/-- The test `typeof v === 'number'`. -/
def isNumber : JSValue → Bool
  | num _ => true
  | _ => false

/-- The test `v === n` for a number `n`. -/
def strictEqNum : JSValue → JSNum → Bool
  | num m, n => m.strictEq n
  | _, _ => false

/-- The test `v === s` for a string `s`. -/
def strictEqStr : JSValue → String → Bool
  | str t, s => decide (t = s)
  | _, _ => false

/-- Property read `v.key` (or `v[key]`) for the data keys used by this module: a
`TypeError` on `null` / `undefined`, the first binding of the key in a mapping,
`undefined` for a missing key and for primitives and sequences (none of the keys
read here is an own or inherited property of those). -/
def getProp : JSValue → String → Except String JSValue
  | undefined, _ => .error "TypeError: Cannot read properties of undefined"
  | null, _ => .error "TypeError: Cannot read properties of null"
  | obj fields, key => .ok ((fields.lookup key).getD undefined)
  | _, _ => .ok undefined

/-- Replace the first binding of `key`, or append a new binding at the end. -/
def setField (key : String) (v : JSValue) : List (String × JSValue) → List (String × JSValue)
  | [] => [(key, v)]
  | (k, old) :: rest => if k = key then (key, v) :: rest else (k, old) :: setField key v rest

/-- Property write `target.key = v` in the (non-strict) module: it updates or adds the
binding of a mapping; on a primitive it is silently ignored, and on a sequence it
adds a non-index property that neither `yaml.stringify` nor any read here sees. -/
def setProp : JSValue → String → JSValue → JSValue
  | obj fields, key, v => obj (setField key v fields)
  | other, _, _ => other

mutual
/-- Structural equality of values. -/
def beq : JSValue → JSValue → Bool
  | undefined, undefined => true
  | null, null => true
  | bool a, bool b => decide (a = b)
  | num a, num b => decide (a = b)
  | str a, str b => decide (a = b)
  | arr a, arr b => beqItems a b
  | obj a, obj b => beqFields a b
  | _, _ => false
/-- Structural equality of sequences of values. -/
def beqItems : List JSValue → List JSValue → Bool
  | [], [] => true
  | a :: as, b :: bs => beq a b && beqItems as bs
  | _, _ => false
/-- Structural equality of lists of bindings. -/
def beqFields : List (String × JSValue) → List (String × JSValue) → Bool
  | [], [] => true
  | (k, a) :: as, (l, b) :: bs => decide (k = l) && beq a b && beqFields as bs
  | _, _ => false
end

/-- The value stored under `key` in a mapping; `undefined` when the key is absent or
the value is not a mapping. -/
def field : JSValue → String → JSValue
  | obj fields, key => (fields.lookup key).getD undefined
  | _, _ => undefined

/-- The number carried by a value for which `typeof v === 'number'`. -/
def asNum : JSValue → Option JSNum
  | num n => some n
  | _ => none

end JSValue

/-! ## Strings -/

/-- JavaScript `s.replace(pat, rep)` with a string pattern, on character lists: only
the first occurrence of `pat` is replaced. -/
def replaceChars (pat rep : List Char) : List Char → List Char
  | [] => if pat.isPrefixOf [] then rep else []
  | c :: cs =>
    if pat.isPrefixOf (c :: cs) then rep ++ (c :: cs).drop pat.length
    else c :: replaceChars pat rep cs

/-- JavaScript `s.replace(pat, rep)` with a string pattern (`rep` without `$`). -/
def jsReplace (s pat rep : String) : String :=
  String.mk (replaceChars pat.data rep.data s.data)

/-- The state path of an intent path: `p.replace('.intent.carl', '.state.carl')`. -/
def statePathOf (intentPath : String) : String :=
  jsReplace intentPath ".intent.carl" ".state.carl"

/-! ## Library parameters and the world -/

/-- Library functions used by the module that are not part of the repository. -/
structure Lib where
  /-- The function `yaml.parse`: a thrown error or the parsed value. -/
  yamlParse : String → Except String JSValue
  /-- The function `yaml.stringify`. -/
  yamlStringify : JSValue → String
  /-- The function `path.basename(p)`. -/
  basename : String → String
  /-- The function `path.basename(p, ext)`. -/
  basenameExt : String → String → String
  /-- The function `path.join(...)`. -/
  join : List String → String
  /-- The method `Date.prototype.toISOString`, on milliseconds since the epoch. -/
  toISOString : Nat → String
  /-- Conversion of a value to a string inside a template literal. -/
  toStr : JSValue → String

/-- A mutation performed on the outside world. -/
inductive Event where
  | writeFile (path content : String)
  | ensureDir (path : String)
  | execSync (command cwd : String)
  deriving DecidableEq

/-- What reads of the file system return. -/
structure Files where
  /-- The function `fs.pathExists(p)`: a rejection or a boolean. -/
  pathExists : String → Except String Bool
  /-- The function `utils.safeReadFile(p)`: the content, or `none` for `null`. -/
  safeReadFile : String → Option String

/-- The outside world: file system, version-control tool, clock, and the mutations
performed so far. -/
structure World where
  files : Files
  /-- Paths at which `fs.writeFile` rejects. -/
  writeFileFails : String → Bool
  /-- Paths at which `fs.ensureDir` rejects. -/
  ensureDirFails : String → Bool
  /-- The version-control tool: given the mutations so far and a command, `none`
  when the command fails (`execSync` throws), else the files after the command. -/
  git : List Event → String → Files → Option Files
  /-- The value of `utils.getCarlRoot()`. -/
  carlRoot : String
  /-- The time, in milliseconds, returned by the `k`-th reading of the clock. -/
  clock : Nat → Nat
  /-- The number of clock readings made so far. -/
  ticks : Nat
  /-- The mutations performed so far, oldest first. -/
  trace : List Event

namespace World

/-- The call `fs.writeFile(path, content, 'utf8')`: an error, or the world in which
`path` reads as `content`. -/
def writeFile (w : World) (path content : String) : Except String World :=
  if w.writeFileFails path then .error "write failed"
  else .ok { w with
    files :=
      { pathExists := fun p => if p = path then .ok true else w.files.pathExists p
        safeReadFile := fun p => if p = path then some content else w.files.safeReadFile p }
    trace := w.trace ++ [Event.writeFile path content] }

/-- The call `fs.ensureDir(path)`. -/
def ensureDir (w : World) (path : String) : Except String World :=
  if w.ensureDirFails path then .error "ensureDir failed"
  else .ok { w with
    files :=
      { pathExists := fun p => if p = path then .ok true else w.files.pathExists p
        safeReadFile := w.files.safeReadFile }
    trace := w.trace ++ [Event.ensureDir path] }

/-- The call `execSync(command, { cwd: utils.getCarlRoot() })`: `false` when it throws.
The command is recorded as issued in both cases. -/
def execSync (w : World) (command : String) : Bool × World :=
  match w.git w.trace command w.files with
  | none => (false, { w with trace := w.trace ++ [Event.execSync command w.carlRoot] })
  | some files =>
    (true, { w with files := files, trace := w.trace ++ [Event.execSync command w.carlRoot] })

/-- The expression `new Date().toISOString()`. -/
def isoNow (L : Lib) (w : World) : String × World :=
  (L.toISOString (w.clock w.ticks), { w with ticks := w.ticks + 1 })

end World

/-! ## Completion evaluator -/

/-- The object returned by `checkIntentCompletion`; `none` is an absent property. -/
structure CompletionCheck where
  completed : Bool
  stateData : JSValue
  intentPath : Option String
  statePath : Option String

/-- The literal `{ completed: false, stateData: null }`. -/
def CompletionCheck.notCompleted : CompletionCheck :=
  { completed := false, stateData := JSValue.null, intentPath := none, statePath := none }

/-- Source: `checkIntentCompletion` (carl-completion.js, lines 19-59). -/
def checkIntentCompletion (L : Lib) (w : World) (intentPath : String) : CompletionCheck :=
  let statePath := statePathOf intentPath
  match w.files.pathExists statePath with
  | .error _ => CompletionCheck.notCompleted
  | .ok false => CompletionCheck.notCompleted
  | .ok true =>
    match w.files.safeReadFile statePath with
    | none => CompletionCheck.notCompleted
    | some stateContent =>
      if stateContent = "" then CompletionCheck.notCompleted
      else
        match L.yamlParse stateContent with
        | .error _ => CompletionCheck.notCompleted
        | .ok stateData =>
          match stateData.getProp "completion_percentage", stateData.getProp "phase" with
          | .ok completionPercentage, .ok phase =>
            let isCompleted :=
              completionPercentage.strictEqNum (JSNum.fin 100) || phase.strictEqStr "completed"
            { completed := isCompleted
              stateData := stateData
              intentPath := some intentPath
              statePath := some statePath }
          | _, _ => CompletionCheck.notCompleted

/-- The expression `Math.max(0, Math.min(100, x))`. -/
def clampPercentage (x : JSNum) : JSNum :=
  JSNum.max (JSNum.fin 0) (JSNum.min (JSNum.fin 100) x)

/-- The part of `getCompletionPercentage` that follows the parse, for a truthy
`stateData` (lines 572-593). -/
def resolvePercentage (stateData : JSValue) : Except String JSNum := do
  let top ← stateData.getProp "completion_percentage"
  match top.asNum with
  | some n => pure (clampPercentage n)
  | none =>
    let metadata ← stateData.getProp "metadata"
    let nested ← if metadata.truthy then metadata.getProp "completion_percentage"
                 else pure JSValue.undefined
    match nested.asNum with
    | some n => pure (clampPercentage n)
    | none =>
      let status ← stateData.getProp "status"
      let phase ← stateData.getProp "phase"
      if status.strictEqStr "completed" || phase.strictEqStr "completed" then
        pure (JSNum.fin 100)
      else if metadata.truthy then
        let mStatus ← metadata.getProp "status"
        let mPhase ← metadata.getProp "phase"
        if mStatus.strictEqStr "completed" || mPhase.strictEqStr "completed" then
          pure (JSNum.fin 100)
        else pure (JSNum.fin 0)
      else pure (JSNum.fin 0)

/-- Source: `getCompletionPercentage` (lines 556-599); `none` is `null`. -/
def getCompletionPercentage (L : Lib) (w : World) (stateFilePath : String) : Option JSNum :=
  match w.files.pathExists stateFilePath with
  | .error _ => none
  | .ok false => none
  | .ok true =>
    match w.files.safeReadFile stateFilePath with
    | none => none
    | some content =>
      if content = "" then none
      else
        match L.yamlParse content with
        | .error _ => none
        | .ok stateData =>
          if !stateData.truthy then none
          else
            match resolvePercentage stateData with
            | .ok n => some n
            | .error _ => none

/-- Source: `calculateAverageCompletion` (lines 606-622); `none` is a missing
argument (`undefined` / `null`). -/
def calculateAverageCompletion (childCompletionPercentages : Option (List JSValue)) : JSNum :=
  match childCompletionPercentages with
  | none => JSNum.fin 0
  | some xs =>
    if xs.length = 0 then JSNum.fin 0
    else
      let validPercentages := xs.filterMap JSValue.asNum
      if validPercentages.length = 0 then JSNum.fin 0
      else
        let sum := validPercentages.foldl (fun acc percentage => acc.add percentage) (JSNum.fin 0)
        let average := sum.div (JSNum.fin validPercentages.length)
        (average.mul (JSNum.fin 100)).round.div (JSNum.fin 100)

/-! ## Scope resolution -/

/-- JavaScript `s.includes(pat)` on character lists. -/
def includesChars (pat : List Char) : List Char → Bool
  | [] => pat.isPrefixOf []
  | c :: cs => pat.isPrefixOf (c :: cs) || includesChars pat cs

/-- JavaScript `s.includes(pat)`. -/
def jsIncludes (s pat : String) : Bool :=
  includesChars pat.data s.data

/-- Source: `getScopeTypeFromPath` (lines 165-171). -/
def getScopeTypeFromPath (filePath : String) : String :=
  if jsIncludes filePath "/epics/" then "epic"
  else if jsIncludes filePath "/features/" then "feature"
  else if jsIncludes filePath "/stories/" then "story"
  else if jsIncludes filePath "/technical/" then "technical"
  else "item"

/-- Source: `getCompletedDirectory` (lines 66-82). -/
def getCompletedDirectory (L : Lib) (w : World) (intentPath : String) : String :=
  let carlRoot := w.carlRoot
  let scopeType :=
    if jsIncludes intentPath "/epics/" then "epics"
    else if jsIncludes intentPath "/features/" then "features"
    else if jsIncludes intentPath "/stories/" then "stories"
    else if jsIncludes intentPath "/technical/" then "technical"
    else "technical"
  L.join [carlRoot, ".carl/project", scopeType, "completed"]

/-! ## Archival workflow -/

/-- The `catch` block of `commitAndMoveFiles` (lines 145-157): one rollback command,
whose own failure is swallowed, then `false`. -/
def rollbackCompletion (w : World) : Bool × World :=
  (false, (w.execSync "git reset --hard HEAD~1").2)

/-- The first commit message of `commitAndMoveFiles` (lines 101-109). -/
def completionCommitMessage (L : Lib) (scopeType intentName : String)
    (completionPercentage phase : JSValue) : String :=
  "feat: Complete " ++ scopeType ++ " " ++ intentName ++ " - move to completed folder\n\n"
    ++ "Automatic completion workflow triggered by CARL task command.\n"
    ++ "Completion: "
    ++ L.toStr (if completionPercentage.truthy then completionPercentage
                else JSValue.num (JSNum.fin 100))
    ++ "%\nPhase: "
    ++ L.toStr (if phase.truthy then phase else JSValue.str "completed")
    ++ "\n\n🤖 Generated with [Claude Code](https://claude.ai/code)\n\n"
    ++ "Co-Authored-By: Claude <noreply@anthropic.com>"

/-- The second commit message of `commitAndMoveFiles` (lines 128-138). -/
def moveCommitMessage (scopeType intentName intentFileName stateFileName : String) : String :=
  "feat: Move completed " ++ scopeType ++ " " ++ intentName ++ " to completed folder\n\n"
    ++ "Files moved:\n- " ++ intentFileName ++ " → completed/\n- " ++ stateFileName
    ++ " → completed/\n\nPreserves git history and maintains project organization.\n\n"
    ++ "🤖 Generated with [Claude Code](https://claude.ai/code)\n\n"
    ++ "Co-Authored-By: Claude <noreply@anthropic.com>"

/-- Source: `commitAndMoveFiles` (lines 89-158).  A `none` path is `undefined`: it
prints as "undefined" in a template literal and makes `path.basename` throw.  Every
failure jumps to the `catch` block, `rollbackCompletion`. -/
def commitAndMoveFiles (L : Lib) (w : World) (completionInfo : CompletionCheck) :
    Bool × World :=
  let stateData := completionInfo.stateData
  match completionInfo.intentPath with
  | none => rollbackCompletion w
  | some intentPath =>
    let statePathText := completionInfo.statePath.getD "undefined"
    let staged := w.execSync ("git add \"" ++ intentPath ++ "\" \"" ++ statePathText ++ "\"")
    if staged.1 = false then rollbackCompletion staged.2
    else
      let intentName := L.basenameExt intentPath ".intent.carl"
      let scopeType := getScopeTypeFromPath intentPath
      match stateData.getProp "completion_percentage", stateData.getProp "phase" with
      | .ok completionPercentage, .ok phase =>
        let commitMessage :=
          completionCommitMessage L scopeType intentName completionPercentage phase
        let committed := staged.2.execSync ("git commit -m \"" ++ commitMessage ++ "\"")
        if committed.1 = false then rollbackCompletion committed.2
        else
          let completedDir := getCompletedDirectory L committed.2 intentPath
          match committed.2.ensureDir completedDir with
          | .error _ => rollbackCompletion committed.2
          | .ok w3 =>
            match completionInfo.statePath with
            | none => rollbackCompletion w3
            | some statePath =>
              let intentFileName := L.basename intentPath
              let stateFileName := L.basename statePath
              let targetIntentPath := L.join [completedDir, intentFileName]
              let targetStatePath := L.join [completedDir, stateFileName]
              let movedIntent := w3.execSync
                ("git mv \"" ++ intentPath ++ "\" \"" ++ targetIntentPath ++ "\"")
              if movedIntent.1 = false then rollbackCompletion movedIntent.2
              else
                let movedState := movedIntent.2.execSync
                  ("git mv \"" ++ statePath ++ "\" \"" ++ targetStatePath ++ "\"")
                if movedState.1 = false then rollbackCompletion movedState.2
                else
                  let moveCommitted := movedState.2.execSync
                    ("git commit -m \""
                      ++ moveCommitMessage scopeType intentName intentFileName stateFileName
                      ++ "\"")
                  if moveCommitted.1 = false then rollbackCompletion moveCommitted.2
                  else (true, moveCommitted.2)
      | _, _ => rollbackCompletion staged.2

/-! ## Active work tracking -/

/-- JavaScript `items.filter(pred)` for a predicate that may throw. -/
def filterItems (pred : JSValue → Except String Bool) :
    List JSValue → Except String (List JSValue)
  | [] => .ok []
  | x :: xs =>
    match pred x with
    | .error e => .error e
    | .ok keep =>
      match filterItems pred xs with
      | .error e => .error e
      | .ok rest => .ok (if keep then x :: rest else rest)

/-- The call `v.filter(pred)`: a `TypeError` unless `v` is a sequence. -/
def jsFilter (v : JSValue) (pred : JSValue → Except String Bool) : Except String JSValue :=
  match v with
  | JSValue.arr items =>
    match filterItems pred items with
    | .error e => .error e
    | .ok kept => .ok (JSValue.arr kept)
  | _ => .error "TypeError: filter is not a function"

/-- The predicate `item => item.id !== intentId`. -/
def idDiffers (intentId : String) (item : JSValue) : Except String Bool :=
  match item.getProp "id" with
  | .error e => .error e
  | .ok id => .ok (!id.strictEqStr intentId)

/-- The predicate `task => !task.task.includes(intentId)`. -/
def taskOmits (intentId : String) (task : JSValue) : Except String Bool :=
  match task.getProp "task" with
  | .error e => .error e
  | .ok (JSValue.str text) => .ok (!jsIncludes text intentId)
  | .ok (JSValue.arr items) => .ok (!items.any (fun x => x.strictEqStr intentId))
  | .ok _ => .error "TypeError: includes is not a function"

/-- One round of the `forEach` over the work-queue sections (lines 195-201). -/
def filterSection (intentId : String) (workQueue : JSValue) (sectionName : String) :
    Except String JSValue :=
  match workQueue.getProp sectionName with
  | .error e => .error e
  | .ok items =>
    if items.truthy then
      match jsFilter items (idDiffers intentId) with
      | .error e => .error e
      | .ok kept => .ok (workQueue.setProp sectionName kept)
    else .ok workQueue

/-- The in-memory update of the parsed active-work document (lines 193-210). -/
def removeFromActiveWork (intentId : String) (activeWork : JSValue) : Except String JSValue := do
  let workQueue ← activeWork.getProp "work_queue"
  let activeWork1 ←
    if workQueue.truthy then do
      let q1 ← filterSection intentId workQueue "in_progress"
      let q2 ← filterSection intentId q1 "ready_for_work"
      let q3 ← filterSection intentId q2 "blocked"
      pure (activeWork.setProp "work_queue" q3)
    else pure activeWork
  let suggestions ← activeWork1.getProp "intelligent_suggestions"
  if suggestions.truthy then do
    let tasks ← suggestions.getProp "next_logical_tasks"
    if tasks.truthy then do
      let kept ← jsFilter tasks (taskOmits intentId)
      pure (activeWork1.setProp "intelligent_suggestions"
        (suggestions.setProp "next_logical_tasks" kept))
    else pure activeWork1
  else pure activeWork1

/-- Source: `updateActiveWorkTracking` (lines 178-223).  A `null` content makes the
function return `false`: `yaml.parse(null)` throws or yields `null`, and then the
first property read throws. -/
def updateActiveWorkTracking (L : Lib) (w : World) (intentPath : String) : Bool × World :=
  let carlRoot := w.carlRoot
  let activeWorkPath := L.join [carlRoot, ".carl/project/active.work.carl"]
  match w.files.pathExists activeWorkPath with
  | .error _ => (false, w)
  | .ok false => (true, w)
  | .ok true =>
    match w.files.safeReadFile activeWorkPath with
    | none => (false, w)
    | some activeWorkContent =>
      match L.yamlParse activeWorkContent with
      | .error _ => (false, w)
      | .ok activeWork =>
        let intentId :=
          String.map (fun c => if c = '.' then '_' else c) (L.basenameExt intentPath ".intent.carl")
        match removeFromActiveWork intentId activeWork with
        | .error _ => (false, w)
        | .ok updated =>
          match w.writeFile activeWorkPath (L.yamlStringify updated) with
          | .error _ => (false, w)
          | .ok w1 => (true, w1)

/-! ## Aggregation engine -/

/-- The in-memory update of the parsed state document in
`updateParentCompletionPercentage` (lines 655-673), with the clock readings it makes. -/
def applyPercentage (L : Lib) (w : World) (stateData : JSValue) (roundedPercentage : JSNum) :
    Except String (JSValue × World) :=
  match stateData.getProp "metadata" with
  | .error e => .error e
  | .ok metadata =>
    let first := w.isoNow L
    let second := first.2.isoNow L
    if metadata.truthy then
      let m1 := metadata.setProp "completion_percentage" (JSValue.num roundedPercentage)
      let m2 := m1.setProp "last_updated" (JSValue.str first.1)
      if roundedPercentage.ge (JSNum.fin 100) then
        let m3 := m2.setProp "status" (JSValue.str "completed")
        let m4 := m3.setProp "completion_date" (JSValue.str second.1)
        .ok (stateData.setProp "metadata" m4, second.2)
      else .ok (stateData.setProp "metadata" m2, first.2)
    else
      let s1 := stateData.setProp "completion_percentage" (JSValue.num roundedPercentage)
      let s2 := s1.setProp "last_updated" (JSValue.str first.1)
      if roundedPercentage.ge (JSNum.fin 100) then
        let s3 := s2.setProp "status" (JSValue.str "completed")
        let s4 := s3.setProp "completion_date" (JSValue.str second.1)
        .ok (s4, second.2)
      else .ok (s2, first.2)

/-- The completion trigger at the end of `updateParentCompletionPercentage`
(lines 681-689). -/
def triggerCompletionWorkflow (L : Lib) (w : World) (parentIntentPath : String) : World :=
  let completionCheck := checkIntentCompletion L w parentIntentPath
  if completionCheck.completed then
    let moved := commitAndMoveFiles L w completionCheck
    let tracked := updateActiveWorkTracking L moved.2 parentIntentPath
    tracked.2
  else w

/-- Source: `updateParentCompletionPercentage` (lines 630-697). -/
def updateParentCompletionPercentage (L : Lib) (w : World) (parentIntentPath : String)
    (newCompletionPercentage : JSNum) : Bool × World :=
  let parentStatePath := statePathOf parentIntentPath
  match w.files.pathExists parentStatePath with
  | .error _ => (false, w)
  | .ok false => (false, w)
  | .ok true =>
    match w.files.safeReadFile parentStatePath with
    | none => (false, w)
    | some content =>
      if content = "" then (false, w)
      else
        match L.yamlParse content with
        | .error _ => (false, w)
        | .ok stateData =>
          if !stateData.truthy then (false, w)
          else
            let roundedPercentage := JSNum.round2 newCompletionPercentage
            match applyPercentage L w stateData roundedPercentage with
            | .error _ => (false, w)
            | .ok (updated, w1) =>
              let updatedContent := L.yamlStringify updated
              match w1.writeFile parentStatePath updatedContent with
              | .error _ => (false, w1)
              | .ok w2 =>
                if roundedPercentage.ge (JSNum.fin 100) then
                  (true, triggerCompletionWorkflow L w2 parentIntentPath)
                else (true, w2)

/-- One entry of the relationship graph built by `buildHierarchicalMap`. -/
structure Relationship where
  parent : JSValue
  children : List JSValue
  parentPath : Option String
  childPaths : List String

/-- The relationship graph: a `Map` from intent path to entry, in insertion order. -/
abbrev RelationshipMap := List (String × Relationship)

/-- Source: `getChildIntentPaths` (lines 531-536), given the map that
`await buildHierarchicalMap()` returned. -/
def getChildIntentPaths (relationshipMap : RelationshipMap) (parentIntentPath : String) :
    List String :=
  match relationshipMap.lookup parentIntentPath with
  | some relationship => relationship.childPaths
  | none => []

/-- The object returned by `recalculateParentCompletion`; `none` is `null` (for
`childrenData`: an absent property). -/
structure RecalcResult where
  success : Bool
  oldPercentage : Option JSNum
  newPercentage : Option JSNum
  childrenData : Option (Nat × List (Option JSNum))

/-- The expression `currentPercentage || 0` for a `number | null`. -/
def orZero : Option JSNum → JSNum
  | some n => if n.truthy then n else JSNum.fin 0
  | none => JSNum.fin 0

/-- A `number | null` as a JavaScript value. -/
def percentageValue : Option JSNum → JSValue
  | some n => JSValue.num n
  | none => JSValue.null

/-- The percentages of the children of a parent, in the order of `childIntentPaths`
(lines 721-726). -/
def childPercentages (L : Lib) (w : World) (childIntentPaths : List String) :
    List (Option JSNum) :=
  childIntentPaths.map (fun childPath => getCompletionPercentage L w (statePathOf childPath))

/-- The value `newCompletionPercentage` of `recalculateParentCompletion` (lines
720-729): the average of the children's percentages. -/
def childrenAverage (L : Lib) (w : World) (relationshipMap : RelationshipMap)
    (parentIntentPath : String) : JSNum :=
  calculateAverageCompletion
    (some ((childPercentages L w
      (getChildIntentPaths relationshipMap parentIntentPath)).map percentageValue))

/-- The value `percentageDifference` of `recalculateParentCompletion` (line 734). -/
def percentageDifference (L : Lib) (w : World) (relationshipMap : RelationshipMap)
    (parentIntentPath : String) : JSNum :=
  JSNum.abs (JSNum.sub
    (orZero (getCompletionPercentage L w (statePathOf parentIntentPath)))
    (childrenAverage L w relationshipMap parentIntentPath))

/-- Source: `recalculateParentCompletion` (lines 704-761).  The argument
`hierarchicalMap` is the outcome of the `await buildHierarchicalMap()` made by
`getChildIntentPaths`: a thrown error or the graph. -/
def recalculateParentCompletion (L : Lib) (w : World)
    (hierarchicalMap : Except String RelationshipMap) (parentIntentPath : String) :
    RecalcResult × World :=
  let parentStatePath := statePathOf parentIntentPath
  let currentPercentage := getCompletionPercentage L w parentStatePath
  match hierarchicalMap with
  | .error _ =>
    ({ success := false, oldPercentage := none, newPercentage := none, childrenData := none }, w)
  | .ok relationshipMap =>
    let childIntentPaths := getChildIntentPaths relationshipMap parentIntentPath
    if childIntentPaths.length = 0 then
      ({ success := true, oldPercentage := currentPercentage,
         newPercentage := currentPercentage, childrenData := none }, w)
    else
      let childCompletionPercentages := childPercentages L w childIntentPaths
      let newCompletionPercentage :=
        calculateAverageCompletion (some (childCompletionPercentages.map percentageValue))
      let percentageDifference :=
        JSNum.abs (JSNum.sub (orZero currentPercentage) newCompletionPercentage)
      if percentageDifference.ge (JSNum.ofRat (1 / 100)) then
        let updated :=
          updateParentCompletionPercentage L w parentIntentPath newCompletionPercentage
        if updated.1 then
          ({ success := true, oldPercentage := currentPercentage,
             newPercentage := some newCompletionPercentage,
             childrenData := some (childIntentPaths.length, childCompletionPercentages) },
           updated.2)
        else
          ({ success := false, oldPercentage := currentPercentage, newPercentage := none,
             childrenData := none }, updated.2)
      else
        ({ success := true, oldPercentage := currentPercentage,
           newPercentage := currentPercentage, childrenData := none }, w)

/-! ## Scope classification and state path, as the specification words them -/

/-- The scope directories, in the order in which a path is tested against them. -/
def scopeDirectories : List String := ["epics", "features", "stories", "technical"]

/-- The first scope directory `d`, in the fixed order, such that the path contains the
segment `/d/`. -/
def firstScopeDirectory (path : String) : Option String :=
  scopeDirectories.find? (fun d => jsIncludes path ("/" ++ d ++ "/"))

/-- The value of the local variable `scopeType` of `getCompletedDirectory` (lines
70-79): the directory under which the completed item is filed. -/
def completedScopeOf (intentPath : String) : String :=
  if jsIncludes intentPath "/epics/" then "epics"
  else if jsIncludes intentPath "/features/" then "features"
  else if jsIncludes intentPath "/stories/" then "stories"
  else if jsIncludes intentPath "/technical/" then "technical"
  else "technical"

/-- The scope directory that goes with a scope type label. -/
def directoryOfLabel (label : String) : String :=
  if label = "epic" then "epics"
  else if label = "feature" then "features"
  else if label = "story" then "stories"
  else "technical"

/-- The intent suffix replaced by the state suffix at the end of the path: the path
itself when it does not end in `.intent.carl`. -/
def suffixStatePath (intentPath : String) : String :=
  if ".intent.carl".data.isSuffixOf intentPath.data then
    String.mk (intentPath.data.take (intentPath.data.length - ".intent.carl".data.length)
      ++ ".state.carl".data)
  else intentPath

/-! ## The archival workflow as a sequence of steps -/

/-- The steps of the archival workflow in the order of the specification (section 4.4);
the relocation is one move per file. -/
inductive ArchivalStep where
  | stage
  | firstCommit
  | createDirectory
  | moveIntent
  | moveState
  | secondCommit
  deriving DecidableEq

/-- All steps of the archival workflow, in order. -/
def archivalSteps : List ArchivalStep :=
  [ArchivalStep.stage, ArchivalStep.firstCommit, ArchivalStep.createDirectory,
   ArchivalStep.moveIntent, ArchivalStep.moveState, ArchivalStep.secondCommit]

/-- What one invocation of the archival workflow works on: the two paths and the two
fields of `stateData` that go into the first commit message. -/
structure ArchivalRecord where
  intentPath : String
  statePath : String
  completionPercentage : JSValue
  phase : JSValue

/-- The completed directory of an intent path for a given root: the value of
`getCompletedDirectory` in a world with that root. -/
def completedDirectoryAt (L : Lib) (root intentPath : String) : String :=
  L.join [root, ".carl/project", completedScopeOf intentPath, "completed"]

/-- The destination of the intent file. -/
def intentTarget (L : Lib) (root : String) (r : ArchivalRecord) : String :=
  L.join [completedDirectoryAt L root r.intentPath, L.basename r.intentPath]

/-- The destination of the state file. -/
def stateTarget (L : Lib) (root : String) (r : ArchivalRecord) : String :=
  L.join [completedDirectoryAt L root r.intentPath, L.basename r.statePath]

/-- The version-control command of a step; the directory creation has none. -/
def ArchivalStep.command (L : Lib) (root : String) (r : ArchivalRecord) :
    ArchivalStep → Option String
  | ArchivalStep.stage =>
    some ("git add \"" ++ r.intentPath ++ "\" \"" ++ r.statePath ++ "\"")
  | ArchivalStep.firstCommit =>
    some ("git commit -m \""
      ++ completionCommitMessage L (getScopeTypeFromPath r.intentPath)
          (L.basenameExt r.intentPath ".intent.carl") r.completionPercentage r.phase
      ++ "\"")
  | ArchivalStep.createDirectory => none
  | ArchivalStep.moveIntent =>
    some ("git mv \"" ++ r.intentPath ++ "\" \"" ++ intentTarget L root r ++ "\"")
  | ArchivalStep.moveState =>
    some ("git mv \"" ++ r.statePath ++ "\" \"" ++ stateTarget L root r ++ "\"")
  | ArchivalStep.secondCommit =>
    some ("git commit -m \""
      ++ moveCommitMessage (getScopeTypeFromPath r.intentPath)
          (L.basenameExt r.intentPath ".intent.carl") (L.basename r.intentPath)
          (L.basename r.statePath)
      ++ "\"")

/-- The mutation that a step records: the command issued, or the directory created. -/
def ArchivalStep.event (L : Lib) (root : String) (r : ArchivalRecord) (st : ArchivalStep) :
    Event :=
  match st.command L root r with
  | some command => Event.execSync command root
  | none => Event.ensureDir (completedDirectoryAt L root r.intentPath)

/-- What a failing step has recorded: the command it issued; a failed directory
creation records nothing. -/
def ArchivalStep.attempt (L : Lib) (root : String) (r : ArchivalRecord) (st : ArchivalStep) :
    List Event :=
  match st.command L root r with
  | some command => [Event.execSync command root]
  | none => []

/-- One step of the archival workflow: whether it succeeded, and the world after it. -/
def ArchivalStep.run (L : Lib) (r : ArchivalRecord) (st : ArchivalStep) (w : World) :
    Bool × World :=
  match st.command L w.carlRoot r with
  | some command => w.execSync command
  | none =>
    match w.ensureDir (completedDirectoryAt L w.carlRoot r.intentPath) with
    | .error _ => (false, w)
    | .ok w1 => (true, w1)

/-- The steps run in order, stopping at the first one that fails. -/
def runArchivalSteps (L : Lib) (r : ArchivalRecord) : List ArchivalStep → World → Bool × World
  | [], w => (true, w)
  | st :: rest, w =>
    if (st.run L r w).1 = false then (false, (st.run L r w).2)
    else runArchivalSteps L r rest (st.run L r w).2

/-- File-store model of `git mv src dst`: afterwards `dst` holds what `src` held and
`src` is gone. -/
def Files.move (f : Files) (src dst : String) : Files :=
  { pathExists := fun p =>
      if p = dst then .ok true else if p = src then .ok false else f.pathExists p
    safeReadFile := fun p =>
      if p = dst then f.safeReadFile src else if p = src then none else f.safeReadFile p }

/-- What a step does to the files in the file-store model: the two moves move, the
commands that stage and commit leave the working files as they are. -/
def ArchivalStep.fileEffect (L : Lib) (root : String) (r : ArchivalRecord) :
    ArchivalStep → Files → Files
  | ArchivalStep.moveIntent, f => f.move r.intentPath (intentTarget L root r)
  | ArchivalStep.moveState, f => f.move r.statePath (stateTarget L root r)
  | _, f => f

/-- The archival record of a completion object whose paths are `intentPath` and
`statePath`: the two fields of its `stateData` that the first commit message prints. -/
def recordOf (intentPath statePath : String) (stateData : JSValue) : ArchivalRecord :=
  { intentPath := intentPath
    statePath := statePath
    completionPercentage := stateData.field "completion_percentage"
    phase := stateData.field "phase" }

/-- The files after a successful `fs.ensureDir(dir)`. -/
def Files.withDirectory (f : Files) (dir : String) : Files :=
  { pathExists := fun p => if p = dir then .ok true else f.pathExists p
    safeReadFile := f.safeReadFile }

/-- What a successful step does to the files in the file-store model, the directory
creation included. -/
def ArchivalStep.storeEffect (L : Lib) (root : String) (r : ArchivalRecord)
    (st : ArchivalStep) (f : Files) : Files :=
  match st.command L root r with
  | some _ => st.fileEffect L root r f
  | none => f.withDirectory (completedDirectoryAt L root r.intentPath)

/-! ## Completion orchestrator -/

/-- A call made by the loop of `detectAndProcessCompletions`, with its outcome. -/
inductive OrchestratorCall where
  | check (intentPath : String) (completed : Bool)
  | archive (intentPath : String) (moved : Bool)
  | track (intentPath : String)
  deriving DecidableEq

/-- One round of the loop of `detectAndProcessCompletions` (lines 235-250): the
increment of `completionsProcessed`, the calls made, and the world afterwards. -/
def processCompletion (L : Lib) (w : World) (intentPath : String) :
    Nat × List OrchestratorCall × World :=
  let completionCheck := checkIntentCompletion L w intentPath
  if completionCheck.completed then
    let moved := commitAndMoveFiles L w completionCheck
    if moved.1 then
      let tracked := updateActiveWorkTracking L moved.2 intentPath
      (1, [OrchestratorCall.check intentPath true, OrchestratorCall.archive intentPath true,
           OrchestratorCall.track intentPath], tracked.2)
    else
      (0, [OrchestratorCall.check intentPath true, OrchestratorCall.archive intentPath false],
        moved.2)
  else (0, [OrchestratorCall.check intentPath false], w)

/-- The loop of `detectAndProcessCompletions` over the remaining paths: the number of
completions processed, the calls made, and the final world. -/
def completionLoop (L : Lib) : List String → World → Nat × List OrchestratorCall × World
  | [], w => (0, [], w)
  | intentPath :: rest, w =>
    let one := processCompletion L w intentPath
    let more := completionLoop L rest one.2.2
    (one.1 + more.1, one.2.1 ++ more.2.1, more.2.2)

/-- Source: `detectAndProcessCompletions` (lines 230-259): the number returned and the
world afterwards. -/
def detectAndProcessCompletions (L : Lib) (w : World) (activeIntentPaths : List String) :
    Nat × World :=
  ((completionLoop L activeIntentPaths w).1, (completionLoop L activeIntentPaths w).2.2)

/-- The calls made by `detectAndProcessCompletions`, in order. -/
def orchestratorCalls (L : Lib) (w : World) (activeIntentPaths : List String) :
    List OrchestratorCall :=
  (completionLoop L activeIntentPaths w).2.1

/-- The paths of the checks in a list of calls, in order. -/
def checkedPaths (calls : List OrchestratorCall) : List String :=
  calls.filterMap (fun c =>
    match c with
    | OrchestratorCall.check p _ => some p
    | _ => none)

/-- The test "this call is an archival that returned true". -/
def OrchestratorCall.isArchived : OrchestratorCall → Bool
  | OrchestratorCall.archive _ true => true
  | _ => false

/-- The calls that a path may give rise to: a check that finds it incomplete; a check
that finds it completed and an archival that fails; or a check, a successful archival
and the tracking update. -/
def callsAllowedFor (intentPath : String) (calls : List OrchestratorCall) : Prop :=
  calls = [OrchestratorCall.check intentPath false] ∨
  calls = [OrchestratorCall.check intentPath true, OrchestratorCall.archive intentPath false] ∨
  calls = [OrchestratorCall.check intentPath true, OrchestratorCall.archive intentPath true,
           OrchestratorCall.track intentPath]

/-! ## Commit history model -/

/-- What a successful command does to the commit history (newest commit first): a
commit adds one commit, `git reset --hard HEAD~1` drops the newest one, any other
command leaves the history as it is. -/
def historyAfterCommand (command : String) (history : List String) : List String :=
  if command.take 10 == "git commit" then command :: history
  else if command = "git reset --hard HEAD~1" then history.drop 1
  else history

/-- The commit history after the commands of a trace, for a version-control tool that
rejects exactly the commands selected by `failing`. -/
def replayHistory (failing : String → Bool) : List Event → List String → List String
  | [], history => history
  | Event.execSync command _ :: rest, history =>
    replayHistory failing rest
      (if failing command then history else historyAfterCommand command history)
  | _ :: rest, history => replayHistory failing rest history

/-! ## Relationship index builder -/

/-- What directory reads of the file system return. -/
structure Directories where
  /-- The function `fs.readdir(p)`: a rejection or the entry names, in listing order. -/
  readdir : String → Except String (List String)
  /-- The value `(await fs.stat(p)).isFile()`: a rejection of `fs.stat` or the answer. -/
  isFile : String → Except String Bool

/-- JavaScript `s.endsWith(suffix)`. -/
def jsEndsWith (s suffix : String) : Bool :=
  suffix.data.isSuffixOf s.data

/-- The object returned by `parseIntentRelationships`. -/
structure DeclaredRelationships where
  parent : JSValue
  children : List JSValue

/-- The literal `{ parent: null, children: [] }`. -/
def DeclaredRelationships.empty : DeclaredRelationships :=
  { parent := JSValue.null, children := [] }

/-- The part of `parseIntentRelationships` that follows the parse, for a truthy
`intentData` (lines 327-338). -/
def declaredRelationships (intentData : JSValue) : Except String DeclaredRelationships := do
  let declaredParent ← intentData.getProp "parent_id"
  let parentId := if declaredParent.truthy then declaredParent else JSValue.null
  let relationships ← intentData.getProp "relationships"
  if relationships.truthy then
    let declared ← relationships.getProp "child_relationships"
    if declared.truthy then
      match declared with
      | JSValue.arr items => pure { parent := parentId, children := items }
      | _ => pure { parent := parentId, children := [] }
    else pure { parent := parentId, children := [] }
  else pure { parent := parentId, children := [] }

/-- Source: `parseIntentRelationships` (lines 311-344). -/
def parseIntentRelationships (L : Lib) (f : Files) (intentPath : String) :
    DeclaredRelationships :=
  match f.pathExists intentPath with
  | .error _ => DeclaredRelationships.empty
  | .ok false => DeclaredRelationships.empty
  | .ok true =>
    match f.safeReadFile intentPath with
    | none => DeclaredRelationships.empty
    | some content =>
      if content = "" then DeclaredRelationships.empty
      else
        match L.yamlParse content with
        | .error _ => DeclaredRelationships.empty
        | .ok intentData =>
          if !intentData.truthy then DeclaredRelationships.empty
          else
            match declaredRelationships intentData with
            | .ok relationships => relationships
            | .error _ => DeclaredRelationships.empty

/-- Equality of `Map` keys (SameValueZero) between values that come from different
calls of `yaml.parse`: primitives are compared by value (`NaN` equals `NaN`), two
sequences or mappings are different objects. -/
def sameValueZero : JSValue → JSValue → Bool
  | JSValue.undefined, JSValue.undefined => true
  | JSValue.null, JSValue.null => true
  | JSValue.bool a, JSValue.bool b => decide (a = b)
  | JSValue.num a, JSValue.num b => decide (a = b)
  | JSValue.str a, JSValue.str b => decide (a = b)
  | _, _ => false

/-- The value stored for an intent id in the map `allIntentFiles`. -/
structure IntentRecord where
  path : String
  parent : JSValue
  children : List JSValue

/-- The map `allIntentFiles` of `buildHierarchicalMap`: from intent id to record, in
insertion order. -/
abbrev Inventory := List (JSValue × IntentRecord)

/-- The call `allIntentFiles.set(id, record)`: the value of an existing key is
replaced in place, a new key is added at the end. -/
def inventorySet (id : JSValue) (record : IntentRecord) : Inventory → Inventory
  | [] => [(id, record)]
  | (key, old) :: rest =>
    if sameValueZero key id then (key, record) :: rest
    else (key, old) :: inventorySet id record rest

/-- The call `allIntentFiles.has(id)`. -/
def inventoryHas (allIntentFiles : Inventory) (id : JSValue) : Bool :=
  allIntentFiles.any (fun entry => sameValueZero entry.1 id)

/-- The call `allIntentFiles.get(id)`; `none` is `undefined`. -/
def inventoryGet (allIntentFiles : Inventory) (id : JSValue) : Option IntentRecord :=
  (allIntentFiles.find? (fun entry => sameValueZero entry.1 id)).map (fun entry => entry.2)

/-- What one directory entry contributes to the inventory (lines 490-509): the id and
the record of an intent file with a truthy `id`, nothing for any other entry. -/
def declaredIntent (L : Lib) (f : Files) (dirPath file : String) :
    Option (JSValue × IntentRecord) :=
  if jsEndsWith file ".intent.carl" then
    let filePath := L.join [dirPath, file]
    let relationships := parseIntentRelationships L f filePath
    match f.safeReadFile filePath with
    | none => none
    | some content =>
      if content = "" then none
      else
        match L.yamlParse content with
        | .error _ => none
        | .ok intentData =>
          if !intentData.truthy then none
          else
            match intentData.getProp "id" with
            | .error _ => none
            | .ok id =>
              if id.truthy then
                some (id, { path := filePath
                            parent := relationships.parent
                            children := relationships.children })
              else none
  else none

/-- One round of the loop of `processDirectoryForRelationships` (lines 489-511). -/
def registerIntentFile (L : Lib) (f : Files) (dirPath : String) (allIntentFiles : Inventory)
    (file : String) : Inventory :=
  match declaredIntent L f dirPath file with
  | some (id, record) => inventorySet id record allIntentFiles
  | none => allIntentFiles

/-- Source: `processDirectoryForRelationships` (lines 486-512): an error when
`fs.readdir` rejects, else the inventory after the files of the directory. -/
def processDirectoryForRelationships (L : Lib) (d : Directories) (f : Files)
    (dirPath : String) (allIntentFiles : Inventory) : Except String Inventory :=
  match d.readdir dirPath with
  | .error e => .error e
  | .ok files => .ok (files.foldl (registerIntentFile L f dirPath) allIntentFiles)

/-- One round of the first pass of `buildHierarchicalMap` (lines 432-447): the active
directory of a scope and then its `completed` directory. -/
def scanScopeDirectory (L : Lib) (d : Directories) (f : Files) (projectDir : String)
    (allIntentFiles : Inventory) (scopeDir : String) : Except String Inventory :=
  let fullScopeDir := L.join [projectDir, scopeDir]
  match f.pathExists fullScopeDir with
  | .error e => .error e
  | .ok false => .ok allIntentFiles
  | .ok true =>
    match processDirectoryForRelationships L d f fullScopeDir allIntentFiles with
    | .error e => .error e
    | .ok active =>
      let completedDir := L.join [fullScopeDir, "completed"]
      match f.pathExists completedDir with
      | .error e => .error e
      | .ok false => .ok active
      | .ok true => processDirectoryForRelationships L d f completedDir active

/-- The loop of the first pass over the remaining scope directories. -/
def scanScopeDirectories (L : Lib) (d : Directories) (f : Files) (projectDir : String) :
    List String → Inventory → Except String Inventory
  | [], allIntentFiles => .ok allIntentFiles
  | scopeDir :: rest, allIntentFiles =>
    match scanScopeDirectory L d f projectDir allIntentFiles scopeDir with
    | .error e => .error e
    | .ok next => scanScopeDirectories L d f projectDir rest next

/-- The first pass of `buildHierarchicalMap` (lines 426-447); `cwd` is the value of
`process.cwd()`. -/
def collectIntentFiles (L : Lib) (d : Directories) (f : Files) (cwd : String) :
    Except String Inventory :=
  scanScopeDirectories L d f (L.join [cwd, ".carl", "project"])
    ["epics", "features", "stories", "technical"] []

/-- The entry that the second pass computes for one record (lines 451-470). -/
def resolveRelationship (allIntentFiles : Inventory) (data : IntentRecord) : Relationship :=
  { parent := data.parent
    children := data.children
    parentPath :=
      if data.parent.truthy && inventoryHas allIntentFiles data.parent then
        (inventoryGet allIntentFiles data.parent).map (fun found => found.path)
      else none
    childPaths :=
      data.children.filterMap (fun childId =>
        if inventoryHas allIntentFiles childId then
          (inventoryGet allIntentFiles childId).map (fun found => found.path)
        else none) }

/-- The call `relationshipMap.set(path, entry)`. -/
def relationshipSet (path : String) (entry : Relationship) : RelationshipMap → RelationshipMap
  | [] => [(path, entry)]
  | (key, old) :: rest =>
    if key = path then (key, entry) :: rest
    else (key, old) :: relationshipSet path entry rest

/-- The second pass of `buildHierarchicalMap` (lines 449-471). -/
def resolveRelationships (allIntentFiles : Inventory) : RelationshipMap :=
  allIntentFiles.foldl
    (fun relationshipMap entry =>
      relationshipSet entry.2.path (resolveRelationship allIntentFiles entry.2) relationshipMap)
    []

/-- The rebuild of `buildHierarchicalMap` (lines 423-471): both passes over the file
tree as it is. -/
def scanRelationships (L : Lib) (d : Directories) (f : Files) (cwd : String) :
    Except String RelationshipMap :=
  match collectIntentFiles L d f cwd with
  | .error e => .error e
  | .ok allIntentFiles => .ok (resolveRelationships allIntentFiles)

/-- The module-level variables `relationshipCache` and `cacheTimestamp` (lines
302-303); `none` is `null`. -/
structure RelationshipCache where
  relationshipCache : RelationshipMap
  cacheTimestamp : Option Int

/-- The state of the cache when the module is loaded. -/
def RelationshipCache.initial : RelationshipCache :=
  { relationshipCache := [], cacheTimestamp := none }

/-- The constant `CACHE_DURATION` (line 304), in milliseconds. -/
def CACHE_DURATION : Int := 300000

/-- The cache test of `buildHierarchicalMap` (line 418), `now` being `Date.now()`. -/
def cacheIsValid (cache : RelationshipCache) (now : Int) : Bool :=
  decide (cache.relationshipCache.length > 0) &&
    (match cache.cacheTimestamp with
     | none => false
     | some cacheTimestamp =>
       decide (cacheTimestamp ≠ 0) && decide (now - cacheTimestamp < CACHE_DURATION))

/-- Source: `buildHierarchicalMap` (lines 415-479): the returned graph or the thrown
error, and the cache afterwards. -/
def buildHierarchicalMap (L : Lib) (d : Directories) (f : Files) (cwd : String) (now : Int)
    (cache : RelationshipCache) : Except String RelationshipMap × RelationshipCache :=
  if cacheIsValid cache now then (.ok cache.relationshipCache, cache)
  else
    match scanRelationships L d f cwd with
    | .error e => (.error e, cache)
    | .ok relationshipMap =>
      (.ok relationshipMap, { relationshipCache := relationshipMap, cacheTimestamp := some now })

/-- Source: `clearRelationshipCache` (lines 541-545). -/
def clearRelationshipCache (_cache : RelationshipCache) : RelationshipCache :=
  { relationshipCache := [], cacheTimestamp := none }

/-- Source: `getParentIntentPath` (lines 519-524), given the map that
`await buildHierarchicalMap()` returned; `none` is `null`. -/
def getParentIntentPath (relationshipMap : RelationshipMap) (childIntentPath : String) :
    Option String :=
  match relationshipMap.lookup childIntentPath with
  | some relationship => relationship.parentPath
  | none => none

/-! ## Full project review -/

/-- The inner loop of `fullProjectReview` (lines 279-287) over the remaining entries
of one scope directory. -/
def pushIntentFiles (L : Lib) (d : Directories) (scopePath : String) :
    List String → List String → Except String (List String)
  | [], intentFiles => .ok intentFiles
  | file :: rest, intentFiles =>
    if jsEndsWith file ".intent.carl" then
      match d.isFile (L.join [scopePath, file]) with
      | .error e => .error e
      | .ok true => pushIntentFiles L d scopePath rest (intentFiles ++ [L.join [scopePath, file]])
      | .ok false => pushIntentFiles L d scopePath rest intentFiles
    else pushIntentFiles L d scopePath rest intentFiles

/-- The outer loop of `fullProjectReview` (lines 275-289) over the remaining scope
directories. -/
def findIntentFiles (L : Lib) (d : Directories) (f : Files) (projectRoot : String) :
    List String → List String → Except String (List String)
  | [], intentFiles => .ok intentFiles
  | scopeDir :: rest, intentFiles =>
    match f.pathExists (L.join [projectRoot, scopeDir]) with
    | .error e => .error e
    | .ok false => findIntentFiles L d f projectRoot rest intentFiles
    | .ok true =>
      match d.readdir (L.join [projectRoot, scopeDir]) with
      | .error e => .error e
      | .ok files =>
        match pushIntentFiles L d (L.join [projectRoot, scopeDir]) files intentFiles with
        | .error e => .error e
        | .ok found => findIntentFiles L d f projectRoot rest found

/-- The list `intentFiles` that `fullProjectReview` passes on (lines 268-289), or the
error thrown while collecting it. -/
def reviewedIntentFiles (L : Lib) (d : Directories) (w : World) : Except String (List String) :=
  findIntentFiles L d w.files (L.join [w.carlRoot, ".carl/project"])
    ["epics", "features", "stories", "technical"] []

/-- Source: `fullProjectReview` (lines 265-292): the thrown error, or the number
returned and the world afterwards. -/
def fullProjectReview (L : Lib) (d : Directories) (w : World) : Except String (Nat × World) :=
  match reviewedIntentFiles L d w with
  | .error e => .error e
  | .ok intentFiles => .ok (detectAndProcessCompletions L w intentFiles)

/-- The intent files of one scope directory as the specification words them: the
entries whose name ends in `.intent.carl` and that are regular files. -/
def regularIntentFiles (L : Lib) (d : Directories) (scopePath : String) : List String :=
  match d.readdir scopePath with
  | .error _ => []
  | .ok files =>
    ((files.filter (fun file => jsEndsWith file ".intent.carl")).map
      (fun file => L.join [scopePath, file])).filter
        (fun filePath =>
          match d.isFile filePath with
          | .ok true => true
          | _ => false)

/-- The files of a review as the specification words them: the regular intent files
located directly in the existing scope directories, in the order of the scopes. -/
def filesUnderReview (L : Lib) (d : Directories) (w : World) : List String :=
  (scopeDirectories.filter (fun scopeDir =>
      match w.files.pathExists (L.join [L.join [w.carlRoot, ".carl/project"], scopeDir]) with
      | .ok true => true
      | _ => false)).flatMap
    (fun scopeDir =>
      regularIntentFiles L d (L.join [L.join [w.carlRoot, ".carl/project"], scopeDir]))

/-! ## The inventory of intent files, as the specification words it -/

/-- The intent files with a declared id of one directory, in listing order, with their
ids and records. -/
def directoryIntents (L : Lib) (d : Directories) (f : Files) (dirPath : String) :
    List (JSValue × IntentRecord) :=
  match d.readdir dirPath with
  | .error _ => []
  | .ok files => files.filterMap (declaredIntent L f dirPath)

/-- The intent files with a declared id of one scope: those of its directory, then
those of its `completed` subdirectory. -/
def scopeIntents (L : Lib) (d : Directories) (f : Files) (projectDir scopeDir : String) :
    List (JSValue × IntentRecord) :=
  match f.pathExists (L.join [projectDir, scopeDir]) with
  | .ok true =>
    directoryIntents L d f (L.join [projectDir, scopeDir]) ++
      (match f.pathExists (L.join [L.join [projectDir, scopeDir], "completed"]) with
       | .ok true => directoryIntents L d f (L.join [L.join [projectDir, scopeDir], "completed"])
       | _ => [])
  | _ => []

/-- The inventoried items: the intent files with a declared id found in the four scope
directories and their `completed` subdirectories, in scan order. -/
def declaredIntents (L : Lib) (d : Directories) (f : Files) (cwd : String) :
    List (JSValue × IntentRecord) :=
  scopeDirectories.flatMap (scopeIntents L d f (L.join [cwd, ".carl", "project"]))

/-- The property "no two entries carry the same id". -/
def DistinctIds (entries : List (JSValue × IntentRecord)) : Prop :=
  entries.Pairwise (fun a b => sameValueZero a.1 b.1 = false)

/-- The path that a declared id resolves to: the path of the inventoried item with
this id, if there is one. -/
def resolvedPath (entries : List (JSValue × IntentRecord)) (id : JSValue) : Option String :=
  (entries.find? (fun entry => sameValueZero entry.1 id)).map (fun entry => entry.2.path)

/-! ## Files written -/

/-- The paths written with `fs.writeFile` among a list of mutations, in order. -/
def writtenPaths (events : List Event) : List String :=
  events.filterMap (fun event =>
    match event with
    | Event.writeFile path _ => some path
    | _ => none)

/-! ## Example libraries and worlds -/

/-- A library whose `yaml.parse` knows exactly the listed texts (and throws on any
other text) and whose `yaml.stringify` returns the listed text of a listed document.
Its `path` functions split and join on "/". -/
def Lib.ofDocs (docs : List (String × JSValue)) : Lib :=
  { yamlParse := fun text =>
      match docs.lookup text with
      | some v => .ok v
      | none => .error "YAMLParseError"
    yamlStringify := fun v =>
      match docs.find? (fun d => d.2.beq v) with
      | some d => d.1
      | none => ""
    basename := fun p => String.mk ((p.data.reverse.takeWhile (fun c => c != '/')).reverse)
    basenameExt := fun p ext =>
      let base := String.mk ((p.data.reverse.takeWhile (fun c => c != '/')).reverse)
      if ext.data.isSuffixOf base.data ∧ base ≠ ext then
        String.mk (base.data.take (base.length - ext.length))
      else base
    join := fun parts => String.intercalate "/" parts
    toISOString := fun t => "T" ++ toString t
    toStr := fun _ => "" }

/-- A world holding exactly the listed readable files, in which every write and every
version-control command succeeds (commands leave the files unchanged). -/
def World.ofFiles (files : List (String × String)) : World :=
  { files :=
      { pathExists := fun p => .ok (files.lookup p).isSome
        safeReadFile := fun p => files.lookup p }
    writeFileFails := fun _ => false
    ensureDirFails := fun _ => false
    git := fun _ _ fs => some fs
    carlRoot := "/repo"
    clock := fun k => 1700000000000 + k
    ticks := 0
    trace := [] }

/-- A state document whose top level says 85 / development while `status` and every
field under `metadata` say completed. -/
def nestedOnlyDoc : JSValue :=
  JSValue.obj
    [("completion_percentage", JSValue.num (JSNum.fin 85)),
     ("phase", JSValue.str "development"),
     ("status", JSValue.str "completed"),
     ("metadata", JSValue.obj
        [("completion_percentage", JSValue.num (JSNum.fin 100)),
         ("status", JSValue.str "completed"),
         ("phase", JSValue.str "completed")])]

/-- The YAML text of `nestedOnlyDoc`. -/
def nestedOnlyText : String :=
  "completion_percentage: 85\nphase: development\nstatus: completed\nmetadata:\n  completion_percentage: 100\n  status: completed\n  phase: completed\n"

/-- A state document with percentage 95 and phase completed. -/
def phaseCompletedDoc : JSValue :=
  JSValue.obj
    [("completion_percentage", JSValue.num (JSNum.fin 95)),
     ("phase", JSValue.str "completed")]

/-- A state document whose percentage is the YAML float `.nan`. -/
def nanDoc : JSValue :=
  JSValue.obj [("completion_percentage", JSValue.num JSNum.nan)]

/-- A parser for the example documents. -/
def readLib : Lib :=
  Lib.ofDocs
    [(nestedOnlyText, nestedOnlyDoc),
     ("completion_percentage: 95\nphase: \"completed\"\n", phaseCompletedDoc),
     ("completion_percentage: .nan\n", nanDoc),
     ("~\n", JSValue.null)]

/-- A world with one state file per example document, an empty state file and a
state file that is not valid YAML. -/
def readWorld : World :=
  World.ofFiles
    [("/repo/.carl/project/features/a.state.carl", nestedOnlyText),
     ("/repo/.carl/project/features/b.state.carl", "completion_percentage: 95\nphase: \"completed\"\n"),
     ("/repo/.carl/project/features/c.state.carl", "completion_percentage: .nan\n"),
     ("/repo/.carl/project/features/empty.state.carl", ""),
     ("/repo/.carl/project/features/bad.state.carl", "invalid: yaml: content: [")]

/-- The state document `completion_percentage: 0`, `phase: development`. -/
def freshDoc : JSValue :=
  JSValue.obj
    [("completion_percentage", JSValue.num (JSNum.fin 0)),
     ("phase", JSValue.str "development")]

/-- The document `freshDoc` after its percentage was set to 75 at the first clock
reading. -/
def freshDocAt75 : JSValue :=
  JSValue.obj
    [("completion_percentage", JSValue.num (JSNum.fin 75)),
     ("phase", JSValue.str "development"),
     ("last_updated", JSValue.str "T1700000000000")]

/-- The document `freshDoc` after its percentage was set to 100. -/
def freshDocAt100 : JSValue :=
  JSValue.obj
    [("completion_percentage", JSValue.num (JSNum.fin 100)),
     ("phase", JSValue.str "development"),
     ("last_updated", JSValue.str "T1700000000000"),
     ("status", JSValue.str "completed"),
     ("completion_date", JSValue.str "T1700000000001")]

/-- A state document that keeps its percentage under `metadata`. -/
def nestedDoc : JSValue :=
  JSValue.obj
    [("phase", JSValue.str "development"),
     ("metadata", JSValue.obj [("completion_percentage", JSValue.num (JSNum.fin 50))])]

/-- The document `nestedDoc` after its percentage was set to 100. -/
def nestedDocAt100 : JSValue :=
  JSValue.obj
    [("phase", JSValue.str "development"),
     ("metadata", JSValue.obj
        [("completion_percentage", JSValue.num (JSNum.fin 100)),
         ("last_updated", JSValue.str "T1700000000000"),
         ("status", JSValue.str "completed"),
         ("completion_date", JSValue.str "T1700000000001")])]

/-- The YAML text of `nestedDocAt100`. -/
def nestedTextAt100 : String :=
  "phase: development\nmetadata:\n  completion_percentage: 100\n  last_updated: T1700000000000\n  status: completed\n  completion_date: T1700000000001\n"

/-- The YAML text of `freshDocAt100`. -/
def freshTextAt100 : String :=
  "completion_percentage: 100\nphase: development\nlast_updated: T1700000000000\nstatus: completed\ncompletion_date: T1700000000001\n"

/-- A parser and printer for the documents of the aggregation examples. -/
def treeLib : Lib :=
  Lib.ofDocs
    [("completion_percentage: 0\nphase: development\n", freshDoc),
     ("completion_percentage: 75\nphase: development\nlast_updated: T1700000000000\n",
        freshDocAt75),
     (freshTextAt100, freshDocAt100),
     ("phase: development\nmetadata:\n  completion_percentage: 50\n", nestedDoc),
     (nestedTextAt100, nestedDocAt100),
     ("completion_percentage: 100\n",
        JSValue.obj [("completion_percentage", JSValue.num (JSNum.fin 100))]),
     ("completion_percentage: 50\n",
        JSValue.obj [("completion_percentage", JSValue.num (JSNum.fin 50))])]

/-- A feature with two stories, one at 100 and one at 50; a second feature that keeps
its percentage under `metadata`, with one story at 100; a third feature whose state
file is missing, with one story at 50; and a feature without children. -/
def treeWorld : World :=
  World.ofFiles
    [("/repo/.carl/project/features/parent.state.carl",
        "completion_percentage: 0\nphase: development\n"),
     ("/repo/.carl/project/features/nested.state.carl",
        "phase: development\nmetadata:\n  completion_percentage: 50\n"),
     ("/repo/.carl/project/features/leaf.state.carl",
        "completion_percentage: 0\nphase: development\n"),
     ("/repo/.carl/project/stories/done.state.carl", "completion_percentage: 100\n"),
     ("/repo/.carl/project/stories/half.state.carl", "completion_percentage: 50\n")]

/-- The relationship graph of `treeWorld`. -/
def treeMap : RelationshipMap :=
  [("/repo/.carl/project/features/parent.intent.carl",
      { parent := JSValue.null
        children := [JSValue.str "done", JSValue.str "half"]
        parentPath := none
        childPaths := ["/repo/.carl/project/stories/done.intent.carl",
                       "/repo/.carl/project/stories/half.intent.carl"] }),
   ("/repo/.carl/project/features/nested.intent.carl",
      { parent := JSValue.null
        children := [JSValue.str "done"]
        parentPath := none
        childPaths := ["/repo/.carl/project/stories/done.intent.carl"] }),
   ("/repo/.carl/project/features/ghost.intent.carl",
      { parent := JSValue.null
        children := [JSValue.str "half"]
        parentPath := none
        childPaths := ["/repo/.carl/project/stories/half.intent.carl"] }),
   ("/repo/.carl/project/features/leaf.intent.carl",
      { parent := JSValue.null
        children := [JSValue.str "unknown"]
        parentPath := none
        childPaths := [] })]

/-- A version-control tool in which every command succeeds: a listed command
(command, source, destination) moves the source file to the destination, every other
command leaves the files as they are. -/
def moveGit (moves : List (String × String × String)) :
    List Event → String → Files → Option Files :=
  fun _ command f =>
    match moves.lookup command with
    | some (src, dst) => some (f.move src dst)
    | none => some f

/-- The completion object of the finished feature "parent". -/
def parentCompletion : CompletionCheck :=
  { completed := true
    stateData := freshDocAt100
    intentPath := some "/repo/.carl/project/features/parent.intent.carl"
    statePath := some "/repo/.carl/project/features/parent.state.carl" }

/-- A repository holding the intent and state file of the finished feature "parent",
with a version-control tool that performs the two moves of its archival. -/
def moveWorld : World :=
  { World.ofFiles
      [("/repo/.carl/project/features/parent.intent.carl", "id: parent\n"),
       ("/repo/.carl/project/features/parent.state.carl", freshTextAt100)] with
    git := moveGit
      [("git mv \"/repo/.carl/project/features/parent.intent.carl\" \"/repo/.carl/project/features/completed/parent.intent.carl\"",
        "/repo/.carl/project/features/parent.intent.carl",
        "/repo/.carl/project/features/completed/parent.intent.carl"),
       ("git mv \"/repo/.carl/project/features/parent.state.carl\" \"/repo/.carl/project/features/completed/parent.state.carl\"",
        "/repo/.carl/project/features/parent.state.carl",
        "/repo/.carl/project/features/completed/parent.state.carl")] }

/-- The same repository when the `completed` directory cannot be created, every
version-control command succeeding. -/
def blockedDirectoryWorld : World :=
  { World.ofFiles
      [("/repo/.carl/project/features/parent.intent.carl", "id: parent\n"),
       ("/repo/.carl/project/features/parent.state.carl", freshTextAt100)] with
    ensureDirFails := fun _ => true }

/-- The same repository with a version-control tool that rejects the commands
selected by `failing` and accepts all others. -/
def failingGitWorld (failing : String → Bool) : World :=
  { World.ofFiles
      [("/repo/.carl/project/features/parent.intent.carl", "id: parent\n"),
       ("/repo/.carl/project/features/parent.state.carl", freshTextAt100)] with
    git := fun _ command f => if failing command then none else some f }

/-- A state document with a numeric top-level percentage and a `metadata` section. -/
def bothDoc : JSValue :=
  JSValue.obj
    [("completion_percentage", JSValue.num (JSNum.fin 20)),
     ("phase", JSValue.str "development"),
     ("metadata", JSValue.obj [("owner", JSValue.str "team")])]

/-- The document `bothDoc` after `updateParentCompletionPercentage` stored 75. -/
def bothDocAt75 : JSValue :=
  JSValue.obj
    [("completion_percentage", JSValue.num (JSNum.fin 20)),
     ("phase", JSValue.str "development"),
     ("metadata", JSValue.obj
        [("owner", JSValue.str "team"),
         ("completion_percentage", JSValue.num (JSNum.fin 75)),
         ("last_updated", JSValue.str "T1700000000000")])]

/-- The YAML text of `bothDocAt75`. -/
def bothTextAt75 : String :=
  "completion_percentage: 20\nphase: development\nmetadata:\n  owner: team\n  completion_percentage: 75\n  last_updated: T1700000000000\n"

/-- A parser and printer for `bothDoc` and `bothDocAt75`. -/
def bothLib : Lib :=
  Lib.ofDocs
    [("completion_percentage: 20\nphase: development\nmetadata:\n  owner: team\n", bothDoc),
     (bothTextAt75, bothDocAt75)]

/-- A repository with the state file of the feature "both". -/
def bothWorld : World :=
  World.ofFiles
    [("/repo/.carl/project/features/both.state.carl",
      "completion_percentage: 20\nphase: development\nmetadata:\n  owner: team\n")]

/-- A file system holding the listed directories and the listed readable files. -/
def Files.ofTree (dirs : List String) (files : List (String × String)) : Files :=
  { pathExists := fun p => .ok (dirs.contains p || (files.lookup p).isSome)
    safeReadFile := fun p => files.lookup p }

/-- The directory reads of a file system with the given listings and files: a path
without listing cannot be read as a directory, a path that is neither a file nor a
listed directory cannot be examined. -/
def Directories.ofListing (listing : List (String × List String))
    (files : List (String × String)) : Directories :=
  { readdir := fun p =>
      match listing.lookup p with
      | some names => .ok names
      | none => .error "ENOENT"
    isFile := fun p =>
      if (files.lookup p).isSome then .ok true
      else if (listing.lookup p).isSome then .ok false
      else .error "ENOENT" }

/-- The files of a small project: the epic "goal" declares the children "solo" and
"ghost" (no such item); the feature "solo" declares the parent "goal" and the child
"done"; the story "orphan" declares the parent "goal", which does not list it; the
story "done" is archived. -/
def projectDocs : List (String × String) :=
  [("/repo/.carl/project/epics/goal.intent.carl",
      "id: goal\nrelationships:\n  child_relationships:\n    - solo\n    - ghost\n"),
   ("/repo/.carl/project/epics/goal.state.carl",
      "completion_percentage: 0\nphase: development\n"),
   ("/repo/.carl/project/features/solo.intent.carl",
      "id: solo\nparent_id: goal\nrelationships:\n  child_relationships:\n    - done\n"),
   ("/repo/.carl/project/features/solo.state.carl",
      "completion_percentage: 0\nphase: development\n"),
   ("/repo/.carl/project/stories/orphan.intent.carl", "id: orphan\nparent_id: goal\n"),
   ("/repo/.carl/project/stories/completed/done.intent.carl", "id: done\nparent_id: solo\n"),
   ("/repo/.carl/project/stories/completed/done.state.carl", "completion_percentage: 100\n")]

/-- The directory listings of the small project; there is no `technical` directory,
and `notes.intent.carl` is a directory. -/
def projectListing : List (String × List String) :=
  [("/repo/.carl/project/epics", ["goal.intent.carl", "goal.state.carl"]),
   ("/repo/.carl/project/features", ["solo.intent.carl", "solo.state.carl"]),
   ("/repo/.carl/project/stories", ["completed", "notes.intent.carl", "orphan.intent.carl"]),
   ("/repo/.carl/project/stories/completed", ["done.intent.carl", "done.state.carl"]),
   ("/repo/.carl/project/stories/notes.intent.carl", [])]

/-- The file reads of the small project. -/
def projectFiles : Files :=
  Files.ofTree (projectListing.map (fun entry => entry.1)) projectDocs

/-- The directory reads of the small project. -/
def projectDirectories : Directories :=
  Directories.ofListing projectListing projectDocs

/-- A parser and printer for the documents of the small project. -/
def projectLib : Lib :=
  Lib.ofDocs
    [("id: goal\nrelationships:\n  child_relationships:\n    - solo\n    - ghost\n",
        JSValue.obj
          [("id", JSValue.str "goal"),
           ("relationships", JSValue.obj
              [("child_relationships",
                JSValue.arr [JSValue.str "solo", JSValue.str "ghost"])])]),
     ("id: solo\nparent_id: goal\nrelationships:\n  child_relationships:\n    - done\n",
        JSValue.obj
          [("id", JSValue.str "solo"),
           ("parent_id", JSValue.str "goal"),
           ("relationships", JSValue.obj
              [("child_relationships", JSValue.arr [JSValue.str "done"])])]),
     ("id: orphan\nparent_id: goal\n",
        JSValue.obj [("id", JSValue.str "orphan"), ("parent_id", JSValue.str "goal")]),
     ("id: done\nparent_id: solo\n",
        JSValue.obj [("id", JSValue.str "done"), ("parent_id", JSValue.str "solo")]),
     ("id: solo\n", JSValue.obj [("id", JSValue.str "solo")]),
     ("completion_percentage: 0\nphase: development\n", freshDoc),
     (freshTextAt100, freshDocAt100),
     ("completion_percentage: 100\n",
        JSValue.obj [("completion_percentage", JSValue.num (JSNum.fin 100))])]

/-- The relationship graph of the small project. -/
def projectMap : RelationshipMap :=
  [("/repo/.carl/project/epics/goal.intent.carl",
      { parent := JSValue.null
        children := [JSValue.str "solo", JSValue.str "ghost"]
        parentPath := none
        childPaths := ["/repo/.carl/project/features/solo.intent.carl"] }),
   ("/repo/.carl/project/features/solo.intent.carl",
      { parent := JSValue.str "goal"
        children := [JSValue.str "done"]
        parentPath := some "/repo/.carl/project/epics/goal.intent.carl"
        childPaths := ["/repo/.carl/project/stories/completed/done.intent.carl"] }),
   ("/repo/.carl/project/stories/orphan.intent.carl",
      { parent := JSValue.str "goal"
        children := []
        parentPath := some "/repo/.carl/project/epics/goal.intent.carl"
        childPaths := [] }),
   ("/repo/.carl/project/stories/completed/done.intent.carl",
      { parent := JSValue.str "solo"
        children := []
        parentPath := some "/repo/.carl/project/features/solo.intent.carl"
        childPaths := [] })]

/-- The world of the small project: every write and every version-control command
succeeds. -/
def projectWorld : World :=
  { World.ofFiles projectDocs with files := projectFiles }

/-- A file system without any project directory. -/
def emptyFiles : Files := Files.ofTree [] []

/-- The directory reads of a file system without any project directory. -/
def emptyDirectories : Directories := Directories.ofListing [] []

/-- The inventory of the small project. -/
def projectInventory : Inventory :=
  [(JSValue.str "goal",
      { path := "/repo/.carl/project/epics/goal.intent.carl"
        parent := JSValue.null
        children := [JSValue.str "solo", JSValue.str "ghost"] }),
   (JSValue.str "solo",
      { path := "/repo/.carl/project/features/solo.intent.carl"
        parent := JSValue.str "goal"
        children := [JSValue.str "done"] }),
   (JSValue.str "orphan",
      { path := "/repo/.carl/project/stories/orphan.intent.carl"
        parent := JSValue.str "goal"
        children := [] }),
   (JSValue.str "done",
      { path := "/repo/.carl/project/stories/completed/done.intent.carl"
        parent := JSValue.str "solo"
        children := [] })]

/-- The files of a project with cycles: the feature "ring" declares itself as its
child; the stories "ping" and "pong" declare each other as parent and as child. -/
def cycleDocs : List (String × String) :=
  [("/repo/.carl/project/features/ring.intent.carl",
      "id: ring\nrelationships:\n  child_relationships:\n    - ring\n"),
   ("/repo/.carl/project/features/ring.state.carl",
      "completion_percentage: 0\nphase: development\n"),
   ("/repo/.carl/project/stories/ping.intent.carl",
      "id: ping\nparent_id: pong\nrelationships:\n  child_relationships:\n    - pong\n"),
   ("/repo/.carl/project/stories/ping.state.carl",
      "completion_percentage: 0\nphase: development\n"),
   ("/repo/.carl/project/stories/pong.intent.carl",
      "id: pong\nparent_id: ping\nrelationships:\n  child_relationships:\n    - ping\n"),
   ("/repo/.carl/project/stories/pong.state.carl", "completion_percentage: 100\n")]

/-- The directory listings of the project with cycles. -/
def cycleListing : List (String × List String) :=
  [("/repo/.carl/project/features", ["ring.intent.carl", "ring.state.carl"]),
   ("/repo/.carl/project/stories",
      ["ping.intent.carl", "ping.state.carl", "pong.intent.carl", "pong.state.carl"])]

/-- A parser and printer for the documents of the project with cycles. -/
def cycleLib : Lib :=
  Lib.ofDocs
    [("id: ring\nrelationships:\n  child_relationships:\n    - ring\n",
        JSValue.obj
          [("id", JSValue.str "ring"),
           ("relationships", JSValue.obj
              [("child_relationships", JSValue.arr [JSValue.str "ring"])])]),
     ("id: ping\nparent_id: pong\nrelationships:\n  child_relationships:\n    - pong\n",
        JSValue.obj
          [("id", JSValue.str "ping"),
           ("parent_id", JSValue.str "pong"),
           ("relationships", JSValue.obj
              [("child_relationships", JSValue.arr [JSValue.str "pong"])])]),
     ("id: pong\nparent_id: ping\nrelationships:\n  child_relationships:\n    - ping\n",
        JSValue.obj
          [("id", JSValue.str "pong"),
           ("parent_id", JSValue.str "ping"),
           ("relationships", JSValue.obj
              [("child_relationships", JSValue.arr [JSValue.str "ping"])])]),
     ("completion_percentage: 0\nphase: development\n", freshDoc),
     (freshTextAt100, freshDocAt100),
     ("completion_percentage: 100\n",
        JSValue.obj [("completion_percentage", JSValue.num (JSNum.fin 100))])]

/-- The relationship graph of the project with cycles. -/
def cycleMap : RelationshipMap :=
  [("/repo/.carl/project/features/ring.intent.carl",
      { parent := JSValue.null
        children := [JSValue.str "ring"]
        parentPath := none
        childPaths := ["/repo/.carl/project/features/ring.intent.carl"] }),
   ("/repo/.carl/project/stories/ping.intent.carl",
      { parent := JSValue.str "pong"
        children := [JSValue.str "pong"]
        parentPath := some "/repo/.carl/project/stories/pong.intent.carl"
        childPaths := ["/repo/.carl/project/stories/pong.intent.carl"] }),
   ("/repo/.carl/project/stories/pong.intent.carl",
      { parent := JSValue.str "ping"
        children := [JSValue.str "ping"]
        parentPath := some "/repo/.carl/project/stories/ping.intent.carl"
        childPaths := ["/repo/.carl/project/stories/ping.intent.carl"] })]

/-- The world of the project with cycles. -/
def cycleWorld : World :=
  { World.ofFiles cycleDocs with
    files := Files.ofTree (cycleListing.map (fun entry => entry.1)) cycleDocs }

/-- A parser and printer for the documents of the feature "near". -/
def closeLib : Lib :=
  Lib.ofDocs
    [("completion_percentage: 0\nphase: development\n", freshDoc),
     (freshTextAt100, freshDocAt100),
     ("completion_percentage: 100\n",
        JSValue.obj [("completion_percentage", JSValue.num (JSNum.fin 100))]),
     ("completion_percentage: 99.99\n",
        JSValue.obj [("completion_percentage", JSValue.num (JSNum.ofRat (9999 / 100)))])]

/-- The feature "near" at 0 with three stories: two at 100 and one at 99.99. -/
def closeWorld : World :=
  World.ofFiles
    [("/repo/.carl/project/features/near.state.carl",
        "completion_percentage: 0\nphase: development\n"),
     ("/repo/.carl/project/stories/first.state.carl", "completion_percentage: 100\n"),
     ("/repo/.carl/project/stories/second.state.carl", "completion_percentage: 100\n"),
     ("/repo/.carl/project/stories/third.state.carl", "completion_percentage: 99.99\n")]

/-- The relationship graph of the feature "near". -/
def closeMap : RelationshipMap :=
  [("/repo/.carl/project/features/near.intent.carl",
      { parent := JSValue.null
        children := [JSValue.str "first", JSValue.str "second", JSValue.str "third"]
        parentPath := none
        childPaths := ["/repo/.carl/project/stories/first.intent.carl",
                       "/repo/.carl/project/stories/second.intent.carl",
                       "/repo/.carl/project/stories/third.intent.carl"] })]

/-- Forty percentages, one 23 and thirty-nine 0: their mean is 0.575. -/
def halfCentEntries : List JSValue :=
  JSValue.num (JSNum.fin 23) :: List.replicate 39 (JSValue.num (JSNum.fin 0))

/-- A state document whose `metadata` is the string "foo". -/
def scalarMetadataDoc : JSValue :=
  JSValue.obj [("metadata", JSValue.str "foo"), ("phase", JSValue.str "development")]

/-- The YAML text of `scalarMetadataDoc`. -/
def scalarMetadataText : String := "metadata: foo\nphase: development\n"

/-- A parser and printer for `scalarMetadataDoc` and the two story documents. -/
def scalarMetadataLib : Lib :=
  Lib.ofDocs
    [(scalarMetadataText, scalarMetadataDoc),
     ("completion_percentage: 100\n",
        JSValue.obj [("completion_percentage", JSValue.num (JSNum.fin 100))]),
     ("completion_percentage: 50\n",
        JSValue.obj [("completion_percentage", JSValue.num (JSNum.fin 50))])]

/-- The feature "parent" of `treeMap` with the state document `scalarMetadataDoc`, and
its two stories at 100 and 50. -/
def scalarMetadataWorld : World :=
  World.ofFiles
    [("/repo/.carl/project/features/parent.state.carl", scalarMetadataText),
     ("/repo/.carl/project/stories/done.state.carl", "completion_percentage: 100\n"),
     ("/repo/.carl/project/stories/half.state.carl", "completion_percentage: 50\n")]

/-- A parser and printer for a document at 49.99 (the double nearest to 49.99) and a
document at 50. -/
def nearThresholdLib : Lib :=
  Lib.ofDocs
    [("completion_percentage: 49.99\n",
        JSValue.obj [("completion_percentage", JSValue.num (JSNum.ofRat (4999 / 100)))]),
     ("completion_percentage: 50\n",
        JSValue.obj [("completion_percentage", JSValue.num (JSNum.fin 50))])]

/-- The feature "edge" at 49.99 with one story at 50. -/
def nearThresholdWorld : World :=
  World.ofFiles
    [("/repo/.carl/project/features/edge.state.carl", "completion_percentage: 49.99\n"),
     ("/repo/.carl/project/stories/half.state.carl", "completion_percentage: 50\n")]

/-- The relationship graph of `nearThresholdWorld`. -/
def nearThresholdMap : RelationshipMap :=
  [("/repo/.carl/project/features/edge.intent.carl",
      { parent := JSValue.null
        children := [JSValue.str "half"]
        parentPath := none
        childPaths := ["/repo/.carl/project/stories/half.intent.carl"] })]

/-- A batch repository: the feature "parent" and the story "done" are at 100, the
story "half" is at 50; the version-control tool rejects the staging of the files of
"parent" and accepts every other command. -/
def batchWorld : World :=
  { World.ofFiles
      [("/repo/.carl/project/features/parent.state.carl", freshTextAt100),
       ("/repo/.carl/project/stories/done.state.carl", "completion_percentage: 100\n"),
       ("/repo/.carl/project/stories/half.state.carl", "completion_percentage: 50\n")] with
    git := fun _ command f =>
      if command = "git add \"/repo/.carl/project/features/parent.intent.carl\" \"/repo/.carl/project/features/parent.state.carl\""
      then none else some f }

/-! ## Theorems -/

/-! ### Auxiliary facts -/

theorem JSNum.strictEq_eq_true_iff (a : JSNum) (q : ℚ) :
    a.strictEq (JSNum.fin q) = true ↔ a = JSNum.fin q := by
  cases a <;> simp [JSNum.strictEq]

theorem JSValue.strictEqNum_fin_iff (v : JSValue) (q : ℚ) :
    v.strictEqNum (JSNum.fin q) = true ↔ v = JSValue.num (JSNum.fin q) := by
  cases v <;> simp [JSValue.strictEqNum, JSNum.strictEq_eq_true_iff]

theorem JSValue.strictEqStr_iff (v : JSValue) (s : String) :
    v.strictEqStr s = true ↔ v = JSValue.str s := by
  cases v <;> simp [JSValue.strictEqStr]

theorem JSValue.getProp_obj (fields : List (String × JSValue)) (key : String) :
    (JSValue.obj fields).getProp key = .ok ((JSValue.obj fields).field key) := rfl

theorem lookup_getD_eq_iff (fields : List (String × JSValue)) (key : String) (v : JSValue)
    (hv : v ≠ JSValue.undefined) :
    (fields.lookup key).getD JSValue.undefined = v ↔ fields.lookup key = some v := by
  cases h : fields.lookup key with
  | none => simpa using fun h' => hv h'.symm
  | some x => simp

/-- The rational `twoPow k` is the power `2 ^ k`. -/
theorem JSNum.twoPow_eq (k : ℤ) : JSNum.twoPow k = (2 : ℚ) ^ k := by
  unfold JSNum.twoPow
  split
  · rename_i h
    have hk : k = (k.toNat : ℤ) := (Int.toNat_of_nonneg h).symm
    conv_rhs => rw [hk]
    rw [zpow_natCast]
    push_cast
    rfl
  · rename_i h
    have hk : k = -(((-k).toNat : ℕ) : ℤ) := by
      have := Int.toNat_of_nonneg (show (0 : ℤ) ≤ -k by omega)
      omega
    conv_rhs => rw [hk]
    rw [zpow_neg, zpow_natCast]
    push_cast
    rw [one_div]

theorem JSNum.bitLength_zero (fuel : ℕ) : JSNum.bitLength fuel 0 = 0 := by
  cases fuel <;> simp [JSNum.bitLength]

/-- With enough fuel `bitLength` is the number of binary digits:
`2 ^ (bitLength n - 1) <= n < 2 ^ bitLength n` for positive `n`. -/
theorem JSNum.bitLength_spec (fuel n : ℕ) (h : n ≤ fuel) :
    n < 2 ^ JSNum.bitLength fuel n ∧ (0 < n → 2 ^ JSNum.bitLength fuel n ≤ 2 * n) := by
  induction fuel generalizing n with
  | zero =>
    have : n = 0 := by omega
    subst this
    simp [JSNum.bitLength]
  | succ f ih =>
    by_cases hn : n = 0
    · subst hn
      simp [JSNum.bitLength]
    · obtain ⟨h1, h2⟩ := ih (n / 2) (by omega)
      simp only [JSNum.bitLength, hn, if_false, pow_succ]
      by_cases hz : n / 2 = 0
      · rw [hz, JSNum.bitLength_zero]
        omega
      · have h3 := h2 (by omega)
        generalize 2 ^ JSNum.bitLength f (n / 2) = X at h1 h3
        constructor
        · omega
        · intro _
          omega

/-- The binary exponent of a positive rational: `2 ^ e <= a < 2 ^ (e + 1)`. -/
theorem JSNum.binade_spec (a : ℚ) (ha : 0 < a) :
    JSNum.twoPow (JSNum.binade a) ≤ a ∧ a < JSNum.twoPow (JSNum.binade a + 1) := by
  have hnum : 0 < a.num := Rat.num_pos.mpr ha
  have hden : 0 < a.den := a.den_pos
  obtain ⟨n1, n2⟩ := JSNum.bitLength_spec a.num.natAbs a.num.natAbs (le_refl _)
  obtain ⟨d1, d2⟩ := JSNum.bitLength_spec a.den a.den (le_refl _)
  have n2 := n2 (by omega)
  have d2 := d2 hden
  have hnat : ((a.num.natAbs : ℕ) : ℚ) = a.num := by
    rw [← Int.cast_natCast, Int.natAbs_of_nonneg (le_of_lt hnum)]
  have ha_eq : a = (a.num.natAbs : ℚ) / (a.den : ℚ) := by
    rw [hnat]
    exact (Rat.num_div_den a).symm
  unfold JSNum.binade
  dsimp only
  generalize JSNum.bitLength a.num.natAbs a.num.natAbs = N at n1 n2 ⊢
  generalize JSNum.bitLength a.den a.den = D at d1 d2 ⊢
  have hdq : (0 : ℚ) < a.den := by exact_mod_cast hden
  have n1q : ((a.num.natAbs : ℕ) : ℚ) < 2 ^ N := by exact_mod_cast n1
  have n2q : (2 : ℚ) ^ N ≤ 2 * (a.num.natAbs : ℚ) := by exact_mod_cast n2
  have d1q : ((a.den : ℕ) : ℚ) < 2 ^ D := by exact_mod_cast d1
  have d2q : (2 : ℚ) ^ D ≤ 2 * (a.den : ℚ) := by exact_mod_cast d2
  have hD : (0 : ℚ) < 2 ^ D := by positivity
  have hN : (0 : ℚ) < 2 ^ N := by positivity
  have e1 : (2 : ℚ) ^ ((N : ℤ) - (D : ℤ) - 1) = 2 ^ N / (2 * 2 ^ D) := by
    rw [zpow_sub₀ (by norm_num), zpow_sub₀ (by norm_num), zpow_natCast, zpow_natCast, zpow_one]
    field_simp
    ring
  have e2 : (2 : ℚ) ^ ((N : ℤ) - (D : ℤ) + 1) = 2 * 2 ^ N / 2 ^ D := by
    rw [zpow_add₀ (by norm_num), zpow_sub₀ (by norm_num), zpow_natCast, zpow_natCast, zpow_one]
    field_simp
    ring
  have lower : (2 : ℚ) ^ ((N : ℤ) - (D : ℤ) - 1) ≤ a := by
    rw [e1, ha_eq, div_le_div_iff₀ (by positivity) hdq]
    nlinarith
  have upper : a < (2 : ℚ) ^ ((N : ℤ) - (D : ℤ) + 1) := by
    rw [e2, ha_eq, div_lt_div_iff₀ hdq hD]
    nlinarith
  split
  · rename_i h
    exact ⟨h, by rw [JSNum.twoPow_eq]; exact upper⟩
  · rename_i h
    refine ⟨by rw [JSNum.twoPow_eq]; exact lower, ?_⟩
    rw [sub_add_cancel]
    exact lt_of_not_le h

/-- Rounding to the nearest integer does not cross an integer. -/
theorem JSNum.roundHalfEven_between (x : ℚ) (a b : ℤ) (ha : (a : ℚ) ≤ x) (hb : x ≤ b) :
    a ≤ JSNum.roundHalfEven x ∧ JSNum.roundHalfEven x ≤ b := by
  have hfl : a ≤ ⌊x⌋ := Int.le_floor.mpr ha
  have hfb : ⌊x⌋ ≤ b := by
    have : ((⌊x⌋ : ℤ) : ℚ) ≤ b := le_trans (Int.floor_le x) hb
    exact_mod_cast this
  have hstep : ¬ (x - ⌊x⌋ < 1 / 2) → ⌊x⌋ + 1 ≤ b := by
    intro h
    by_contra hc
    have hbe : ⌊x⌋ = b := by omega
    rw [hbe] at h
    apply h
    linarith
  unfold JSNum.roundHalfEven
  split
  · exact ⟨hfl, hfb⟩
  · rename_i h
    split
    · exact ⟨by omega, hstep h⟩
    · split
      · exact ⟨hfl, hfb⟩
      · exact ⟨by omega, hstep h⟩

/-- Rounding to the nearest double does not cross a natural number below `2 ^ 53`:
a rational between the naturals `lo` and `N < 2 ^ 53` is rounded to a finite number between
them. -/
theorem JSNum.ofRat_between (N lo : ℕ) (hN : N < 2 ^ 53) (q : ℚ) (hlo : (lo : ℚ) ≤ q)
    (hq : q ≤ N) : ∃ r : ℚ, JSNum.ofRat q = JSNum.fin r ∧ (lo : ℚ) ≤ r ∧ r ≤ N := by
  by_cases h0 : q = 0
  · refine ⟨0, by simp [JSNum.ofRat, h0], ?_, ?_⟩
    · rw [h0] at hlo
      exact hlo
    · exact Nat.cast_nonneg N
  · have hlo0 : (0 : ℚ) ≤ lo := Nat.cast_nonneg lo
    have hpos : 0 < q := lt_of_le_of_ne (le_trans hlo0 hlo) (Ne.symm h0)
    have habs : |q| = q := abs_of_pos hpos
    have hbin := (JSNum.binade_spec q hpos).1
    rw [JSNum.twoPow_eq] at hbin
    have hNq : (N : ℚ) < (2 : ℚ) ^ (53 : ℤ) := by
      have : ((N : ℕ) : ℚ) < ((2 ^ 53 : ℕ) : ℚ) := by exact_mod_cast hN
      rw [show ((2 : ℚ) ^ (53 : ℤ)) = ((2 ^ 53 : ℕ) : ℚ) from by norm_num]
      exact this
    have he : JSNum.binade q < 53 := by
      have hlt : (2 : ℚ) ^ JSNum.binade q < (2 : ℚ) ^ (53 : ℤ) :=
        lt_of_le_of_lt hbin (lt_of_le_of_lt hq hNq)
      exact (zpow_lt_zpow_iff_right₀ (by norm_num : (1 : ℚ) < 2)).mp hlt
    obtain ⟨k, hk⟩ : ∃ k : ℕ, Max.max (JSNum.binade q) (-1022) - 52 = -(k : ℤ) := by
      refine ⟨(-(Max.max (JSNum.binade q) (-1022) - 52)).toNat, ?_⟩
      have hmax : Max.max (JSNum.binade q) (-1022) ≤ 52 := max_le (by omega) (by norm_num)
      rw [Int.toNat_of_nonneg (by omega)]
      ring
    have hu : JSNum.twoPow (Max.max (JSNum.binade q) (-1022) - 52) = 1 / (2 : ℚ) ^ k := by
      rw [JSNum.twoPow_eq, hk, zpow_neg, zpow_natCast, one_div]
    have hK : (0 : ℚ) < (2 : ℚ) ^ k := by positivity
    have hx : q / (1 / (2 : ℚ) ^ k) = q * 2 ^ k := by field_simp
    obtain ⟨r1, r2⟩ := JSNum.roundHalfEven_between (q * 2 ^ k) ((lo * 2 ^ k : ℕ) : ℤ)
      ((N * 2 ^ k : ℕ) : ℤ)
      (by push_cast; exact mul_le_mul_of_nonneg_right hlo (le_of_lt hK))
      (by push_cast; exact mul_le_mul_of_nonneg_right hq (le_of_lt hK))
    have r1q : ((lo : ℚ) * 2 ^ k) ≤ (JSNum.roundHalfEven (q * 2 ^ k) : ℚ) := by
      have : (((lo * 2 ^ k : ℕ) : ℤ) : ℚ) ≤ (JSNum.roundHalfEven (q * 2 ^ k) : ℚ) := by
        exact_mod_cast r1
      push_cast at this
      exact this
    have r2q : (JSNum.roundHalfEven (q * 2 ^ k) : ℚ) ≤ (N : ℚ) * 2 ^ k := by
      have : (JSNum.roundHalfEven (q * 2 ^ k) : ℚ) ≤ (((N * 2 ^ k : ℕ) : ℤ) : ℚ) := by
        exact_mod_cast r2
      push_cast at this
      exact this
    have hr1 : (lo : ℚ) ≤ (JSNum.roundHalfEven (q * 2 ^ k) : ℚ) * (1 / (2 : ℚ) ^ k) := by
      rw [mul_one_div, le_div_iff₀ hK]
      exact r1q
    have hr2 : (JSNum.roundHalfEven (q * 2 ^ k) : ℚ) * (1 / (2 : ℚ) ^ k) ≤ N := by
      rw [mul_one_div, div_le_iff₀ hK]
      exact r2q
    have hbig : ¬ JSNum.twoPow 1024 ≤ (JSNum.roundHalfEven (q * 2 ^ k) : ℚ) * (1 / (2 : ℚ) ^ k) := by
      rw [JSNum.twoPow_eq, not_le]
      have h53 : (2 : ℚ) ^ (53 : ℤ) ≤ (2 : ℚ) ^ (1024 : ℤ) :=
        zpow_le_zpow_right₀ (by norm_num) (by norm_num)
      linarith
    refine ⟨(JSNum.roundHalfEven (q * 2 ^ k) : ℚ) * (1 / (2 : ℚ) ^ k), ?_, hr1, hr2⟩
    unfold JSNum.ofRat
    rw [if_neg h0]
    dsimp only
    rw [habs, hu, hx, if_neg hbig, if_pos hpos]

/-- Natural numbers below `2 ^ 53` are doubles. -/
theorem JSNum.ofRat_natCast (n : ℕ) (hn : n < 2 ^ 53) : JSNum.ofRat (n : ℚ) = JSNum.fin n := by
  obtain ⟨r, hr, h1, h2⟩ := JSNum.ofRat_between n n hn (n : ℚ) (le_refl _) (le_refl _)
  rw [hr, le_antisymm h2 h1]

/-- A sum of numbers between `l` and 100, accumulated from a number between `A` and `B`,
is a finite number between `A + l * n` and `B + 100 * n` as long as this bound is below
`2 ^ 53`. -/
theorem JSNum.foldl_add_between (l : ℕ) (qs : List ℚ)
    (hqs : ∀ q ∈ qs, (l : ℚ) ≤ q ∧ q ≤ 100) (A B : ℕ) (acc : ℚ)
    (hA : (A : ℚ) ≤ acc) (hB : acc ≤ B) (hbound : B + 100 * qs.length < 2 ^ 53) :
    ∃ s : ℚ, (qs.map JSNum.fin).foldl (fun a p => a.add p) (JSNum.fin acc) = JSNum.fin s ∧
      ((A + l * qs.length : ℕ) : ℚ) ≤ s ∧ s ≤ ((B + 100 * qs.length : ℕ) : ℚ) := by
  induction qs generalizing A B acc with
  | nil => exact ⟨acc, rfl, by simpa using hA, by simpa using hB⟩
  | cons q qs ih =>
    obtain ⟨hq1, hq2⟩ := hqs q (List.mem_cons_self _ _)
    simp only [List.length_cons] at hbound
    obtain ⟨r, hr, r1, r2⟩ := JSNum.ofRat_between (B + 100) (A + l) (by omega) (acc + q)
      (by push_cast; linarith) (by push_cast; linarith)
    obtain ⟨s, hs, s1, s2⟩ := ih (fun x hx => hqs x (List.mem_cons_of_mem _ hx))
      (A + l) (B + 100) r r1 r2 (by omega)
    refine ⟨s, ?_, ?_, ?_⟩
    · simp only [List.map, List.foldl]
      rw [show (JSNum.fin acc).add (JSNum.fin q) = JSNum.ofRat (acc + q) from rfl, hr]
      exact hs
    · have e : A + l * (q :: qs).length = A + l + l * qs.length := by
        simp only [List.length_cons]
        ring
      rw [e]
      exact s1
    · have e : B + 100 * (q :: qs).length = B + 100 + 100 * qs.length := by
        simp only [List.length_cons]
        ring
      rw [e]
      exact s2

/-- The expression `Math.round(a * 100) / 100` keeps a number between the natural `l`
and 100 between them. -/
theorem JSNum.round2_between (l : ℕ) (a : ℚ) (h1 : (l : ℚ) ≤ a) (h2 : a ≤ 100) :
    ∃ v : ℚ, ((JSNum.fin a).mul (JSNum.fin 100)).round.div (JSNum.fin 100) = JSNum.fin v ∧
      (l : ℚ) ≤ v ∧ v ≤ 100 := by
  obtain ⟨m, hm, m1, m2⟩ := JSNum.ofRat_between 10000 (100 * l) (by norm_num) (a * 100)
    (by push_cast; linarith) (by push_cast; linarith)
  have hmul : (JSNum.fin a).mul (JSNum.fin 100) = JSNum.fin m := hm
  push_cast at m1 m2
  have f1 : ((100 * l : ℕ) : ℤ) ≤ ⌊m + 1 / 2⌋ := Int.le_floor.mpr (by push_cast; linarith)
  have f2 : ⌊m + 1 / 2⌋ ≤ (10000 : ℤ) := by
    have : ⌊m + 1 / 2⌋ < (10001 : ℤ) := Int.floor_lt.mpr (by push_cast; linarith)
    omega
  have g1 : (100 * (l : ℚ)) ≤ ((⌊m + 1 / 2⌋ : ℤ) : ℚ) := by
    have : (((100 * l : ℕ) : ℤ) : ℚ) ≤ ((⌊m + 1 / 2⌋ : ℤ) : ℚ) := by exact_mod_cast f1
    push_cast at this
    exact this
  have g2 : ((⌊m + 1 / 2⌋ : ℤ) : ℚ) ≤ 10000 := by exact_mod_cast f2
  obtain ⟨v, hv, v1, v2⟩ := JSNum.ofRat_between 100 l (by norm_num)
    (((⌊m + 1 / 2⌋ : ℤ) : ℚ) / 100)
    (by rw [le_div_iff₀ (by norm_num)]; linarith)
    (by rw [div_le_iff₀ (by norm_num)]; push_cast; linarith)
  refine ⟨v, ?_, v1, by simpa using v2⟩
  rw [hmul]
  show JSNum.div (JSNum.fin ((⌊m + 1 / 2⌋ : ℤ) : ℚ)) (JSNum.fin 100) = JSNum.fin v
  simp only [JSNum.div]
  rw [if_neg (by norm_num)]
  exact hv

/-- The clamp `Math.max(0, Math.min(100, x))` lands in `[0, 100]` for every number
other than `NaN`. -/
theorem clampPercentage_range (x : JSNum) (hx : x ≠ JSNum.nan) :
    ∃ q : ℚ, clampPercentage x = JSNum.fin q ∧ 0 ≤ q ∧ q ≤ 100 := by
  cases x with
  | fin a =>
    refine ⟨Max.max 0 (Min.min 100 a), by simp [clampPercentage, JSNum.min, JSNum.max], ?_, ?_⟩
    · exact le_max_left _ _
    · exact max_le (by norm_num) (min_le_left _ _)
  | nan => exact absurd rfl hx
  | posInf => exact ⟨100, by simp [clampPercentage, JSNum.min, JSNum.max], by norm_num, le_refl _⟩
  | negInf => exact ⟨0, by simp [clampPercentage, JSNum.min, JSNum.max], le_refl _, by norm_num⟩

/-- The clamp leaves a percentage that already lies in `[0, 100]` unchanged. -/
theorem clampPercentage_of_mem (q : ℚ) (h0 : 0 ≤ q) (h100 : q ≤ 100) :
    clampPercentage (JSNum.fin q) = JSNum.fin q := by
  simp [clampPercentage, JSNum.min, JSNum.max, h0, h100]

theorem JSValue.getProp_of_truthy (v : JSValue) (key : String) (h : v.truthy = true) :
    v.getProp key = .ok (v.field key) := by
  cases v <;> simp_all [JSValue.truthy, JSValue.getProp, JSValue.field]

theorem JSValue.field_of_not_truthy (v : JSValue) (key : String) (h : v.truthy = false) :
    v.field key = JSValue.undefined := by
  cases v <;> simp_all [JSValue.truthy, JSValue.field]

/-- On a truthy value, `resolvePercentage` reads the fields in the order top-level
number, nested number, completed marker, default, and does not throw. -/
theorem resolvePercentage_of_truthy (v : JSValue) (hv : v.truthy = true) :
    resolvePercentage v = .ok
      (match (v.field "completion_percentage").asNum with
       | some n => clampPercentage n
       | none =>
         match ((v.field "metadata").field "completion_percentage").asNum with
         | some n => clampPercentage n
         | none =>
           if (v.field "status").strictEqStr "completed"
              || (v.field "phase").strictEqStr "completed"
              || ((v.field "metadata").field "status").strictEqStr "completed"
              || ((v.field "metadata").field "phase").strictEqStr "completed"
           then JSNum.fin 100 else JSNum.fin 0) := by
  simp only [resolvePercentage, JSValue.getProp_of_truthy v _ hv, bind, Except.bind, pure,
    Except.pure]
  generalize v.field "completion_percentage" = cp
  generalize v.field "status" = st
  generalize v.field "phase" = ph
  generalize v.field "metadata" = md
  cases cp.asNum with
  | some n => rfl
  | none =>
    cases hmd : md.truthy with
    | true =>
      simp only [if_true, JSValue.getProp_of_truthy md _ hmd]
      cases (md.field "completion_percentage").asNum with
      | some n => rfl
      | none =>
        by_cases h1 : (st.strictEqStr "completed" || ph.strictEqStr "completed") = true
        · simp [h1]
        · by_cases h2 : ((md.field "status").strictEqStr "completed"
              || (md.field "phase").strictEqStr "completed") = true
          · simp only [Bool.or_eq_true] at h1 h2
            simp [h1, h2]
          · simp only [Bool.or_eq_true] at h1 h2
            simp [h1, h2]
    | false =>
      have hs : ∀ s, JSValue.undefined.strictEqStr s = false := fun _ => rfl
      have ha : JSValue.undefined.asNum = none := rfl
      simp only [JSValue.field_of_not_truthy md _ hmd, ha, hs, Bool.or_false]
      by_cases h1 : (st.strictEqStr "completed" || ph.strictEqStr "completed") = true
      · simp [h1]
      · simp [h1]

/-- On a mapping, `resolvePercentage` reads the fields in the order top-level number,
nested number, completed marker, default. -/
theorem resolvePercentage_obj (fields : List (String × JSValue)) :
    resolvePercentage (JSValue.obj fields) = .ok
      (match ((JSValue.obj fields).field "completion_percentage").asNum with
       | some n => clampPercentage n
       | none =>
         match (((JSValue.obj fields).field "metadata").field "completion_percentage").asNum with
         | some n => clampPercentage n
         | none =>
           if ((JSValue.obj fields).field "status").strictEqStr "completed"
              || ((JSValue.obj fields).field "phase").strictEqStr "completed"
              || (((JSValue.obj fields).field "metadata").field "status").strictEqStr "completed"
              || (((JSValue.obj fields).field "metadata").field "phase").strictEqStr "completed"
           then JSNum.fin 100 else JSNum.fin 0) :=
  resolvePercentage_of_truthy _ rfl

/-- On an existing, non-empty state file that parses to a mapping,
`getCompletionPercentage` is `resolvePercentage` of the mapping. -/
theorem getCompletionPercentage_obj (L : Lib) (w : World) (statePath content : String)
    (fields : List (String × JSValue))
    (hexists : w.files.pathExists statePath = .ok true)
    (hread : w.files.safeReadFile statePath = some content)
    (hnonempty : content ≠ "")
    (hparse : L.yamlParse content = .ok (JSValue.obj fields)) :
    getCompletionPercentage L w statePath =
      (match resolvePercentage (JSValue.obj fields) with
       | .ok n => some n
       | .error _ => none) := by
  simp [getCompletionPercentage, hexists, hread, hnonempty, hparse, JSValue.truthy]

/-! ### Auxiliary facts about the world and the trace -/

theorem World.execSync_trace (w : World) (command : String) :
    (w.execSync command).2.trace = w.trace ++ [Event.execSync command w.carlRoot] := by
  unfold World.execSync
  split <;> rfl

theorem World.execSync_carlRoot (w : World) (command : String) :
    (w.execSync command).2.carlRoot = w.carlRoot := by
  unfold World.execSync
  split <;> rfl

theorem World.ensureDir_trace (w w1 : World) (path : String)
    (h : w.ensureDir path = .ok w1) :
    w1.trace = w.trace ++ [Event.ensureDir path] ∧ w1.carlRoot = w.carlRoot := by
  unfold World.ensureDir at h
  split at h
  · cases h
  · injection h with h
    subst h
    exact ⟨rfl, rfl⟩

theorem World.writeFile_trace (w w1 : World) (path content : String)
    (h : w.writeFile path content = .ok w1) :
    w1.trace = w.trace ++ [Event.writeFile path content] := by
  unfold World.writeFile at h
  split at h
  · cases h
  · injection h with h
    subst h
    rfl

theorem World.writeFile_of_allowed (w : World) (path content : String)
    (h : w.writeFileFails path = false) :
    ∃ w1, w.writeFile path content = .ok w1 ∧
      w1.files.safeReadFile path = some content ∧
      w1.files.pathExists path = .ok true := by
  refine ⟨_, by simp only [World.writeFile, h]; rfl, ?_, ?_⟩ <;> simp

theorem rollbackCompletion_trace (w : World) :
    (rollbackCompletion w).2.trace
      = w.trace ++ [Event.execSync "git reset --hard HEAD~1" w.carlRoot] := by
  simp [rollbackCompletion, World.execSync_trace]

/-- The archival workflow only appends to the trace. -/
theorem commitAndMoveFiles_extends_trace (L : Lib) (w : World) (info : CompletionCheck) :
    w.trace <+: (commitAndMoveFiles L w info).2.trace := by
  unfold commitAndMoveFiles
  simp only []
  split
  · simp [rollbackCompletion_trace]
  · split
    · simp [rollbackCompletion_trace, World.execSync_trace]
    · split
      · split
        · simp [rollbackCompletion_trace, World.execSync_trace, List.append_assoc]
        · split
          · simp [rollbackCompletion_trace, World.execSync_trace, List.append_assoc]
          · rename_i w3 hdir
            have hw3 := (World.ensureDir_trace _ _ _ hdir).1
            split
            · simp [rollbackCompletion_trace, World.execSync_trace, List.append_assoc, hw3]
            · split
              · simp [rollbackCompletion_trace, World.execSync_trace, List.append_assoc, hw3]
              · split
                · simp [rollbackCompletion_trace, World.execSync_trace, List.append_assoc,
                    hw3]
                · split
                  · simp [rollbackCompletion_trace, World.execSync_trace,
                      List.append_assoc, hw3]
                  · simp [World.execSync_trace, List.append_assoc, hw3]
      · simp [rollbackCompletion_trace, World.execSync_trace, List.append_assoc]

/-- The tracking update only appends to the trace. -/
theorem updateActiveWorkTracking_extends_trace (L : Lib) (w : World) (intentPath : String) :
    w.trace <+: (updateActiveWorkTracking L w intentPath).2.trace := by
  unfold updateActiveWorkTracking
  simp only []
  repeat' split
  all_goals first
    | exact List.prefix_refl _
    | (rename_i w1 hw
       rw [World.writeFile_trace _ _ _ _ hw]
       exact List.prefix_append _ _)

/-- The completion trigger only appends to the trace. -/
theorem triggerCompletionWorkflow_extends_trace (L : Lib) (w : World) (parentIntentPath : String) :
    w.trace <+: (triggerCompletionWorkflow L w parentIntentPath).trace := by
  unfold triggerCompletionWorkflow
  simp only []
  split
  · exact (commitAndMoveFiles_extends_trace L w _).trans (updateActiveWorkTracking_extends_trace L _ _)
  · exact List.prefix_refl _

/-! ### Auxiliary facts about the aggregation engine -/

theorem JSValue.lookup_setField (fields : List (String × JSValue)) (key key' : String)
    (v : JSValue) :
    (JSValue.setField key v fields).lookup key'
      = if key' = key then some v else fields.lookup key' := by
  induction fields with
  | nil =>
    simp only [JSValue.setField, List.lookup]
    by_cases h : key' = key
    · subst h; simp
    · have hb : (key' == key) = false := by simpa using h
      simp [hb, h]
  | cons kv rest ih =>
    obtain ⟨k, old⟩ := kv
    simp only [JSValue.setField]
    by_cases hk : k = key
    · subst hk
      simp only [if_true, List.lookup]
      by_cases h : key' = k
      · subst h; simp
      · have hb : (key' == k) = false := by simpa using h
        simp [hb, h]
    · simp only [hk, if_false, List.lookup, ih]
      by_cases h2 : key' = k
      · subst h2
        have hne : ¬ key' = key := hk
        simp [hne]
      · have hb : (key' == k) = false := by simpa using h2
        simp [hb]

theorem JSValue.field_setProp_obj (fields : List (String × JSValue)) (key key' : String)
    (v : JSValue) :
    ((JSValue.obj fields).setProp key v).field key'
      = if key' = key then v else (JSValue.obj fields).field key' := by
  simp only [JSValue.setProp, JSValue.field, JSValue.lookup_setField]
  split <;> rfl

theorem JSValue.field_obj_setField (fields : List (String × JSValue)) (key key' : String)
    (v : JSValue) :
    (JSValue.obj (JSValue.setField key v fields)).field key'
      = if key' = key then v else (JSValue.obj fields).field key' :=
  JSValue.field_setProp_obj fields key key' v

theorem JSValue.setProp_obj (fields : List (String × JSValue)) (key : String) (v : JSValue) :
    (JSValue.obj fields).setProp key v = JSValue.obj (JSValue.setField key v fields) := rfl

/-- The document update of `updateParentCompletionPercentage` on a mapping: it does not
throw, touches neither files nor trace, and stores the percentage under `metadata`
when the document has a truthy `metadata`, else at the top level; from 100 upwards
it also stores the status "completed" and a completion date at the same place. -/
theorem applyPercentage_obj (L : Lib) (w : World) (fields : List (String × JSValue))
    (r : JSNum) :
    ∃ updated w1, applyPercentage L w (JSValue.obj fields) r = .ok (updated, w1) ∧
      w1.trace = w.trace ∧ w1.files = w.files ∧ w1.writeFileFails = w.writeFileFails ∧
      (((JSValue.obj fields).field "metadata").truthy = false →
        updated.field "completion_percentage" = JSValue.num r ∧
        (r.ge (JSNum.fin 100) = true →
          updated.field "status" = JSValue.str "completed" ∧
          ∃ t, updated.field "completion_date" = JSValue.str t)) ∧
      (∀ mf, (JSValue.obj fields).field "metadata" = JSValue.obj mf →
        (updated.field "metadata").field "completion_percentage" = JSValue.num r ∧
        updated.field "completion_percentage"
          = (JSValue.obj fields).field "completion_percentage" ∧
        updated.field "phase" = (JSValue.obj fields).field "phase" ∧
        (r.ge (JSNum.fin 100) = true →
          (updated.field "metadata").field "status" = JSValue.str "completed" ∧
          ∃ t, (updated.field "metadata").field "completion_date" = JSValue.str t)) := by
  simp only [applyPercentage, JSValue.getProp_obj]
  cases hmd : ((JSValue.obj fields).field "metadata").truthy with
  | false =>
    cases hr : r.ge (JSNum.fin 100) with
    | false =>
      simp only [Bool.false_eq_true, if_false]
      refine ⟨_, _, rfl, rfl, rfl, rfl, ?_, ?_⟩
      · intro _
        simp [JSValue.setProp_obj, JSValue.field_obj_setField]
      · intro mf hmf
        rw [hmf] at hmd
        simp [JSValue.truthy] at hmd
    | true =>
      simp only [Bool.false_eq_true, if_false, if_true]
      refine ⟨_, _, rfl, rfl, rfl, rfl, ?_, ?_⟩
      · intro _
        simp [JSValue.setProp_obj, JSValue.field_obj_setField]
      · intro mf hmf
        rw [hmf] at hmd
        simp [JSValue.truthy] at hmd
  | true =>
    cases hr : r.ge (JSNum.fin 100) with
    | false =>
      simp only [Bool.false_eq_true, if_false, if_true]
      refine ⟨_, _, rfl, rfl, rfl, rfl, ?_, ?_⟩
      · intro h; cases h
      · intro mf hmf
        simp [hmf, JSValue.setProp_obj, JSValue.field_obj_setField]
    | true =>
      simp only [if_true]
      refine ⟨_, _, rfl, rfl, rfl, rfl, ?_, ?_⟩
      · intro h; cases h
      · intro mf hmf
        simp [hmf, JSValue.setProp_obj, JSValue.field_obj_setField]

/-- On an available mapping whose file can be written, the update succeeds and its
first mutation is the write of the updated document to the parent's state file. -/
theorem updateParentCompletionPercentage_obj (L : Lib) (w : World)
    (parentIntentPath content : String) (fields : List (String × JSValue)) (x : JSNum)
    (hexists : w.files.pathExists (statePathOf parentIntentPath) = .ok true)
    (hread : w.files.safeReadFile (statePathOf parentIntentPath) = some content)
    (hnonempty : content ≠ "")
    (hparse : L.yamlParse content = .ok (JSValue.obj fields))
    (hwrite : w.writeFileFails (statePathOf parentIntentPath) = false) :
    ∃ updated w1 es,
      applyPercentage L w (JSValue.obj fields) (JSNum.round2 x) = .ok (updated, w1) ∧
      (updateParentCompletionPercentage L w parentIntentPath x).1 = true ∧
      (updateParentCompletionPercentage L w parentIntentPath x).2.trace
        = w.trace ++ Event.writeFile (statePathOf parentIntentPath) (L.yamlStringify updated)
            :: es := by
  obtain ⟨updated, w1, happly, htrace, _, hwf, _, _⟩ :=
    applyPercentage_obj L w fields (JSNum.round2 x)
  have hw1 : w1.writeFileFails (statePathOf parentIntentPath) = false := by rw [hwf]; exact hwrite
  obtain ⟨w2, hw2, _, _⟩ :=
    World.writeFile_of_allowed w1 (statePathOf parentIntentPath) (L.yamlStringify updated) hw1
  have htrace2 := World.writeFile_trace _ _ _ _ hw2
  refine ⟨updated, w1, ?_⟩
  simp only [updateParentCompletionPercentage, hexists, hread, hnonempty, hparse, if_false,
    JSValue.truthy, Bool.not_true, Bool.false_eq_true, happly, hw2]
  cases hge : (JSNum.round2 x).ge (JSNum.fin 100) with
  | true =>
    obtain ⟨es, hes⟩ := triggerCompletionWorkflow_extends_trace L w2 parentIntentPath
    refine ⟨es, trivial, by simp only [if_true], ?_⟩
    simp only [if_true]
    rw [← hes, htrace2, htrace, List.append_assoc, List.singleton_append]
  | false =>
    refine ⟨[], trivial, by simp only [Bool.false_eq_true, if_false], ?_⟩
    simp only [Bool.false_eq_true, if_false]
    rw [htrace2, htrace]

/-- When the parent's percentage reads as `null`, the update fails without any
mutation: the same guards reject the state file. -/
theorem updateParentCompletionPercentage_unavailable (L : Lib) (w : World)
    (parentIntentPath : String) (x : JSNum)
    (h : getCompletionPercentage L w (statePathOf parentIntentPath) = none) :
    updateParentCompletionPercentage L w parentIntentPath x = (false, w) := by
  unfold getCompletionPercentage at h
  unfold updateParentCompletionPercentage
  simp only []
  cases hx : w.files.pathExists (statePathOf parentIntentPath) with
  | error e => rfl
  | ok b =>
    cases b with
    | false => rfl
    | true =>
      simp only [hx] at h
      cases hr : w.files.safeReadFile (statePathOf parentIntentPath) with
      | none => rfl
      | some content =>
        simp only [hr] at h
        by_cases hc : content = ""
        · simp only [hc, if_true]
        · simp only [hc, if_false] at h ⊢
          cases hp : L.yamlParse content with
          | error e => rfl
          | ok stateData =>
            simp only [hp] at h
            cases ht : stateData.truthy with
            | false => simp [ht]
            | true =>
              simp only [ht, Bool.not_true, Bool.false_eq_true, if_false,
                resolvePercentage_of_truthy stateData ht] at h
              cases h

/-- On an existing, non-empty state file that parses to a truthy value, the verdict of
`checkIntentCompletion` is the test on the two top-level fields. -/
theorem checkIntentCompletion_of_truthy (L : Lib) (w : World) (intentPath content : String)
    (stateData : JSValue)
    (hexists : w.files.pathExists (statePathOf intentPath) = .ok true)
    (hread : w.files.safeReadFile (statePathOf intentPath) = some content)
    (hnonempty : content ≠ "")
    (hparse : L.yamlParse content = .ok stateData)
    (htruthy : stateData.truthy = true) :
    (checkIntentCompletion L w intentPath).completed
      = ((stateData.field "completion_percentage").strictEqNum (JSNum.fin 100)
          || (stateData.field "phase").strictEqStr "completed") := by
  simp only [checkIntentCompletion, hexists, hread, hnonempty, hparse, if_false,
    JSValue.getProp_of_truthy stateData _ htruthy]

/-- The defect behind C10, in general: when the parent's state document keeps a
`metadata` mapping and its top level says neither percentage 100 nor phase
"completed", persisting a value of 100 or more succeeds with the write as its only
mutation, whatever the value: the completion trigger re-reads the top level, finds the
item not completed and never reaches `commitAndMoveFiles`.  The parser is assumed to
read back the document that the printer wrote. -/
theorem updateParentCompletionPercentage_nested_only_writes (L : Lib) (w : World)
    (parentIntentPath content : String) (fields mf : List (String × JSValue)) (x : JSNum)
    (hexists : w.files.pathExists (statePathOf parentIntentPath) = .ok true)
    (hread : w.files.safeReadFile (statePathOf parentIntentPath) = some content)
    (hnonempty : content ≠ "")
    (hparse : L.yamlParse content = .ok (JSValue.obj fields))
    (hmeta : (JSValue.obj fields).field "metadata" = JSValue.obj mf)
    (hnot100 : (JSValue.obj fields).field "completion_percentage"
      ≠ JSValue.num (JSNum.fin 100))
    (hphase : (JSValue.obj fields).field "phase" ≠ JSValue.str "completed")
    (hwrite : w.writeFileFails (statePathOf parentIntentPath) = false)
    (hround : ∀ updated w1,
      applyPercentage L w (JSValue.obj fields) (JSNum.round2 x) = .ok (updated, w1) →
      L.yamlStringify updated ≠ "" ∧ L.yamlParse (L.yamlStringify updated) = .ok updated) :
    ∃ updated w1,
      applyPercentage L w (JSValue.obj fields) (JSNum.round2 x) = .ok (updated, w1) ∧
      (updateParentCompletionPercentage L w parentIntentPath x).1 = true ∧
      (updateParentCompletionPercentage L w parentIntentPath x).2.trace
        = w.trace ++ [Event.writeFile (statePathOf parentIntentPath)
            (L.yamlStringify updated)] := by
  obtain ⟨updated, w1, happly, htrace, _, hwf, _, hnested⟩ :=
    applyPercentage_obj L w fields (JSNum.round2 x)
  obtain ⟨_, hcp, hph, _⟩ := hnested mf hmeta
  have hw1 : w1.writeFileFails (statePathOf parentIntentPath) = false := by rw [hwf]; exact hwrite
  obtain ⟨w2, hw2, hread2, hexists2⟩ :=
    World.writeFile_of_allowed w1 (statePathOf parentIntentPath) (L.yamlStringify updated) hw1
  have htrace2 := World.writeFile_trace _ _ _ _ hw2
  have hupd : updated.truthy = true := by
    have hm : (JSValue.obj fields).getProp "metadata" = .ok (JSValue.obj mf) := by
      rw [JSValue.getProp_obj, hmeta]
    simp only [applyPercentage, hm, JSValue.truthy, if_true, JSValue.setProp_obj] at happly
    split at happly <;>
      (injection happly with h1; injection h1 with h2 _; rw [← h2]; rfl)
  obtain ⟨hne, hback⟩ := hround updated w1 happly
  have hcheck : (checkIntentCompletion L w2 parentIntentPath).completed = false := by
    rw [checkIntentCompletion_of_truthy L w2 parentIntentPath _ updated hexists2 hread2 hne
      hback hupd, hcp, hph, Bool.or_eq_false_iff]
    constructor
    · rw [Bool.eq_false_iff]
      intro h
      exact hnot100 ((JSValue.strictEqNum_fin_iff _ _).mp h)
    · rw [Bool.eq_false_iff]
      intro h
      exact hphase ((JSValue.strictEqStr_iff _ _).mp h)
  refine ⟨updated, w1, happly, ?_⟩
  simp only [updateParentCompletionPercentage, hexists, hread, hnonempty, hparse, if_false,
    JSValue.truthy, Bool.not_true, Bool.false_eq_true, happly, hw2,
    triggerCompletionWorkflow, hcheck]
  cases hge : (JSNum.round2 x).ge (JSNum.fin 100) with
  | true =>
    simp only [if_true]
    exact ⟨trivial, by rw [htrace2, htrace]⟩
  | false =>
    simp only [Bool.false_eq_true, if_false]
    exact ⟨trivial, by rw [htrace2, htrace]⟩

/-- Unfolding of `recalculateParentCompletion` for a parent without resolved child. -/
theorem recalculateParentCompletion_of_no_children (L : Lib) (w : World)
    (m : RelationshipMap) (parentIntentPath : String)
    (h : getChildIntentPaths m parentIntentPath = []) :
    recalculateParentCompletion L w (.ok m) parentIntentPath =
      ({ success := true
         oldPercentage := getCompletionPercentage L w (statePathOf parentIntentPath)
         newPercentage := getCompletionPercentage L w (statePathOf parentIntentPath)
         childrenData := none }, w) := by
  simp [recalculateParentCompletion, h]

/-- Unfolding of `recalculateParentCompletion` below the threshold. -/
theorem recalculateParentCompletion_of_small (L : Lib) (w : World)
    (m : RelationshipMap) (parentIntentPath : String)
    (hchildren : getChildIntentPaths m parentIntentPath ≠ [])
    (hdiff : (percentageDifference L w m parentIntentPath).ge (JSNum.ofRat (1 / 100)) = false) :
    recalculateParentCompletion L w (.ok m) parentIntentPath =
      ({ success := true
         oldPercentage := getCompletionPercentage L w (statePathOf parentIntentPath)
         newPercentage := getCompletionPercentage L w (statePathOf parentIntentPath)
         childrenData := none }, w) := by
  have hlen : (getChildIntentPaths m parentIntentPath).length ≠ 0 :=
    fun h => hchildren (List.length_eq_zero.mp h)
  unfold percentageDifference childrenAverage at hdiff
  simp only [recalculateParentCompletion, hlen, if_false, hdiff, Bool.false_eq_true]

/-- Unfolding of `recalculateParentCompletion` at or above the threshold. -/
theorem recalculateParentCompletion_of_large (L : Lib) (w : World)
    (m : RelationshipMap) (parentIntentPath : String)
    (hchildren : getChildIntentPaths m parentIntentPath ≠ [])
    (hdiff : (percentageDifference L w m parentIntentPath).ge (JSNum.ofRat (1 / 100)) = true) :
    recalculateParentCompletion L w (.ok m) parentIntentPath =
      (if (updateParentCompletionPercentage L w parentIntentPath
            (childrenAverage L w m parentIntentPath)).1 then
        { success := true
          oldPercentage := getCompletionPercentage L w (statePathOf parentIntentPath)
          newPercentage := some (childrenAverage L w m parentIntentPath)
          childrenData := some ((getChildIntentPaths m parentIntentPath).length,
            childPercentages L w (getChildIntentPaths m parentIntentPath)) }
       else
        { success := false
          oldPercentage := getCompletionPercentage L w (statePathOf parentIntentPath)
          newPercentage := none
          childrenData := none },
       (updateParentCompletionPercentage L w parentIntentPath
          (childrenAverage L w m parentIntentPath)).2) := by
  have hlen : (getChildIntentPaths m parentIntentPath).length ≠ 0 :=
    fun h => hchildren (List.length_eq_zero.mp h)
  unfold percentageDifference childrenAverage at hdiff
  simp only [recalculateParentCompletion, hlen, if_false, hdiff, if_true, childrenAverage]
  split <;> rfl

/-! ### C1 - C2: checkIntentCompletion -/

/-- C1: for a state file that exists, is non-empty and parses to a mapping,
`checkIntentCompletion` reports `completed` exactly when the top-level
`completion_percentage` is the number 100 or the top-level `phase` is the string
"completed"; nothing else in the document (`status`, fields under `metadata`) is
consulted, and the parsed document is returned as `stateData`. -/
theorem checkIntentCompletion_completed_iff (L : Lib) (w : World)
    (intentPath content : String) (fields : List (String × JSValue))
    (hexists : w.files.pathExists (statePathOf intentPath) = .ok true)
    (hread : w.files.safeReadFile (statePathOf intentPath) = some content)
    (hnonempty : content ≠ "")
    (hparse : L.yamlParse content = .ok (JSValue.obj fields)) :
    ((checkIntentCompletion L w intentPath).completed = true ↔
        (fields.lookup "completion_percentage" = some (JSValue.num (JSNum.fin 100)) ∨
         fields.lookup "phase" = some (JSValue.str "completed")))
    ∧ (checkIntentCompletion L w intentPath).stateData = JSValue.obj fields := by
  simp only [checkIntentCompletion, hexists, hread, hnonempty, hparse, if_false,
    JSValue.getProp, Bool.or_eq_true, JSValue.strictEqNum_fin_iff, JSValue.strictEqStr_iff]
  refine ⟨?_, trivial⟩
  rw [lookup_getD_eq_iff _ _ _ (by simp), lookup_getD_eq_iff _ _ _ (by simp)]

/-- Witness for C1: the top level says 85 / development, so the item is not completed
although `status` and all of `metadata` say completed. -/
theorem checkIntentCompletion_completed_iff_witness :
    (checkIntentCompletion readLib readWorld
        "/repo/.carl/project/features/a.intent.carl").completed = false := by
  have h := (checkIntentCompletion_completed_iff readLib readWorld
    "/repo/.carl/project/features/a.intent.carl" nestedOnlyText
    [("completion_percentage", JSValue.num (JSNum.fin 85)),
     ("phase", JSValue.str "development"),
     ("status", JSValue.str "completed"),
     ("metadata", JSValue.obj
        [("completion_percentage", JSValue.num (JSNum.fin 100)),
         ("status", JSValue.str "completed"),
         ("phase", JSValue.str "completed")])]
    rfl rfl (by decide) rfl).1
  rw [Bool.eq_false_iff]
  intro hc
  rcases h.1 hc with h1 | h1
  · simp [List.lookup] at h1
  · simp [List.lookup] at h1

/-- C2: when the derived state file is missing, the existence check rejects, the file
reads as `null` or as the empty string, or parsing throws (or yields `null`),
`checkIntentCompletion` returns `completed = false` and `stateData = null`; being a
total function that returns the object, it does not throw. -/
theorem checkIntentCompletion_unavailable (L : Lib) (w : World) (intentPath : String)
    (h : (∃ e, w.files.pathExists (statePathOf intentPath) = .error e) ∨
         w.files.pathExists (statePathOf intentPath) = .ok false ∨
         w.files.safeReadFile (statePathOf intentPath) = none ∨
         w.files.safeReadFile (statePathOf intentPath) = some "" ∨
         ∃ content, w.files.safeReadFile (statePathOf intentPath) = some content ∧
           ((∃ e, L.yamlParse content = .error e) ∨ L.yamlParse content = .ok JSValue.null)) :
    (checkIntentCompletion L w intentPath).completed = false ∧
    (checkIntentCompletion L w intentPath).stateData = JSValue.null := by
  have key : checkIntentCompletion L w intentPath = CompletionCheck.notCompleted := by
    unfold checkIntentCompletion
    rcases h with ⟨e, h⟩ | h | h | h | ⟨content, h, ⟨e, hp⟩ | hp⟩
    · simp only [h]
    · simp only [h]
    · cases hx : w.files.pathExists (statePathOf intentPath) with
      | error e => simp only [hx]
      | ok b => cases b <;> simp only [hx, h]
    · cases hx : w.files.pathExists (statePathOf intentPath) with
      | error e => simp only [hx]
      | ok b => cases b <;> simp [hx, h]
    · cases hx : w.files.pathExists (statePathOf intentPath) with
      | error e => simp only [hx]
      | ok b => cases b <;> simp [hx, h, hp]
    · cases hx : w.files.pathExists (statePathOf intentPath) with
      | error e => simp only [hx]
      | ok b => cases b <;> simp [hx, h, hp, JSValue.getProp]
  rw [key]
  exact ⟨rfl, rfl⟩

/-- Witness for C2: a missing state file, an empty one and one that is not valid YAML. -/
theorem checkIntentCompletion_unavailable_witness :
    ((checkIntentCompletion readLib readWorld
        "/repo/.carl/project/features/missing.intent.carl").completed = false ∧
     (checkIntentCompletion readLib readWorld
        "/repo/.carl/project/features/missing.intent.carl").stateData = JSValue.null) ∧
    ((checkIntentCompletion readLib readWorld
        "/repo/.carl/project/features/empty.intent.carl").completed = false ∧
     (checkIntentCompletion readLib readWorld
        "/repo/.carl/project/features/empty.intent.carl").stateData = JSValue.null) ∧
    ((checkIntentCompletion readLib readWorld
        "/repo/.carl/project/features/bad.intent.carl").completed = false ∧
     (checkIntentCompletion readLib readWorld
        "/repo/.carl/project/features/bad.intent.carl").stateData = JSValue.null) :=
  ⟨checkIntentCompletion_unavailable readLib readWorld _ (Or.inr (Or.inl rfl)),
   checkIntentCompletion_unavailable readLib readWorld _ (Or.inr (Or.inr (Or.inr (Or.inl rfl)))),
   checkIntentCompletion_unavailable readLib readWorld _
     (Or.inr (Or.inr (Or.inr (Or.inr
       ⟨"invalid: yaml: content: [", rfl, Or.inl ⟨"YAMLParseError", rfl⟩⟩))))⟩

/-! ### C3: calculateAverageCompletion -/

/-- C3 (counterexample): the forty entries 23, 0, ..., 0 have the mean 0.575, so that
mean * 100 is the half 57.5 and the mean rounded to two decimals with halves up is
0.58.  `calculateAverageCompletion` returns 0.57: the quotient 23 / 40 is the double
just below 0.575, its product by 100 is the double 57.49999999999999, which
`Math.round` takes to 57. -/
theorem calculateAverageCompletion_half_rounded_down :
    halfCentEntries.filterMap JSValue.asNum
      = (23 :: List.replicate 39 (0 : ℚ)).map JSNum.fin ∧
    (23 :: List.replicate 39 (0 : ℚ)).sum / (23 :: List.replicate 39 (0 : ℚ)).length * 100
      = 115 / 2 ∧
    (⌊(115 / 2 : ℚ) + 1 / 2⌋ : ℤ) = 58 ∧
    (JSNum.fin 23).div (JSNum.fin 40)
      = JSNum.fin (2589569785738035 / 4503599627370496) ∧
    (JSNum.fin (2589569785738035 / 4503599627370496)).mul (JSNum.fin 100)
      = JSNum.fin (8092405580431359 / 140737488355328) ∧
    calculateAverageCompletion (some halfCentEntries) = JSNum.ofRat (57 / 100) ∧
    calculateAverageCompletion (some halfCentEntries) ≠ JSNum.ofRat (58 / 100) := by
  refine ⟨by decide!, by decide!, by decide!, by decide!, by decide!, by decide!, by decide!⟩

/-- C3 (amended): `calculateAverageCompletion` is 0 for a missing or empty argument and
for a list without numeric entry.  When the numeric entries of `xs` are `ns` (all other
entries, `null` included, being dropped), it is `Math.round(mean * 100) / 100`
evaluated in double arithmetic, where `mean` is the quotient of the sum of `ns`,
accumulated from 0 in list order, by their number.  When the entries are the finite
numbers `qs` and the sum, the mean and `mean * 100` are computed without rounding
error, this is the double nearest to the exact mean rounded to two decimals with
halves up, `floor(mean * 100 + 1/2) / 100`.  Examples: `[100, 50, 0]` gives 50 and
`[100, null, 50]` gives 75. -/
theorem calculateAverageCompletion_eq_double_rounded_mean :
    calculateAverageCompletion none = JSNum.fin 0 ∧
    calculateAverageCompletion (some []) = JSNum.fin 0 ∧
    (∀ xs : List JSValue, xs.filterMap JSValue.asNum = [] →
      calculateAverageCompletion (some xs) = JSNum.fin 0) ∧
    (∀ (xs : List JSValue) (ns : List JSNum), ns ≠ [] →
      xs.filterMap JSValue.asNum = ns →
      calculateAverageCompletion (some xs)
        = JSNum.round2 ((ns.foldl JSNum.add (JSNum.fin 0)).div (JSNum.fin ns.length))) ∧
    (∀ (xs : List JSValue) (qs : List ℚ), qs ≠ [] →
      xs.filterMap JSValue.asNum = qs.map JSNum.fin →
      (qs.map JSNum.fin).foldl JSNum.add (JSNum.fin 0) = JSNum.fin qs.sum →
      JSNum.ofRat (qs.sum / qs.length) = JSNum.fin (qs.sum / qs.length) →
      JSNum.ofRat (qs.sum / qs.length * 100) = JSNum.fin (qs.sum / qs.length * 100) →
      calculateAverageCompletion (some xs)
        = JSNum.ofRat (((⌊qs.sum / qs.length * 100 + 1 / 2⌋ : ℤ) : ℚ) / 100)) ∧
    calculateAverageCompletion
        (some [JSValue.num (JSNum.fin 100), JSValue.num (JSNum.fin 50),
               JSValue.num (JSNum.fin 0)]) = JSNum.fin 50 ∧
    calculateAverageCompletion
        (some [JSValue.num (JSNum.fin 100), JSValue.null,
               JSValue.num (JSNum.fin 50)]) = JSNum.fin 75 := by
  have general : ∀ (xs : List JSValue) (ns : List JSNum), ns ≠ [] →
      xs.filterMap JSValue.asNum = ns →
      calculateAverageCompletion (some xs)
        = JSNum.round2 ((ns.foldl JSNum.add (JSNum.fin 0)).div (JSNum.fin ns.length)) := by
    intro xs ns hns hxs
    have hlen : ns.length ≠ 0 := fun h => hns (List.length_eq_zero.mp h)
    have hxs0 : xs.length ≠ 0 := by
      intro h
      rw [List.length_eq_zero.mp h] at hxs
      exact hns hxs.symm
    simp only [calculateAverageCompletion, hxs0, if_false, hxs, hlen, JSNum.round2]
  refine ⟨rfl, rfl, ?_, general, ?_, by decide!, by decide!⟩
  · intro xs hxs
    simp [calculateAverageCompletion, hxs]
  · intro xs qs hqs hxs hsum hmean hprod
    have hq : ((qs.length : ℕ) : ℚ) ≠ 0 :=
      Nat.cast_ne_zero.mpr (fun h => hqs (List.length_eq_zero.mp h))
    rw [general xs (qs.map JSNum.fin) (fun h => hqs (List.map_eq_nil_iff.mp h)) hxs, hsum,
      List.length_map]
    have hdiv : (JSNum.fin qs.sum).div (JSNum.fin (qs.length : ℚ))
        = JSNum.fin (qs.sum / qs.length) := by
      simp only [JSNum.div]
      rw [if_neg hq, hmean]
    have hmul : (JSNum.fin (qs.sum / qs.length)).mul (JSNum.fin 100)
        = JSNum.fin (qs.sum / qs.length * 100) := hprod
    rw [hdiv, JSNum.round2, hmul]
    simp only [JSNum.round, JSNum.div]
    rw [if_neg (by norm_num)]

/-- Witness for C3 (amended): the entries `[33, "n/a", 33, null, 34.5]` have the sum
100.5 and the mean 33.5, both computed exactly, and average to 33.5. -/
theorem calculateAverageCompletion_eq_double_rounded_mean_witness :
    calculateAverageCompletion
        (some [JSValue.num (JSNum.fin 33), JSValue.str "n/a", JSValue.num (JSNum.fin 33),
               JSValue.null, JSValue.num (JSNum.fin (69 / 2))])
      = JSNum.ofRat (((⌊([33, 33, 69 / 2] : List ℚ).sum / ([33, 33, 69 / 2] : List ℚ).length
          * 100 + 1 / 2⌋ : ℤ) : ℚ) / 100) :=
  calculateAverageCompletion_eq_double_rounded_mean.2.2.2.2.1
    [JSValue.num (JSNum.fin 33), JSValue.str "n/a", JSValue.num (JSNum.fin 33),
     JSValue.null, JSValue.num (JSNum.fin (69 / 2))] [33, 33, 69 / 2] (by simp) rfl
    (by decide!) (by decide!) (by decide!)

/-! ### C4 - C6: getCompletionPercentage -/

/-- C4: on a state file that exists, is non-empty and parses to a mapping,
`getCompletionPercentage` resolves in the order (a) the top-level
`completion_percentage` if it is a number, (b) else `metadata.completion_percentage`
if it is a number (both passed through the clamp `Math.max(0, Math.min(100, x))`,
which is the identity on `[0, 100]`), (c) else 100 if the top-level or nested
`status` / `phase` is "completed", (d) else 0. -/
theorem getCompletionPercentage_resolution_order (L : Lib) (w : World)
    (statePath content : String) (fields : List (String × JSValue))
    (hexists : w.files.pathExists statePath = .ok true)
    (hread : w.files.safeReadFile statePath = some content)
    (hnonempty : content ≠ "")
    (hparse : L.yamlParse content = .ok (JSValue.obj fields)) :
    (∀ n, (JSValue.obj fields).field "completion_percentage" = JSValue.num n →
      getCompletionPercentage L w statePath = some (clampPercentage n)) ∧
    (∀ n, ((JSValue.obj fields).field "completion_percentage").isNumber = false →
      ((JSValue.obj fields).field "metadata").field "completion_percentage" = JSValue.num n →
      getCompletionPercentage L w statePath = some (clampPercentage n)) ∧
    (((JSValue.obj fields).field "completion_percentage").isNumber = false →
      (((JSValue.obj fields).field "metadata").field "completion_percentage").isNumber = false →
      ((JSValue.obj fields).field "status" = JSValue.str "completed" ∨
       (JSValue.obj fields).field "phase" = JSValue.str "completed" ∨
       ((JSValue.obj fields).field "metadata").field "status" = JSValue.str "completed" ∨
       ((JSValue.obj fields).field "metadata").field "phase" = JSValue.str "completed") →
      getCompletionPercentage L w statePath = some (JSNum.fin 100)) ∧
    (((JSValue.obj fields).field "completion_percentage").isNumber = false →
      (((JSValue.obj fields).field "metadata").field "completion_percentage").isNumber = false →
      ¬ ((JSValue.obj fields).field "status" = JSValue.str "completed" ∨
         (JSValue.obj fields).field "phase" = JSValue.str "completed" ∨
         ((JSValue.obj fields).field "metadata").field "status" = JSValue.str "completed" ∨
         ((JSValue.obj fields).field "metadata").field "phase" = JSValue.str "completed") →
      getCompletionPercentage L w statePath = some (JSNum.fin 0)) ∧
    (∀ q : ℚ, 0 ≤ q → q ≤ 100 → clampPercentage (JSNum.fin q) = JSNum.fin q) := by
  have hnum : ∀ v : JSValue, v.isNumber = false → v.asNum = none := by
    intro v hv
    cases v <;> simp_all [JSValue.isNumber, JSValue.asNum]
  rw [getCompletionPercentage_obj L w statePath content fields hexists hread hnonempty hparse,
    resolvePercentage_obj]
  refine ⟨?_, ?_, ?_, ?_, clampPercentage_of_mem⟩
  · intro n h
    simp [h, JSValue.asNum]
  · intro n h1 h2
    rw [hnum _ h1, h2]
    rfl
  · intro h1 h2 h3
    simp only [hnum _ h1, hnum _ h2]
    rw [if_pos]
    simpa only [Bool.or_eq_true, JSValue.strictEqStr_iff, or_assoc] using h3
  · intro h1 h2 h3
    simp only [hnum _ h1, hnum _ h2]
    rw [if_neg]
    simpa only [Bool.or_eq_true, JSValue.strictEqStr_iff, or_assoc] using h3

/-- Witness for C4: percentage 95 with phase "completed" resolves to 95, not 100. -/
theorem getCompletionPercentage_resolution_order_witness :
    getCompletionPercentage readLib readWorld "/repo/.carl/project/features/b.state.carl"
      = some (JSNum.fin 95) := by
  have h := (getCompletionPercentage_resolution_order readLib readWorld
    "/repo/.carl/project/features/b.state.carl"
    "completion_percentage: 95\nphase: \"completed\"\n"
    [("completion_percentage", JSValue.num (JSNum.fin 95)),
     ("phase", JSValue.str "completed")]
    rfl rfl (by decide) rfl).1 (JSNum.fin 95) rfl
  rw [h, clampPercentage_of_mem 95 (by norm_num) (by norm_num)]

/-- C5 (failing input): for the state file `completion_percentage: .nan` the function
returns the number `NaN`, a non-null result for which neither `0 <= v` nor `v <= 100`
holds: the clamp `Math.max(0, Math.min(100, x))` lets `NaN` through. -/
theorem getCompletionPercentage_nan_escapes_clamp :
    getCompletionPercentage readLib readWorld "/repo/.carl/project/features/c.state.carl"
      = some JSNum.nan ∧
    JSNum.ge JSNum.nan (JSNum.fin 0) = false ∧
    JSNum.ge (JSNum.fin 100) JSNum.nan = false :=
  ⟨rfl, rfl, rfl⟩

/-- C6: `getCompletionPercentage` returns `null` when the state file does not exist
(or the existence check rejects), reads as `null` or empty, or when parsing throws or
yields a falsy value; on an existing, non-empty file that parses to a mapping it
returns a number.  Being a total function, it never throws. -/
theorem getCompletionPercentage_null_iff_unavailable (L : Lib) (w : World)
    (statePath : String) :
    (((∃ e, w.files.pathExists statePath = .error e) ∨
      w.files.pathExists statePath = .ok false ∨
      w.files.safeReadFile statePath = none ∨
      w.files.safeReadFile statePath = some "" ∨
      ∃ content, w.files.safeReadFile statePath = some content ∧
        ((∃ e, L.yamlParse content = .error e) ∨
         ∃ v, L.yamlParse content = .ok v ∧ v.truthy = false)) →
      getCompletionPercentage L w statePath = none) ∧
    (∀ (content : String) (fields : List (String × JSValue)),
      w.files.pathExists statePath = .ok true →
      w.files.safeReadFile statePath = some content →
      content ≠ "" →
      L.yamlParse content = .ok (JSValue.obj fields) →
      ∃ n, getCompletionPercentage L w statePath = some n) := by
  constructor
  · intro h
    unfold getCompletionPercentage
    rcases h with ⟨e, h⟩ | h | h | h | ⟨content, h, ⟨e, hp⟩ | ⟨v, hp, hv⟩⟩
    · simp only [h]
    · simp only [h]
    · cases hx : w.files.pathExists statePath with
      | error e => simp only [hx]
      | ok b => cases b <;> simp only [hx, h]
    · cases hx : w.files.pathExists statePath with
      | error e => simp only [hx]
      | ok b => cases b <;> simp [hx, h]
    · cases hx : w.files.pathExists statePath with
      | error e => simp only [hx]
      | ok b => cases b <;> simp [hx, h, hp]
    · cases hx : w.files.pathExists statePath with
      | error e => simp only [hx]
      | ok b => cases b <;> simp [hx, h, hp, hv]
  · intro content fields hexists hread hnonempty hparse
    rw [getCompletionPercentage_obj L w statePath content fields hexists hread hnonempty hparse,
      resolvePercentage_obj]
    exact ⟨_, rfl⟩

/-- Witness for C6: a missing file, an unparsable file and a file without content
give `null`; the file holding a mapping gives a number. -/
theorem getCompletionPercentage_null_iff_unavailable_witness :
    getCompletionPercentage readLib readWorld
        "/repo/.carl/project/features/missing.state.carl" = none ∧
    getCompletionPercentage readLib readWorld
        "/repo/.carl/project/features/bad.state.carl" = none ∧
    getCompletionPercentage readLib readWorld
        "/repo/.carl/project/features/empty.state.carl" = none ∧
    ∃ n, getCompletionPercentage readLib readWorld
        "/repo/.carl/project/features/a.state.carl" = some n :=
  ⟨(getCompletionPercentage_null_iff_unavailable readLib readWorld _).1 (Or.inr (Or.inl rfl)),
   (getCompletionPercentage_null_iff_unavailable readLib readWorld _).1
     (Or.inr (Or.inr (Or.inr (Or.inr
       ⟨"invalid: yaml: content: [", rfl, Or.inl ⟨"YAMLParseError", rfl⟩⟩)))),
   (getCompletionPercentage_null_iff_unavailable readLib readWorld _).1
     (Or.inr (Or.inr (Or.inr (Or.inl rfl)))),
   (getCompletionPercentage_null_iff_unavailable readLib readWorld _).2 nestedOnlyText
     [("completion_percentage", JSValue.num (JSNum.fin 85)),
      ("phase", JSValue.str "development"),
      ("status", JSValue.str "completed"),
      ("metadata", JSValue.obj
         [("completion_percentage", JSValue.num (JSNum.fin 100)),
          ("status", JSValue.str "completed"),
          ("phase", JSValue.str "completed")])]
     rfl rfl (by decide) rfl⟩

/-! ### C7 - C9: recalculateParentCompletion -/

/-- C7: the state file of the feature "parent" exists and parses to the mapping
`metadata: foo`, `phase: development`; its two children are at 100 and 50.  The
parent's percentage reads 0, the average is 75 and the difference is 75, above 0.01.
`recalculateParentCompletion` returns `success = true`, `oldPercentage = 0` and
`newPercentage = 75`, but 75 is not written as the parent's completion percentage: the
assignments go to properties of the string "foo" and are ignored, the only mutation is
the write of the unchanged document, and the parent's percentage still reads 0
afterwards.  With the state document `completion_percentage: 0`, `phase: development`
the same call writes the document with the percentage 75. -/
theorem recalculateParentCompletion_scalar_metadata_not_updated :
    (scalarMetadataWorld.files.pathExists
        (statePathOf "/repo/.carl/project/features/parent.intent.carl") = .ok true ∧
     scalarMetadataWorld.files.safeReadFile
        (statePathOf "/repo/.carl/project/features/parent.intent.carl")
        = some "metadata: foo\nphase: development\n" ∧
     getCompletionPercentage scalarMetadataLib scalarMetadataWorld
        (statePathOf "/repo/.carl/project/features/parent.intent.carl")
        = some (JSNum.fin 0) ∧
     getChildIntentPaths treeMap "/repo/.carl/project/features/parent.intent.carl"
        = ["/repo/.carl/project/stories/done.intent.carl",
           "/repo/.carl/project/stories/half.intent.carl"] ∧
     childrenAverage scalarMetadataLib scalarMetadataWorld treeMap
        "/repo/.carl/project/features/parent.intent.carl" = JSNum.fin 75 ∧
     percentageDifference scalarMetadataLib scalarMetadataWorld treeMap
        "/repo/.carl/project/features/parent.intent.carl" = JSNum.fin 75) ∧
    ((recalculateParentCompletion scalarMetadataLib scalarMetadataWorld (.ok treeMap)
        "/repo/.carl/project/features/parent.intent.carl").1.success = true ∧
     (recalculateParentCompletion scalarMetadataLib scalarMetadataWorld (.ok treeMap)
        "/repo/.carl/project/features/parent.intent.carl").1.oldPercentage
        = some (JSNum.fin 0) ∧
     (recalculateParentCompletion scalarMetadataLib scalarMetadataWorld (.ok treeMap)
        "/repo/.carl/project/features/parent.intent.carl").1.newPercentage
        = some (JSNum.fin 75) ∧
     (recalculateParentCompletion scalarMetadataLib scalarMetadataWorld (.ok treeMap)
        "/repo/.carl/project/features/parent.intent.carl").2.trace
        = [Event.writeFile "/repo/.carl/project/features/parent.state.carl"
            "metadata: foo\nphase: development\n"] ∧
     getCompletionPercentage scalarMetadataLib
        (recalculateParentCompletion scalarMetadataLib scalarMetadataWorld (.ok treeMap)
          "/repo/.carl/project/features/parent.intent.carl").2
        "/repo/.carl/project/features/parent.state.carl" = some (JSNum.fin 0)) ∧
    ((recalculateParentCompletion treeLib treeWorld (.ok treeMap)
        "/repo/.carl/project/features/parent.intent.carl").1.newPercentage
        = some (JSNum.fin 75) ∧
     (recalculateParentCompletion treeLib treeWorld (.ok treeMap)
        "/repo/.carl/project/features/parent.intent.carl").2.trace
        = [Event.writeFile "/repo/.carl/project/features/parent.state.carl"
            "completion_percentage: 75\nphase: development\nlast_updated: T1700000000000\n"] ∧
     getCompletionPercentage treeLib
        (recalculateParentCompletion treeLib treeWorld (.ok treeMap)
          "/repo/.carl/project/features/parent.intent.carl").2
        "/repo/.carl/project/features/parent.state.carl" = some (JSNum.fin 75)) := by
  refine ⟨⟨rfl, rfl, by decide!, by decide!, by decide!, by decide!⟩,
    ⟨by decide!, by decide!, by decide!, by decide!, by decide!⟩,
    ⟨by decide!, by decide!, by decide!⟩⟩

/-- C8: for a parent that is absent from the relationship graph, or whose entry has no
resolved child path, `recalculateParentCompletion` returns `success = true` with
`oldPercentage = newPercentage =` the percentage read from the parent's state file,
and leaves the world (files and trace) unchanged. -/
theorem recalculateParentCompletion_without_children (L : Lib) (w : World)
    (m : RelationshipMap) (parentIntentPath : String)
    (h : m.lookup parentIntentPath = none ∨
         ∃ r, m.lookup parentIntentPath = some r ∧ r.childPaths = []) :
    (recalculateParentCompletion L w (.ok m) parentIntentPath).1.success = true ∧
    (recalculateParentCompletion L w (.ok m) parentIntentPath).1.oldPercentage
      = getCompletionPercentage L w (statePathOf parentIntentPath) ∧
    (recalculateParentCompletion L w (.ok m) parentIntentPath).1.newPercentage
      = getCompletionPercentage L w (statePathOf parentIntentPath) ∧
    (recalculateParentCompletion L w (.ok m) parentIntentPath).2 = w := by
  have hnone : getChildIntentPaths m parentIntentPath = [] := by
    rcases h with h | ⟨r, h, hr⟩
    · simp [getChildIntentPaths, h]
    · simp [getChildIntentPaths, h, hr]
  rw [recalculateParentCompletion_of_no_children L w m parentIntentPath hnone]
  exact ⟨rfl, rfl, rfl, rfl⟩

/-- Witness for C8: a parent whose only declared child is unresolved, and a path that
is not in the graph. -/
theorem recalculateParentCompletion_without_children_witness :
    ((recalculateParentCompletion treeLib treeWorld (.ok treeMap)
        "/repo/.carl/project/features/leaf.intent.carl").1.newPercentage
        = getCompletionPercentage treeLib treeWorld
            (statePathOf "/repo/.carl/project/features/leaf.intent.carl") ∧
     (recalculateParentCompletion treeLib treeWorld (.ok treeMap)
        "/repo/.carl/project/features/leaf.intent.carl").2 = treeWorld) ∧
    ((recalculateParentCompletion treeLib treeWorld (.ok treeMap)
        "/repo/.carl/project/features/other.intent.carl").1.success = true ∧
     (recalculateParentCompletion treeLib treeWorld (.ok treeMap)
        "/repo/.carl/project/features/other.intent.carl").2 = treeWorld) :=
  ⟨⟨(recalculateParentCompletion_without_children treeLib treeWorld treeMap
        "/repo/.carl/project/features/leaf.intent.carl"
        (Or.inr ⟨_, rfl, rfl⟩)).2.2.1,
     (recalculateParentCompletion_without_children treeLib treeWorld treeMap
        "/repo/.carl/project/features/leaf.intent.carl"
        (Or.inr ⟨_, rfl, rfl⟩)).2.2.2⟩,
   ⟨(recalculateParentCompletion_without_children treeLib treeWorld treeMap
        "/repo/.carl/project/features/other.intent.carl" (Or.inl rfl)).1,
    (recalculateParentCompletion_without_children treeLib treeWorld treeMap
        "/repo/.carl/project/features/other.intent.carl" (Or.inl rfl)).2.2.2⟩⟩

/-- C9 (counterexample): the parent "ghost" has no state file, so its current
percentage is `null`, counted as 0; its child is at 50, so the difference is 50, well
above 0.01; yet nothing is written and the call reports failure. -/
theorem recalculateParentCompletion_large_difference_not_written :
    percentageDifference treeLib treeWorld treeMap
        "/repo/.carl/project/features/ghost.intent.carl" = JSNum.fin 50 ∧
    (percentageDifference treeLib treeWorld treeMap
        "/repo/.carl/project/features/ghost.intent.carl").ge (JSNum.ofRat (1 / 100)) = true ∧
    (recalculateParentCompletion treeLib treeWorld (.ok treeMap)
        "/repo/.carl/project/features/ghost.intent.carl").2.trace = [] ∧
    (recalculateParentCompletion treeLib treeWorld (.ok treeMap)
        "/repo/.carl/project/features/ghost.intent.carl").1.success = false := by
  decide!

/-- C9 (amended): for a parent with at least one resolved child path,
`updateParentCompletionPercentage` is attempted exactly when the difference `|old -
new|`, computed in double arithmetic from the old percentage (`null` counted as 0) and
the children's average, is at least the double `0.01`.  Below that (or when the
difference is `NaN`) the world is unchanged and the result is `success = true` with
`newPercentage = oldPercentage`.  From `0.01` upwards the outcome is that of the
update: when the parent's percentage reads as `null` nothing is written and the result
is `success = false`, `newPercentage = null`; when the parent's state file holds a
mapping and can be written, the state file is written and the result is `success =
true` with `newPercentage` = the average. -/
theorem recalculateParentCompletion_threshold (L : Lib) (w : World)
    (m : RelationshipMap) (parentIntentPath : String)
    (hchildren : getChildIntentPaths m parentIntentPath ≠ []) :
    percentageDifference L w m parentIntentPath
      = JSNum.abs (JSNum.sub
          (orZero (getCompletionPercentage L w (statePathOf parentIntentPath)))
          (childrenAverage L w m parentIntentPath)) ∧
    ((percentageDifference L w m parentIntentPath).ge (JSNum.ofRat (1 / 100)) = false →
      (recalculateParentCompletion L w (.ok m) parentIntentPath).2 = w ∧
      (recalculateParentCompletion L w (.ok m) parentIntentPath).1.success = true ∧
      (recalculateParentCompletion L w (.ok m) parentIntentPath).1.oldPercentage
        = getCompletionPercentage L w (statePathOf parentIntentPath) ∧
      (recalculateParentCompletion L w (.ok m) parentIntentPath).1.newPercentage
        = getCompletionPercentage L w (statePathOf parentIntentPath)) ∧
    ((percentageDifference L w m parentIntentPath).ge (JSNum.ofRat (1 / 100)) = true →
      (recalculateParentCompletion L w (.ok m) parentIntentPath).2
        = (updateParentCompletionPercentage L w parentIntentPath
            (childrenAverage L w m parentIntentPath)).2 ∧
      (recalculateParentCompletion L w (.ok m) parentIntentPath).1.success
        = (updateParentCompletionPercentage L w parentIntentPath
            (childrenAverage L w m parentIntentPath)).1 ∧
      (getCompletionPercentage L w (statePathOf parentIntentPath) = none →
        (recalculateParentCompletion L w (.ok m) parentIntentPath).2 = w ∧
        (recalculateParentCompletion L w (.ok m) parentIntentPath).1.success = false ∧
        (recalculateParentCompletion L w (.ok m) parentIntentPath).1.newPercentage = none) ∧
      (∀ (content : String) (fields : List (String × JSValue)),
        w.files.pathExists (statePathOf parentIntentPath) = .ok true →
        w.files.safeReadFile (statePathOf parentIntentPath) = some content →
        content ≠ "" →
        L.yamlParse content = .ok (JSValue.obj fields) →
        w.writeFileFails (statePathOf parentIntentPath) = false →
        (recalculateParentCompletion L w (.ok m) parentIntentPath).1.success = true ∧
        (recalculateParentCompletion L w (.ok m) parentIntentPath).1.newPercentage
          = some (childrenAverage L w m parentIntentPath) ∧
        ∃ updated es,
          (recalculateParentCompletion L w (.ok m) parentIntentPath).2.trace
            = w.trace ++ Event.writeFile (statePathOf parentIntentPath)
                (L.yamlStringify updated) :: es)) := by
  refine ⟨rfl, ?_, ?_⟩
  · intro hdiff
    rw [recalculateParentCompletion_of_small L w m parentIntentPath hchildren hdiff]
    exact ⟨rfl, rfl, rfl, rfl⟩
  · intro hdiff
    rw [recalculateParentCompletion_of_large L w m parentIntentPath hchildren hdiff]
    refine ⟨rfl, ?_, ?_, ?_⟩
    · split <;> simp_all
    · intro hnone
      rw [updateParentCompletionPercentage_unavailable L w parentIntentPath _ hnone]
      exact ⟨rfl, rfl, rfl⟩
    · intro content fields hexists hread hnonempty hparse hwrite
      obtain ⟨updated, w1, es, _, hsucc, htrace⟩ :=
        updateParentCompletionPercentage_obj L w parentIntentPath content fields
          (childrenAverage L w m parentIntentPath) hexists hread hnonempty hparse hwrite
      rw [hsucc]
      exact ⟨rfl, rfl, updated, es, htrace⟩

/-- Witness for C9 (amended): the parent at 0 with children at 100 and 50 is above the
threshold and its state file is written.  The parent "edge" at 49.99 with one child at
50 is below it: the two doubles differ by 0.00999999999999801, less than the double
0.01, and the world is left unchanged. -/
theorem recalculateParentCompletion_threshold_witness :
    ((recalculateParentCompletion treeLib treeWorld (.ok treeMap)
        "/repo/.carl/project/features/parent.intent.carl").1.success = true ∧
     (recalculateParentCompletion treeLib treeWorld (.ok treeMap)
        "/repo/.carl/project/features/parent.intent.carl").1.newPercentage
        = some (childrenAverage treeLib treeWorld treeMap
            "/repo/.carl/project/features/parent.intent.carl")) ∧
    (percentageDifference nearThresholdLib nearThresholdWorld nearThresholdMap
        "/repo/.carl/project/features/edge.intent.carl"
      = JSNum.fin (1407374883553 / 140737488355328) ∧
     JSNum.ofRat (1 / 100) = JSNum.fin (5764607523034235 / 576460752303423488) ∧
     (1407374883553 / 140737488355328 : ℚ) < 5764607523034235 / 576460752303423488 ∧
     (recalculateParentCompletion nearThresholdLib nearThresholdWorld (.ok nearThresholdMap)
        "/repo/.carl/project/features/edge.intent.carl").1.success = true ∧
     (recalculateParentCompletion nearThresholdLib nearThresholdWorld (.ok nearThresholdMap)
        "/repo/.carl/project/features/edge.intent.carl").2 = nearThresholdWorld) := by
  have h1 := ((recalculateParentCompletion_threshold treeLib treeWorld treeMap
    "/repo/.carl/project/features/parent.intent.carl" (by decide)).2.2 (by decide!)).2.2.2
    "completion_percentage: 0\nphase: development\n"
    [("completion_percentage", JSValue.num (JSNum.fin 0)),
     ("phase", JSValue.str "development")]
    rfl rfl (by decide) rfl rfl
  have h2 := (recalculateParentCompletion_threshold nearThresholdLib nearThresholdWorld
    nearThresholdMap "/repo/.carl/project/features/edge.intent.carl" (by decide)).2.1
    (by decide!)
  exact ⟨⟨h1.1, h1.2.1⟩, ⟨by decide!, by decide!, by norm_num, h2.2.1, h2.1⟩⟩

/-! ### C10: completion trigger of updateParentCompletionPercentage -/

/-- C10 (failing input): the parent "nested" keeps its percentage under `metadata`.
Persisting 100 succeeds and writes a document whose `metadata` carries the status
"completed" and a completion date, but that write is the only mutation: no
version-control command is issued, so the archival workflow is not invoked.  For the
parent "parent", which keeps its percentage at the top level, the same call does
issue the staging command of `commitAndMoveFiles`. -/
theorem updateParentCompletionPercentage_nested_not_archived :
    (updateParentCompletionPercentage treeLib treeWorld
        "/repo/.carl/project/features/nested.intent.carl" (JSNum.fin 100)).1 = true ∧
    (updateParentCompletionPercentage treeLib treeWorld
        "/repo/.carl/project/features/nested.intent.carl" (JSNum.fin 100)).2.trace
      = [Event.writeFile "/repo/.carl/project/features/nested.state.carl" nestedTextAt100] ∧
    treeLib.yamlParse nestedTextAt100 = .ok nestedDocAt100 ∧
    (checkIntentCompletion treeLib
        (updateParentCompletionPercentage treeLib treeWorld
          "/repo/.carl/project/features/nested.intent.carl" (JSNum.fin 100)).2
        "/repo/.carl/project/features/nested.intent.carl").completed = false ∧
    Event.execSync
        ("git add \"/repo/.carl/project/features/parent.intent.carl\" "
          ++ "\"/repo/.carl/project/features/parent.state.carl\"") "/repo"
      ∈ (updateParentCompletionPercentage treeLib treeWorld
          "/repo/.carl/project/features/parent.intent.carl" (JSNum.fin 100)).2.trace := by
  refine ⟨by decide!, by decide!, rfl, by decide!, by decide!⟩

/-! ### C18 - C20: scope resolution and state path -/

theorem getCompletedDirectory_eq_join (L : Lib) (w : World) (intentPath : String) :
    getCompletedDirectory L w intentPath
      = L.join [w.carlRoot, ".carl/project", completedScopeOf intentPath, "completed"] := rfl

theorem completedScopeOf_eq_first (intentPath : String) :
    completedScopeOf intentPath = (firstScopeDirectory intentPath).getD "technical" := by
  have e1 : "/" ++ "epics" ++ "/" = "/epics/" := by decide
  have e2 : "/" ++ "features" ++ "/" = "/features/" := by decide
  have e3 : "/" ++ "stories" ++ "/" = "/stories/" := by decide
  have e4 : "/" ++ "technical" ++ "/" = "/technical/" := by decide
  simp only [completedScopeOf, firstScopeDirectory, scopeDirectories, List.find?, e1, e2, e3, e4]
  cases jsIncludes intentPath "/epics/" <;> cases jsIncludes intentPath "/features/" <;>
    cases jsIncludes intentPath "/stories/" <;> cases jsIncludes intentPath "/technical/" <;>
    rfl

/-- C18: `getCompletedDirectory` is total and returns the join of the root,
`.carl/project`, `s` and `completed`, where `s` is the first of epics, features,
stories, technical (in that order, whatever their positions in the path) such that
the path contains `/s/`, and technical when it contains none. -/
theorem getCompletedDirectory_first_scope (L : Lib) (w : World) (intentPath : String) :
    getCompletedDirectory L w intentPath
      = L.join [w.carlRoot, ".carl/project",
          (firstScopeDirectory intentPath).getD "technical", "completed"] ∧
    getCompletedDirectory (Lib.ofDocs []) (World.ofFiles []) "/x/epics/y.intent.carl"
      = "/repo/.carl/project/epics/completed" ∧
    getCompletedDirectory (Lib.ofDocs []) (World.ofFiles []) "/x/unknown/y.intent.carl"
      = "/repo/.carl/project/technical/completed" ∧
    getCompletedDirectory (Lib.ofDocs []) (World.ofFiles []) "/x/stories/old/epics/y.intent.carl"
      = "/repo/.carl/project/epics/completed" := by
  refine ⟨?_, by decide, by decide, by decide⟩
  rw [getCompletedDirectory_eq_join, completedScopeOf_eq_first]

/-- C19: `getScopeTypeFromPath` is total and returns the label of the first of the
segments `/epics/`, `/features/`, `/stories/`, `/technical/` that the path contains,
and "item" when it contains none; the directory chosen by `getCompletedDirectory` is
the one that goes with this label: epics, features or stories exactly for the labels
epic, feature, story, and technical exactly for the labels technical and item. -/
theorem getScopeTypeFromPath_agrees (L : Lib) (w : World) (filePath : String) :
    getScopeTypeFromPath filePath
      = (match firstScopeDirectory filePath with
         | some d =>
           if d = "epics" then "epic" else if d = "features" then "feature"
           else if d = "stories" then "story" else "technical"
         | none => "item") ∧
    getCompletedDirectory L w filePath
      = L.join [w.carlRoot, ".carl/project",
          directoryOfLabel (getScopeTypeFromPath filePath), "completed"] ∧
    (completedScopeOf filePath = "epics" ↔ getScopeTypeFromPath filePath = "epic") ∧
    (completedScopeOf filePath = "features" ↔ getScopeTypeFromPath filePath = "feature") ∧
    (completedScopeOf filePath = "stories" ↔ getScopeTypeFromPath filePath = "story") ∧
    (completedScopeOf filePath = "technical" ↔
      (getScopeTypeFromPath filePath = "technical" ∨ getScopeTypeFromPath filePath = "item")) := by
  have e1 : "/" ++ "epics" ++ "/" = "/epics/" := by decide
  have e2 : "/" ++ "features" ++ "/" = "/features/" := by decide
  have e3 : "/" ++ "stories" ++ "/" = "/stories/" := by decide
  have e4 : "/" ++ "technical" ++ "/" = "/technical/" := by decide
  have hlabel : ∀ a b c d : Bool,
      (if a = true then "epic" else if b = true then "feature"
        else if c = true then "story" else if d = true then "technical" else "item")
      = (match (match a with
                | true => some "epics"
                | false =>
                  match b with
                  | true => some "features"
                  | false =>
                    match c with
                    | true => some "stories"
                    | false =>
                      match d with
                      | true => some "technical"
                      | false => none) with
         | some d =>
           if d = "epics" then "epic" else if d = "features" then "feature"
           else if d = "stories" then "story" else "technical"
         | none => "item") := by
    intro a b c d
    cases a <;> cases b <;> cases c <;> cases d <;> rfl
  have hdir : ∀ a b c d : Bool,
      (if a = true then "epics" else if b = true then "features"
        else if c = true then "stories" else if d = true then "technical" else "technical")
      = directoryOfLabel
          (if a = true then "epic" else if b = true then "feature"
            else if c = true then "story" else if d = true then "technical" else "item") := by
    intro a b c d
    cases a <;> cases b <;> cases c <;> cases d <;> decide
  have hiff : ∀ a b c d : Bool,
      ((if a = true then "epics" else if b = true then "features"
          else if c = true then "stories" else if d = true then "technical" else "technical")
          = "epics" ↔
        (if a = true then "epic" else if b = true then "feature"
          else if c = true then "story" else if d = true then "technical" else "item")
          = "epic") ∧
      ((if a = true then "epics" else if b = true then "features"
          else if c = true then "stories" else if d = true then "technical" else "technical")
          = "features" ↔
        (if a = true then "epic" else if b = true then "feature"
          else if c = true then "story" else if d = true then "technical" else "item")
          = "feature") ∧
      ((if a = true then "epics" else if b = true then "features"
          else if c = true then "stories" else if d = true then "technical" else "technical")
          = "stories" ↔
        (if a = true then "epic" else if b = true then "feature"
          else if c = true then "story" else if d = true then "technical" else "item")
          = "story") ∧
      ((if a = true then "epics" else if b = true then "features"
          else if c = true then "stories" else if d = true then "technical" else "technical")
          = "technical" ↔
        ((if a = true then "epic" else if b = true then "feature"
          else if c = true then "story" else if d = true then "technical" else "item")
          = "technical" ∨
         (if a = true then "epic" else if b = true then "feature"
          else if c = true then "story" else if d = true then "technical" else "item")
          = "item")) := by
    intro a b c d
    cases a <;> cases b <;> cases c <;> cases d <;> decide
  refine ⟨?_, ?_, ?_⟩
  · simp only [getScopeTypeFromPath, firstScopeDirectory, scopeDirectories, List.find?,
      e1, e2, e3, e4]
    exact hlabel _ _ _ _
  · rw [getCompletedDirectory_eq_join]
    simp only [completedScopeOf, getScopeTypeFromPath]
    rw [hdir]
  · simp only [completedScopeOf, getScopeTypeFromPath]
    exact hiff _ _ _ _

/-- When the pattern occurs in `pre ++ pat` only as the trailing suffix, the
replacement of its first occurrence is the replacement of the suffix. -/
theorem replaceChars_of_single_occurrence (pat rep pre : List Char) (hpat : pat ≠ [])
    (hsingle : ∀ a b, pre = a ++ b → b ≠ [] → pat.isPrefixOf (b ++ pat) = false) :
    replaceChars pat rep (pre ++ pat) = pre ++ rep := by
  induction pre with
  | nil =>
    obtain ⟨c, cs, rfl⟩ := List.exists_cons_of_ne_nil hpat
    simp [replaceChars]
  | cons c pre ih =>
    have h0 := hsingle [] (c :: pre) rfl (by simp)
    have hrest : ∀ a b, pre = a ++ b → b ≠ [] → pat.isPrefixOf (b ++ pat) = false := by
      intro a b hab hb
      exact hsingle (c :: a) b (by rw [hab]; rfl) hb
    simp only [List.cons_append] at h0 ⊢
    simp only [replaceChars, h0, Bool.false_eq_true, if_false, ih hrest]

/-- The state path is the suffix substitution whenever `.intent.carl` occurs in the
intent path only as its trailing suffix. -/
theorem statePathOf_of_single_occurrence (pre : List Char)
    (hsingle : ∀ a b, pre = a ++ b → b ≠ [] →
      ".intent.carl".data.isPrefixOf (b ++ ".intent.carl".data) = false) :
    statePathOf (String.mk (pre ++ ".intent.carl".data))
      = String.mk (pre ++ ".state.carl".data) := by
  simp only [statePathOf, jsReplace]
  rw [replaceChars_of_single_occurrence _ _ pre (by decide) hsingle]

/-- C20 (failing input): for a project kept in a directory named `demo.intent.carl`,
and for a file named `login.intent.carl.intent.carl`, the derived state path replaces
the first occurrence of `.intent.carl`, not the trailing suffix, so it differs from
the suffix substitution; for an ordinary path the two agree. -/
theorem statePathOf_replaces_first_occurrence :
    statePathOf "/work/demo.intent.carl/.carl/project/features/login.intent.carl"
      = "/work/demo.state.carl/.carl/project/features/login.intent.carl" ∧
    suffixStatePath "/work/demo.intent.carl/.carl/project/features/login.intent.carl"
      = "/work/demo.intent.carl/.carl/project/features/login.state.carl" ∧
    statePathOf "/repo/.carl/project/features/login.intent.carl.intent.carl"
      = "/repo/.carl/project/features/login.state.carl.intent.carl" ∧
    suffixStatePath "/repo/.carl/project/features/login.intent.carl.intent.carl"
      = "/repo/.carl/project/features/login.intent.carl.state.carl" ∧
    statePathOf "/repo/.carl/project/features/login.intent.carl"
      = suffixStatePath "/repo/.carl/project/features/login.intent.carl" := by
  refine ⟨by decide, by decide, by decide, by decide, by decide⟩

/-! ### Auxiliary facts about the archival steps -/

theorem getCompletedDirectory_eq_at (L : Lib) (w : World) (intentPath : String) :
    getCompletedDirectory L w intentPath = completedDirectoryAt L w.carlRoot intentPath := rfl

theorem World.ensureDir_carlRoot (w w1 : World) (path : String)
    (h : w.ensureDir path = .ok w1) : w1.carlRoot = w.carlRoot :=
  (World.ensureDir_trace w w1 path h).2

/-- The source function is the step sequence followed, on failure, by the rollback. -/
theorem commitAndMoveFiles_eq_steps (L : Lib) (w : World) (info : CompletionCheck)
    (r : ArchivalRecord)
    (hi : info.intentPath = some r.intentPath) (hs : info.statePath = some r.statePath)
    (hcp : info.stateData.getProp "completion_percentage" = .ok r.completionPercentage)
    (hph : info.stateData.getProp "phase" = .ok r.phase) :
    commitAndMoveFiles L w info =
      if (runArchivalSteps L r archivalSteps w).1 = false then
        rollbackCompletion (runArchivalSteps L r archivalSteps w).2
      else (true, (runArchivalSteps L r archivalSteps w).2) := by
  simp only [commitAndMoveFiles, hi, hs, hcp, hph, Option.getD, archivalSteps,
    runArchivalSteps, ArchivalStep.run, ArchivalStep.command, World.execSync_carlRoot,
    getCompletedDirectory_eq_at, intentTarget, stateTarget]
  have hr1 := World.execSync_carlRoot w
    ("git add \"" ++ r.intentPath ++ "\" \"" ++ r.statePath ++ "\"")
  generalize w.execSync ("git add \"" ++ r.intentPath ++ "\" \"" ++ r.statePath ++ "\"") = o1
    at hr1 ⊢
  by_cases h1 : o1.1 = false
  · simp only [h1, ↓reduceIte, Bool.true_eq_false]
  · simp only [h1, ↓reduceIte, Bool.true_eq_false]
    have hr2 := World.execSync_carlRoot o1.2
      ("git commit -m \""
        ++ completionCommitMessage L (getScopeTypeFromPath r.intentPath)
            (L.basenameExt r.intentPath ".intent.carl") r.completionPercentage r.phase
        ++ "\"")
    generalize o1.2.execSync
      ("git commit -m \""
        ++ completionCommitMessage L (getScopeTypeFromPath r.intentPath)
            (L.basenameExt r.intentPath ".intent.carl") r.completionPercentage r.phase
        ++ "\"") = o2 at hr2 ⊢
    by_cases h2 : o2.1 = false
    · simp only [h2, ↓reduceIte, Bool.true_eq_false]
    · simp only [h2, ↓reduceIte, Bool.true_eq_false]
      cases hdir : o2.2.ensureDir (completedDirectoryAt L w.carlRoot r.intentPath) with
      | error e => simp only [↓reduceIte, Bool.true_eq_false]
      | ok w3 =>
        have hroot : w3.carlRoot = w.carlRoot := by
          rw [World.ensureDir_carlRoot _ _ _ hdir, hr2, hr1]
        simp only [hroot, World.execSync_carlRoot, Bool.true_eq_false, ↓reduceIte]
        generalize w3.execSync
          ("git mv \"" ++ r.intentPath ++ "\" \""
            ++ L.join [completedDirectoryAt L w.carlRoot r.intentPath, L.basename r.intentPath]
            ++ "\"") = o4
        by_cases h4 : o4.1 = false
        · simp only [h4, ↓reduceIte, Bool.true_eq_false]
        · simp only [h4, ↓reduceIte, Bool.true_eq_false]
          generalize o4.2.execSync
            ("git mv \"" ++ r.statePath ++ "\" \""
              ++ L.join [completedDirectoryAt L w.carlRoot r.intentPath, L.basename r.statePath]
              ++ "\"") = o5
          by_cases h5 : o5.1 = false
          · simp only [h5, ↓reduceIte, Bool.true_eq_false]
          · simp only [h5, ↓reduceIte, Bool.true_eq_false]
            split <;> rfl

theorem World.execSync_git (w : World) (command : String) :
    (w.execSync command).2.git = w.git ∧
    (w.execSync command).2.ensureDirFails = w.ensureDirFails := by
  unfold World.execSync
  split <;> exact ⟨rfl, rfl⟩

theorem World.execSync_success_iff (w : World) (command : String) :
    (w.execSync command).1 = true ↔ (w.git w.trace command w.files).isSome = true := by
  unfold World.execSync
  split <;> simp_all

/-- A step changes neither the root, nor the version-control tool, nor the paths at
which a directory creation fails. -/
theorem ArchivalStep.run_preserves (L : Lib) (r : ArchivalRecord) (st : ArchivalStep)
    (w : World) :
    (st.run L r w).2.carlRoot = w.carlRoot ∧ (st.run L r w).2.git = w.git ∧
    (st.run L r w).2.ensureDirFails = w.ensureDirFails := by
  unfold ArchivalStep.run
  cases hc : st.command L w.carlRoot r with
  | some command => exact ⟨World.execSync_carlRoot _ _, World.execSync_git _ _⟩
  | none =>
    cases hf : w.ensureDirFails (completedDirectoryAt L w.carlRoot r.intentPath) with
    | true => simp [World.ensureDir, hf]
    | false => simp [World.ensureDir, hf]

/-- A step that succeeds appends its event to the trace. -/
theorem ArchivalStep.run_trace_of_success (L : Lib) (r : ArchivalRecord) (st : ArchivalStep)
    (w : World) (h : (st.run L r w).1 = true) :
    (st.run L r w).2.trace = w.trace ++ [st.event L w.carlRoot r] := by
  unfold ArchivalStep.run at h ⊢
  unfold ArchivalStep.event
  cases hc : st.command L w.carlRoot r with
  | some command => exact World.execSync_trace _ _
  | none =>
    cases hf : w.ensureDirFails (completedDirectoryAt L w.carlRoot r.intentPath) with
    | true => simp [hc, World.ensureDir, hf] at h
    | false => simp [World.ensureDir, hf]

/-- A step that fails appends the command it issued, if it is a command. -/
theorem ArchivalStep.run_trace_of_failure (L : Lib) (r : ArchivalRecord) (st : ArchivalStep)
    (w : World) (h : (st.run L r w).1 = false) :
    (st.run L r w).2.trace = w.trace ++ st.attempt L w.carlRoot r := by
  unfold ArchivalStep.run at h ⊢
  unfold ArchivalStep.attempt
  cases hc : st.command L w.carlRoot r with
  | some command => exact World.execSync_trace _ _
  | none =>
    cases hf : w.ensureDirFails (completedDirectoryAt L w.carlRoot r.intentPath) with
    | true => simp [World.ensureDir, hf]
    | false => simp [hc, World.ensureDir, hf] at h

theorem runArchivalSteps_cons (L : Lib) (r : ArchivalRecord) (st : ArchivalStep)
    (rest : List ArchivalStep) (w : World) :
    runArchivalSteps L r (st :: rest) w =
      if (st.run L r w).1 = false then (false, (st.run L r w).2)
      else runArchivalSteps L r rest (st.run L r w).2 := rfl

theorem runArchivalSteps_preserves (L : Lib) (r : ArchivalRecord) (steps : List ArchivalStep)
    (w : World) :
    (runArchivalSteps L r steps w).2.carlRoot = w.carlRoot ∧
    (runArchivalSteps L r steps w).2.git = w.git ∧
    (runArchivalSteps L r steps w).2.ensureDirFails = w.ensureDirFails := by
  induction steps generalizing w with
  | nil => exact ⟨rfl, rfl, rfl⟩
  | cons st rest ih =>
    have hp := ArchivalStep.run_preserves L r st w
    rw [runArchivalSteps_cons]
    cases hst : (st.run L r w).1 with
    | false => simpa using hp
    | true =>
      simp only [Bool.true_eq_false, ↓reduceIte]
      obtain ⟨h1, h2, h3⟩ := ih (st.run L r w).2
      exact ⟨h1.trans hp.1, h2.trans hp.2.1, h3.trans hp.2.2⟩

/-- When all steps of a list succeed, the trace grows by exactly their events. -/
theorem runArchivalSteps_trace_of_success (L : Lib) (r : ArchivalRecord)
    (steps : List ArchivalStep) (w : World)
    (h : (runArchivalSteps L r steps w).1 = true) :
    (runArchivalSteps L r steps w).2.trace
      = w.trace ++ steps.map (ArchivalStep.event L w.carlRoot r) := by
  induction steps generalizing w with
  | nil => simp [runArchivalSteps]
  | cons st rest ih =>
    rw [runArchivalSteps_cons] at h ⊢
    cases hst : (st.run L r w).1 with
    | false => simp [hst] at h
    | true =>
      simp only [hst, Bool.true_eq_false, ↓reduceIte] at h ⊢
      rw [ih _ h, ArchivalStep.run_trace_of_success L r st w hst,
        (ArchivalStep.run_preserves L r st w).1]
      simp

/-- Running a list of steps that is cut at some step. -/
theorem runArchivalSteps_split (L : Lib) (r : ArchivalRecord)
    (before : List ArchivalStep) (st : ArchivalStep) (after : List ArchivalStep) (w : World)
    (hbefore : (runArchivalSteps L r before w).1 = true) :
    runArchivalSteps L r (before ++ st :: after) w =
      if (st.run L r (runArchivalSteps L r before w).2).1 = false then
        (false, (st.run L r (runArchivalSteps L r before w).2).2)
      else runArchivalSteps L r after (st.run L r (runArchivalSteps L r before w).2).2 := by
  induction before generalizing w with
  | nil => rfl
  | cons b before ih =>
    rw [runArchivalSteps_cons] at hbefore
    rw [List.cons_append, runArchivalSteps_cons, runArchivalSteps_cons]
    cases hb : (b.run L r w).1 with
    | false => simp [hb] at hbefore
    | true =>
      simp only [hb, Bool.true_eq_false, ↓reduceIte] at hbefore ⊢
      exact ih _ hbefore

/-- The whole list succeeds exactly when every step succeeds in the world that the
steps before it leave (and then those steps have succeeded too). -/
theorem runArchivalSteps_success_iff (L : Lib) (r : ArchivalRecord)
    (steps : List ArchivalStep) (w : World) :
    (runArchivalSteps L r steps w).1 = true ↔
      ∀ before st after, steps = before ++ st :: after →
        (runArchivalSteps L r before w).1 = true ∧
        (st.run L r (runArchivalSteps L r before w).2).1 = true := by
  induction steps generalizing w with
  | nil =>
    constructor
    · intro _ before st after h
      simp at h
    · intro _
      rfl
  | cons s0 rest ih =>
    rw [runArchivalSteps_cons]
    cases h0 : (s0.run L r w).1 with
    | false =>
      simp only [↓reduceIte, Bool.false_eq_true, false_iff]
      intro h
      have := (h [] s0 rest rfl).2
      simp only [runArchivalSteps] at this
      rw [h0] at this
      cases this
    | true =>
      simp only [Bool.true_eq_false, ↓reduceIte]
      rw [ih]
      constructor
      · intro h before st after hsplit
        cases before with
        | nil =>
          simp only [List.nil_append, List.cons.injEq] at hsplit
          obtain ⟨rfl, _⟩ := hsplit
          exact ⟨rfl, h0⟩
        | cons b before =>
          simp only [List.cons_append, List.cons.injEq] at hsplit
          obtain ⟨rfl, hrest⟩ := hsplit
          rw [runArchivalSteps_cons]
          simp only [h0, Bool.true_eq_false, ↓reduceIte]
          exact h before st after hrest
      · intro h before st after hsplit
        have := h (s0 :: before) st after (by rw [hsplit]; rfl)
        rw [runArchivalSteps_cons] at this
        simpa only [h0, Bool.true_eq_false, ↓reduceIte] using this

theorem commitAndMoveFiles_eq_steps_obj (L : Lib) (w : World) (info : CompletionCheck)
    (i s : String) (fields : List (String × JSValue))
    (hi : info.intentPath = some i) (hs : info.statePath = some s)
    (hd : info.stateData = JSValue.obj fields) :
    commitAndMoveFiles L w info =
      if (runArchivalSteps L (recordOf i s (JSValue.obj fields)) archivalSteps w).1 = false then
        rollbackCompletion
          (runArchivalSteps L (recordOf i s (JSValue.obj fields)) archivalSteps w).2
      else (true, (runArchivalSteps L (recordOf i s (JSValue.obj fields)) archivalSteps w).2) :=
  commitAndMoveFiles_eq_steps L w info (recordOf i s (JSValue.obj fields)) hi hs
    (by rw [hd]; rfl) (by rw [hd]; rfl)

/-- When every command and the directory creation succeed, every step succeeds. -/
theorem runArchivalSteps_of_all_succeed (L : Lib) (r : ArchivalRecord)
    (steps : List ArchivalStep) (w : World)
    (hgit : ∀ t c f, (w.git t c f).isSome = true)
    (hdir : w.ensureDirFails (completedDirectoryAt L w.carlRoot r.intentPath) = false) :
    (runArchivalSteps L r steps w).1 = true := by
  induction steps generalizing w with
  | nil => rfl
  | cons st rest ih =>
    have hst : (st.run L r w).1 = true := by
      unfold ArchivalStep.run
      cases hc : st.command L w.carlRoot r with
      | some command => exact (World.execSync_success_iff _ _).mpr (hgit _ _ _)
      | none => simp [World.ensureDir, hdir]
    obtain ⟨hroot, hg, hf⟩ := ArchivalStep.run_preserves L r st w
    rw [runArchivalSteps_cons]
    simp only [hst, Bool.true_eq_false, ↓reduceIte]
    apply ih
    · rw [hg]; exact hgit
    · rw [hf, hroot]; exact hdir

/-- In the file-store model every step succeeds and the files evolve by the effects
of the steps. -/
theorem runArchivalSteps_files (L : Lib) (r : ArchivalRecord) (root : String)
    (steps : List ArchivalStep) (w : World) (hroot : w.carlRoot = root)
    (hmodel : ∀ st c, ArchivalStep.command L root r st = some c →
      ∀ t f, w.git t c f = some (st.fileEffect L root r f))
    (hdir : w.ensureDirFails (completedDirectoryAt L root r.intentPath) = false) :
    (runArchivalSteps L r steps w).1 = true ∧
    (runArchivalSteps L r steps w).2.files
      = steps.foldl (fun f st => st.storeEffect L root r f) w.files := by
  induction steps generalizing w with
  | nil => exact ⟨rfl, rfl⟩
  | cons st rest ih =>
    obtain ⟨hr, hg, hf⟩ := ArchivalStep.run_preserves L r st w
    have hst : (st.run L r w).1 = true ∧
        (st.run L r w).2.files = st.storeEffect L root r w.files := by
      unfold ArchivalStep.run ArchivalStep.storeEffect
      rw [hroot]
      cases hc : st.command L root r with
      | some command =>
        have hgit := hmodel st command hc w.trace w.files
        simp only [World.execSync, hgit]
        exact ⟨trivial, trivial⟩
      | none =>
        simp only [World.ensureDir, hdir, Bool.false_eq_true, ↓reduceIte]
        exact ⟨trivial, rfl⟩
    rw [runArchivalSteps_cons]
    simp only [hst.1, Bool.true_eq_false, ↓reduceIte, List.foldl_cons]
    rw [← hst.2]
    apply ih
    · rw [hr]; exact hroot
    · rw [hg]; exact hmodel
    · rw [hf]; exact hdir

/-! ### C12 - C15: commitAndMoveFiles -/

/-- C12 (counterexample): every version-control command succeeds in this world, but the
`completed` directory cannot be created; `commitAndMoveFiles` returns `false`, and of
the three commands it issues the last one is the reset (after the staging command and
the first commit). -/
theorem commitAndMoveFiles_fails_when_directory_fails :
    (∀ t c f, (blockedDirectoryWorld.git t c f).isSome = true) ∧
    (commitAndMoveFiles treeLib blockedDirectoryWorld parentCompletion).1 = false ∧
    ((commitAndMoveFiles treeLib blockedDirectoryWorld parentCompletion).2.trace).length = 3 ∧
    ((commitAndMoveFiles treeLib blockedDirectoryWorld parentCompletion).2.trace).getLast?
      = some (Event.execSync "git reset --hard HEAD~1" "/repo") := by
  refine ⟨fun _ _ _ => rfl, by decide!, by decide!, by decide!⟩

/-- C12 (amended): for a completion object that carries both paths and an object as
`stateData`, when every version-control command and the creation of the completed
directory succeed, `commitAndMoveFiles` returns `true` after issuing exactly: the
staging of both paths, the first commit, the move of the intent file and the move of
the state file into `getCompletedDirectory(intentPath)` under their base names, and the
second commit, with no reset.  In the file-store model of the move command, when the
two original paths and the two destinations are pairwise distinct, both files are then
at their destinations, with their contents, and no longer at their original paths. -/
theorem commitAndMoveFiles_success (L : Lib) (w : World) (info : CompletionCheck)
    (i s : String) (fields : List (String × JSValue))
    (hi : info.intentPath = some i) (hs : info.statePath = some s)
    (hd : info.stateData = JSValue.obj fields)
    (hgit : ∀ t c f, (w.git t c f).isSome = true)
    (hdir : w.ensureDirFails (getCompletedDirectory L w i) = false) :
    (commitAndMoveFiles L w info).1 = true ∧
    (commitAndMoveFiles L w info).2.trace = w.trace ++
      [Event.execSync ("git add \"" ++ i ++ "\" \"" ++ s ++ "\"") w.carlRoot,
       Event.execSync
         ("git commit -m \""
           ++ completionCommitMessage L (getScopeTypeFromPath i) (L.basenameExt i ".intent.carl")
               ((JSValue.obj fields).field "completion_percentage")
               ((JSValue.obj fields).field "phase")
           ++ "\"") w.carlRoot,
       Event.ensureDir (getCompletedDirectory L w i),
       Event.execSync
         ("git mv \"" ++ i ++ "\" \""
           ++ L.join [getCompletedDirectory L w i, L.basename i] ++ "\"") w.carlRoot,
       Event.execSync
         ("git mv \"" ++ s ++ "\" \""
           ++ L.join [getCompletedDirectory L w i, L.basename s] ++ "\"") w.carlRoot,
       Event.execSync
         ("git commit -m \""
           ++ moveCommitMessage (getScopeTypeFromPath i) (L.basenameExt i ".intent.carl")
               (L.basename i) (L.basename s)
           ++ "\"") w.carlRoot] ∧
    ((∀ st c, ArchivalStep.command L w.carlRoot (recordOf i s (JSValue.obj fields)) st = some c →
        ∀ t f, w.git t c f
          = some (st.fileEffect L w.carlRoot (recordOf i s (JSValue.obj fields)) f)) →
      i ≠ s →
      i ≠ L.join [getCompletedDirectory L w i, L.basename i] →
      i ≠ L.join [getCompletedDirectory L w i, L.basename s] →
      s ≠ L.join [getCompletedDirectory L w i, L.basename i] →
      s ≠ L.join [getCompletedDirectory L w i, L.basename s] →
      L.join [getCompletedDirectory L w i, L.basename i]
        ≠ L.join [getCompletedDirectory L w i, L.basename s] →
      (commitAndMoveFiles L w info).2.files.pathExists
          (L.join [getCompletedDirectory L w i, L.basename i]) = .ok true ∧
      (commitAndMoveFiles L w info).2.files.safeReadFile
          (L.join [getCompletedDirectory L w i, L.basename i]) = w.files.safeReadFile i ∧
      (commitAndMoveFiles L w info).2.files.pathExists
          (L.join [getCompletedDirectory L w i, L.basename s]) = .ok true ∧
      (commitAndMoveFiles L w info).2.files.safeReadFile
          (L.join [getCompletedDirectory L w i, L.basename s]) = w.files.safeReadFile s ∧
      (commitAndMoveFiles L w info).2.files.pathExists i = .ok false ∧
      (commitAndMoveFiles L w info).2.files.pathExists s = .ok false) := by
  have hall := runArchivalSteps_of_all_succeed L (recordOf i s (JSValue.obj fields))
    archivalSteps w hgit hdir
  have heq := commitAndMoveFiles_eq_steps_obj L w info i s fields hi hs hd
  simp only [hall, Bool.true_eq_false, ↓reduceIte] at heq
  rw [heq]
  refine ⟨rfl, ?_, ?_⟩
  · rw [runArchivalSteps_trace_of_success L _ archivalSteps w hall]
    rfl
  · intro hmodel h1 h2 h3 h4 h5 h6
    have hfiles := (runArchivalSteps_files L (recordOf i s (JSValue.obj fields)) w.carlRoot
      archivalSteps w rfl hmodel hdir).2
    simp only [hfiles]
    simp only [archivalSteps, List.foldl, ArchivalStep.storeEffect, ArchivalStep.command,
      ArchivalStep.fileEffect, Files.move, Files.withDirectory, recordOf, intentTarget,
      stateTarget, ← getCompletedDirectory_eq_at]
    refine ⟨?_, ?_, ?_, ?_, ?_, ?_⟩
    · simp [h6, Ne.symm h4]
    · simp [h6, Ne.symm h4, Ne.symm h2]
    · simp
    · simp [h4, h1, Ne.symm h1]
    · simp [h3, h1, h2]
    · simp [h5]

/-- Witness for C12 (amended): the archival of the feature "parent" in a repository
whose version-control tool performs the two moves. -/
theorem commitAndMoveFiles_success_witness :
    (commitAndMoveFiles treeLib moveWorld parentCompletion).1 = true ∧
    (commitAndMoveFiles treeLib moveWorld parentCompletion).2.files.pathExists
        "/repo/.carl/project/features/completed/parent.intent.carl" = .ok true ∧
    (commitAndMoveFiles treeLib moveWorld parentCompletion).2.files.safeReadFile
        "/repo/.carl/project/features/completed/parent.state.carl" = some freshTextAt100 ∧
    (commitAndMoveFiles treeLib moveWorld parentCompletion).2.files.pathExists
        "/repo/.carl/project/features/parent.intent.carl" = .ok false ∧
    (commitAndMoveFiles treeLib moveWorld parentCompletion).2.files.pathExists
        "/repo/.carl/project/features/parent.state.carl" = .ok false := by
  have h := commitAndMoveFiles_success treeLib moveWorld parentCompletion
    "/repo/.carl/project/features/parent.intent.carl"
    "/repo/.carl/project/features/parent.state.carl"
    [("completion_percentage", JSValue.num (JSNum.fin 100)),
     ("phase", JSValue.str "development"),
     ("last_updated", JSValue.str "T1700000000000"),
     ("status", JSValue.str "completed"),
     ("completion_date", JSValue.str "T1700000000001")]
    rfl rfl rfl
    (by
      intro t c f
      show (moveGit _ t c f).isSome = true
      unfold moveGit
      split <;> rfl)
    rfl
  have hfiles := h.2.2
    (by
      intro st c hc t f
      cases st
      case createDirectory => cases hc
      all_goals (injection hc with hc; subst hc; rfl))
    (by decide) (by decide) (by decide) (by decide) (by decide) (by decide)
  exact ⟨h.1, hfiles.1, hfiles.2.2.2.1, hfiles.2.2.2.2.1, hfiles.2.2.2.2.2⟩

/-- C13: for every step of `commitAndMoveFiles` (staging, first commit, directory
creation, either move, second commit): when the steps before it succeed and it fails,
the function returns `false` and the mutations it has made are exactly the events of
the earlier steps, the failed command itself (nothing for a failed directory
creation), and then one `git reset --hard HEAD~1`; no command of a later step is
issued. -/
theorem commitAndMoveFiles_failure_rolls_back (L : Lib) (w : World) (info : CompletionCheck)
    (i s : String) (fields : List (String × JSValue))
    (hi : info.intentPath = some i) (hs : info.statePath = some s)
    (hd : info.stateData = JSValue.obj fields)
    (before : List ArchivalStep) (st : ArchivalStep) (after : List ArchivalStep)
    (hsplit : archivalSteps = before ++ st :: after)
    (hbefore : (runArchivalSteps L (recordOf i s (JSValue.obj fields)) before w).1 = true)
    (hfail : (st.run L (recordOf i s (JSValue.obj fields))
      (runArchivalSteps L (recordOf i s (JSValue.obj fields)) before w).2).1 = false) :
    (commitAndMoveFiles L w info).1 = false ∧
    (commitAndMoveFiles L w info).2.trace
      = w.trace
        ++ before.map (ArchivalStep.event L w.carlRoot (recordOf i s (JSValue.obj fields)))
        ++ st.attempt L w.carlRoot (recordOf i s (JSValue.obj fields))
        ++ [Event.execSync "git reset --hard HEAD~1" w.carlRoot] := by
  have hrun := runArchivalSteps_split L (recordOf i s (JSValue.obj fields)) before st after w
    hbefore
  rw [← hsplit] at hrun
  simp only [hfail, ↓reduceIte] at hrun
  have heq := commitAndMoveFiles_eq_steps_obj L w info i s fields hi hs hd
  rw [hrun] at heq
  simp only [↓reduceIte] at heq
  rw [heq]
  refine ⟨rfl, ?_⟩
  rw [rollbackCompletion_trace, ArchivalStep.run_trace_of_failure L _ st _ hfail,
    runArchivalSteps_trace_of_success L _ before w hbefore,
    (ArchivalStep.run_preserves L _ st _).1, (runArchivalSteps_preserves L _ before w).1]

/-- Witness for C13: the first move is rejected; the trace is the staging command, the
first commit, the created directory, the rejected move and the reset. -/
theorem commitAndMoveFiles_failure_rolls_back_witness :
    (commitAndMoveFiles treeLib
        (failingGitWorld (fun c => c.take 6 == "git mv")) parentCompletion).1 = false ∧
    ((commitAndMoveFiles treeLib
        (failingGitWorld (fun c => c.take 6 == "git mv")) parentCompletion).2.trace).length
      = 5 ∧
    ((commitAndMoveFiles treeLib
        (failingGitWorld (fun c => c.take 6 == "git mv")) parentCompletion).2.trace).getLast?
      = some (Event.execSync "git reset --hard HEAD~1" "/repo") := by
  have h := commitAndMoveFiles_failure_rolls_back treeLib
    (failingGitWorld (fun c => c.take 6 == "git mv")) parentCompletion
    "/repo/.carl/project/features/parent.intent.carl"
    "/repo/.carl/project/features/parent.state.carl"
    [("completion_percentage", JSValue.num (JSNum.fin 100)),
     ("phase", JSValue.str "development"),
     ("last_updated", JSValue.str "T1700000000000"),
     ("status", JSValue.str "completed"),
     ("completion_date", JSValue.str "T1700000000001")]
    rfl rfl rfl
    [ArchivalStep.stage, ArchivalStep.firstCommit, ArchivalStep.createDirectory]
    ArchivalStep.moveIntent [ArchivalStep.moveState, ArchivalStep.secondCommit]
    rfl (by decide!) (by decide!)
  refine ⟨h.1, ?_, ?_⟩
  · rw [h.2]; rfl
  · rw [h.2]; rfl

/-- C14: for a completion object with both paths and an object as `stateData`,
`commitAndMoveFiles` (a total function: nothing is thrown) returns `true` exactly
when every step succeeds in the world left by the steps before it; as soon as a step
fails it returns `false`, whatever the rollback command then does, and in particular
when every version-control command fails. -/
theorem commitAndMoveFiles_true_iff_all_steps (L : Lib) (w : World) (info : CompletionCheck)
    (i s : String) (fields : List (String × JSValue))
    (hi : info.intentPath = some i) (hs : info.statePath = some s)
    (hd : info.stateData = JSValue.obj fields) :
    ((commitAndMoveFiles L w info).1 = true ↔
      ∀ before st after, archivalSteps = before ++ st :: after →
        (runArchivalSteps L (recordOf i s (JSValue.obj fields)) before w).1 = true ∧
        (st.run L (recordOf i s (JSValue.obj fields))
          (runArchivalSteps L (recordOf i s (JSValue.obj fields)) before w).2).1 = true) ∧
    ((∃ before st after, archivalSteps = before ++ st :: after ∧
        (runArchivalSteps L (recordOf i s (JSValue.obj fields)) before w).1 = true ∧
        (st.run L (recordOf i s (JSValue.obj fields))
          (runArchivalSteps L (recordOf i s (JSValue.obj fields)) before w).2).1 = false) →
      (commitAndMoveFiles L w info).1 = false) ∧
    ((∀ t c f, w.git t c f = none) → (commitAndMoveFiles L w info).1 = false) := by
  have heq := commitAndMoveFiles_eq_steps_obj L w info i s fields hi hs hd
  have hiff : (commitAndMoveFiles L w info).1
      = (runArchivalSteps L (recordOf i s (JSValue.obj fields)) archivalSteps w).1 := by
    rw [heq]
    cases hr : (runArchivalSteps L (recordOf i s (JSValue.obj fields)) archivalSteps w).1 with
    | false => rfl
    | true => rfl
  have hfailure : (∃ before st after, archivalSteps = before ++ st :: after ∧
        (runArchivalSteps L (recordOf i s (JSValue.obj fields)) before w).1 = true ∧
        (st.run L (recordOf i s (JSValue.obj fields))
          (runArchivalSteps L (recordOf i s (JSValue.obj fields)) before w).2).1 = false) →
      (commitAndMoveFiles L w info).1 = false := by
    rintro ⟨before, st, after, hsplit, _, hfail⟩
    rw [hiff, Bool.eq_false_iff]
    intro hall
    have := ((runArchivalSteps_success_iff L _ archivalSteps w).mp hall before st after
      hsplit).2
    rw [hfail] at this
    cases this
  refine ⟨?_, hfailure, ?_⟩
  · rw [hiff]
    exact runArchivalSteps_success_iff L _ archivalSteps w
  · intro hnone
    apply hfailure
    refine ⟨[], ArchivalStep.stage, _, rfl, rfl, ?_⟩
    simp only [runArchivalSteps, ArchivalStep.run, ArchivalStep.command, World.execSync, hnone]

/-- Witness for C14: when every version-control command fails, the rollback included,
the function returns `false`; when none fails it returns `true`. -/
theorem commitAndMoveFiles_true_iff_all_steps_witness :
    (commitAndMoveFiles treeLib (failingGitWorld (fun _ => true)) parentCompletion).1 = false ∧
    (commitAndMoveFiles treeLib (failingGitWorld (fun _ => false)) parentCompletion).1
      = true := by
  have h := commitAndMoveFiles_true_iff_all_steps treeLib (failingGitWorld (fun _ => true))
    parentCompletion
    "/repo/.carl/project/features/parent.intent.carl"
    "/repo/.carl/project/features/parent.state.carl"
    [("completion_percentage", JSValue.num (JSNum.fin 100)),
     ("phase", JSValue.str "development"),
     ("last_updated", JSValue.str "T1700000000000"),
     ("status", JSValue.str "completed"),
     ("completion_date", JSValue.str "T1700000000001")]
    rfl rfl rfl
  exact ⟨h.2.2 (fun _ _ _ => rfl), by decide!⟩

/-- C15 (failing input): the repository has the two commits "newer" and "older", and
the rollback command succeeds.  When the staging command is rejected, or the first
commit is, the function has made no commit, yet its rollback drops a commit: the
history afterwards is "older" alone, not the history from before the call.  When a
move is rejected, after the first commit, the rollback does restore the history. -/
theorem commitAndMoveFiles_rollback_drops_earlier_commit :
    (commitAndMoveFiles treeLib
        (failingGitWorld (fun c => c.take 7 == "git add")) parentCompletion).1 = false ∧
    replayHistory (fun c => c.take 7 == "git add")
        (commitAndMoveFiles treeLib
          (failingGitWorld (fun c => c.take 7 == "git add")) parentCompletion).2.trace
        ["newer", "older"] = ["older"] ∧
    (commitAndMoveFiles treeLib
        (failingGitWorld (fun c => c.take 10 == "git commit")) parentCompletion).1 = false ∧
    replayHistory (fun c => c.take 10 == "git commit")
        (commitAndMoveFiles treeLib
          (failingGitWorld (fun c => c.take 10 == "git commit")) parentCompletion).2.trace
        ["newer", "older"] = ["older"] ∧
    (commitAndMoveFiles treeLib
        (failingGitWorld (fun c => c.take 6 == "git mv")) parentCompletion).1 = false ∧
    replayHistory (fun c => c.take 6 == "git mv")
        (commitAndMoveFiles treeLib
          (failingGitWorld (fun c => c.take 6 == "git mv")) parentCompletion).2.trace
        ["newer", "older"] = ["newer", "older"] := by
  refine ⟨by decide!, by decide!, by decide!, by decide!, by decide!, by decide!⟩

/-! ### C16 - C17: detectAndProcessCompletions -/

theorem completionLoop_cons (L : Lib) (w : World) (p : String) (rest : List String) :
    completionLoop L (p :: rest) w =
      ((processCompletion L w p).1 + (completionLoop L rest (processCompletion L w p).2.2).1,
       (processCompletion L w p).2.1 ++ (completionLoop L rest (processCompletion L w p).2.2).2.1,
       (completionLoop L rest (processCompletion L w p).2.2).2.2) := rfl

/-- One round counts 1 exactly when the check reports completed and the archival then
returns true, and its calls have one of the three allowed shapes. -/
theorem processCompletion_count (L : Lib) (w : World) (p : String) :
    (processCompletion L w p).1 =
      (if (checkIntentCompletion L w p).completed = true ∧
          (commitAndMoveFiles L w (checkIntentCompletion L w p)).1 = true then 1 else 0) ∧
    callsAllowedFor p (processCompletion L w p).2.1 ∧
    checkedPaths (processCompletion L w p).2.1 = [p] ∧
    (processCompletion L w p).1
      = ((processCompletion L w p).2.1.filter OrchestratorCall.isArchived).length ∧
    (processCompletion L w p).1 ≤ 1 := by
  unfold processCompletion callsAllowedFor
  cases hc : (checkIntentCompletion L w p).completed with
  | false => simp [hc, checkedPaths, OrchestratorCall.isArchived]
  | true =>
    cases hm : (commitAndMoveFiles L w (checkIntentCompletion L w p)).1 with
    | false => simp [hc, hm, checkedPaths, OrchestratorCall.isArchived]
    | true => simp [hc, hm, checkedPaths, OrchestratorCall.isArchived]

theorem completionLoop_count_eq_archived (L : Lib) (paths : List String) (w : World) :
    (completionLoop L paths w).1
      = ((completionLoop L paths w).2.1.filter OrchestratorCall.isArchived).length := by
  induction paths generalizing w with
  | nil => rfl
  | cons p rest ih =>
    rw [completionLoop_cons]
    simp only [List.filter_append, List.length_append]
    rw [← ih, ← (processCompletion_count L w p).2.2.2.1]

theorem completionLoop_count_le (L : Lib) (paths : List String) (w : World) :
    (completionLoop L paths w).1 ≤ paths.length := by
  induction paths generalizing w with
  | nil => exact Nat.le_refl _
  | cons p rest ih =>
    rw [completionLoop_cons]
    have h1 := (processCompletion_count L w p).2.2.2.2
    have h2 := ih (processCompletion L w p).2.2
    simp only [List.length_cons]
    omega

/-- The calls of the loop are, path by path and in list order, one of the allowed
groups of calls. -/
theorem completionLoop_calls (L : Lib) (paths : List String) (w : World) :
    ∃ blocks : List (List OrchestratorCall),
      List.Forall₂ callsAllowedFor paths blocks ∧
      (completionLoop L paths w).2.1 = blocks.flatten := by
  induction paths generalizing w with
  | nil => exact ⟨[], List.Forall₂.nil, rfl⟩
  | cons p rest ih =>
    obtain ⟨blocks, hall, hjoin⟩ := ih (processCompletion L w p).2.2
    refine ⟨(processCompletion L w p).2.1 :: blocks,
      List.Forall₂.cons (processCompletion_count L w p).2.1 hall, ?_⟩
    rw [completionLoop_cons, List.flatten_cons, ← hjoin]

theorem completionLoop_checked (L : Lib) (paths : List String) (w : World) :
    checkedPaths (completionLoop L paths w).2.1 = paths := by
  induction paths generalizing w with
  | nil => rfl
  | cons p rest ih =>
    rw [completionLoop_cons]
    have h1 := (processCompletion_count L w p).2.2.1
    have h2 := ih (processCompletion L w p).2.2
    unfold checkedPaths at h1 h2 ⊢
    rw [List.filterMap_append, h1, h2]
    rfl

/-- C16: `detectAndProcessCompletions` returns the number of paths of the list for
which, at their turn, `checkIntentCompletion` reports completed and
`commitAndMoveFiles` then returns true: 0 for the empty list, and for a list `p ::
rest` one (or zero) for `p` plus the number for `rest` in the world left by `p`; this
is the number of archivals that returned true.  Hence the result never exceeds the
length of the list, and it is 1 for a two-item list whose first item is completed and
archived and whose second item is then found incomplete. -/
theorem detectAndProcessCompletions_counts (L : Lib) (w : World) :
    (detectAndProcessCompletions L w []).1 = 0 ∧
    (∀ p rest, (detectAndProcessCompletions L w (p :: rest)).1 =
      (if (checkIntentCompletion L w p).completed = true ∧
          (commitAndMoveFiles L w (checkIntentCompletion L w p)).1 = true then 1 else 0)
      + (detectAndProcessCompletions L (processCompletion L w p).2.2 rest).1) ∧
    (∀ paths, (detectAndProcessCompletions L w paths).1
      = ((orchestratorCalls L w paths).filter OrchestratorCall.isArchived).length) ∧
    (∀ paths, (detectAndProcessCompletions L w paths).1 ≤ paths.length) ∧
    (∀ p q, (checkIntentCompletion L w p).completed = true →
      (commitAndMoveFiles L w (checkIntentCompletion L w p)).1 = true →
      (checkIntentCompletion L (processCompletion L w p).2.2 q).completed = false →
      (detectAndProcessCompletions L w [p, q]).1 = 1) := by
  have hcons : ∀ (w : World) p rest, (detectAndProcessCompletions L w (p :: rest)).1 =
      (if (checkIntentCompletion L w p).completed = true ∧
          (commitAndMoveFiles L w (checkIntentCompletion L w p)).1 = true then 1 else 0)
      + (detectAndProcessCompletions L (processCompletion L w p).2.2 rest).1 := by
    intro w p rest
    simp only [detectAndProcessCompletions, completionLoop_cons]
    rw [(processCompletion_count L w p).1]
  refine ⟨rfl, hcons w, ?_, ?_, ?_⟩
  · intro paths
    exact completionLoop_count_eq_archived L paths w
  · intro paths
    exact completionLoop_count_le L paths w
  · intro p q hp hmove hq
    rw [hcons, hcons]
    simp [hp, hmove, hq, detectAndProcessCompletions, completionLoop]

/-- Witness for C16: of the stories "done" (at 100) and "half" (at 50), one is
archived and the count is 1. -/
theorem detectAndProcessCompletions_counts_witness :
    (detectAndProcessCompletions treeLib treeWorld
      ["/repo/.carl/project/stories/done.intent.carl",
       "/repo/.carl/project/stories/half.intent.carl"]).1 = 1 :=
  (detectAndProcessCompletions_counts treeLib treeWorld).2.2.2.2
    "/repo/.carl/project/stories/done.intent.carl"
    "/repo/.carl/project/stories/half.intent.carl"
    (by decide!) (by decide!) (by decide!)

theorem completionLoop_append (L : Lib) (pre post : List String) (w : World) :
    completionLoop L (pre ++ post) w =
      ((completionLoop L pre w).1 + (completionLoop L post (completionLoop L pre w).2.2).1,
       (completionLoop L pre w).2.1 ++ (completionLoop L post (completionLoop L pre w).2.2).2.1,
       (completionLoop L post (completionLoop L pre w).2.2).2.2) := by
  induction pre generalizing w with
  | nil => simp [completionLoop]
  | cons q pre ih =>
    rw [List.cons_append, completionLoop_cons, completionLoop_cons, ih]
    simp only [Nat.add_assoc, List.append_assoc]

/-- The run over `pre ++ p :: post` is the run over `pre`, the round of `p` in the
world left by `pre`, and the run over `post` in the world left by that round. -/
theorem detectAndProcessCompletions_split (L : Lib) (w : World) (pre : List String)
    (p : String) (post : List String) :
    detectAndProcessCompletions L w (pre ++ p :: post)
      = ((detectAndProcessCompletions L w pre).1
          + (processCompletion L (detectAndProcessCompletions L w pre).2 p).1
          + (detectAndProcessCompletions L
              (processCompletion L (detectAndProcessCompletions L w pre).2 p).2.2 post).1,
         (detectAndProcessCompletions L
            (processCompletion L (detectAndProcessCompletions L w pre).2 p).2.2 post).2) ∧
    orchestratorCalls L w (pre ++ p :: post)
      = orchestratorCalls L w pre
          ++ (processCompletion L (detectAndProcessCompletions L w pre).2 p).2.1
          ++ orchestratorCalls L
              (processCompletion L (detectAndProcessCompletions L w pre).2 p).2.2 post := by
  simp only [detectAndProcessCompletions, orchestratorCalls, completionLoop_append,
    completionLoop_cons, Nat.add_assoc, List.append_assoc]
  exact ⟨trivial, trivial⟩

/-- C17: `detectAndProcessCompletions` goes through the whole list whatever the checks
and archivals return.  For a list `pre ++ p :: post`, let `W` be the world left by the
run over `pre` (whatever happened there).  The run checks `p` in `W`, and:
when the check does not report completed, nothing else is called for `p` and the run
goes on with `post` in `W`; when it reports completed, `commitAndMoveFiles` is called
once in `W`, and if it returns false the tracking update is not called, `p` is not
counted, and the run goes on with `post` in the world left by the archival; if it
returns true, `updateActiveWorkTracking` is called in that world, `p` is counted once,
and the run goes on with `post` in the world left by the tracking update.  In each
case the result is the count of `pre`, plus that of `p`, plus that of `post`, and the
final world is the one left by the run over `post`.  So every path of the list is
checked exactly once and in list order. -/
theorem detectAndProcessCompletions_never_aborts (L : Lib) (w : World)
    (pre : List String) (p : String) (post : List String) :
    checkedPaths (orchestratorCalls L w (pre ++ p :: post)) = pre ++ p :: post ∧
    ((checkIntentCompletion L (detectAndProcessCompletions L w pre).2 p).completed = false →
      detectAndProcessCompletions L w (pre ++ p :: post)
        = ((detectAndProcessCompletions L w pre).1
            + (detectAndProcessCompletions L (detectAndProcessCompletions L w pre).2 post).1,
           (detectAndProcessCompletions L (detectAndProcessCompletions L w pre).2 post).2) ∧
      orchestratorCalls L w (pre ++ p :: post)
        = orchestratorCalls L w pre
            ++ OrchestratorCall.check p false
            :: orchestratorCalls L (detectAndProcessCompletions L w pre).2 post) ∧
    ((checkIntentCompletion L (detectAndProcessCompletions L w pre).2 p).completed = true →
      (commitAndMoveFiles L (detectAndProcessCompletions L w pre).2
        (checkIntentCompletion L (detectAndProcessCompletions L w pre).2 p)).1 = false →
      detectAndProcessCompletions L w (pre ++ p :: post)
        = ((detectAndProcessCompletions L w pre).1
            + (detectAndProcessCompletions L
                (commitAndMoveFiles L (detectAndProcessCompletions L w pre).2
                  (checkIntentCompletion L (detectAndProcessCompletions L w pre).2 p)).2
                post).1,
           (detectAndProcessCompletions L
              (commitAndMoveFiles L (detectAndProcessCompletions L w pre).2
                (checkIntentCompletion L (detectAndProcessCompletions L w pre).2 p)).2
              post).2) ∧
      orchestratorCalls L w (pre ++ p :: post)
        = orchestratorCalls L w pre
            ++ OrchestratorCall.check p true :: OrchestratorCall.archive p false
            :: orchestratorCalls L
                (commitAndMoveFiles L (detectAndProcessCompletions L w pre).2
                  (checkIntentCompletion L (detectAndProcessCompletions L w pre).2 p)).2
                post) ∧
    ((checkIntentCompletion L (detectAndProcessCompletions L w pre).2 p).completed = true →
      (commitAndMoveFiles L (detectAndProcessCompletions L w pre).2
        (checkIntentCompletion L (detectAndProcessCompletions L w pre).2 p)).1 = true →
      detectAndProcessCompletions L w (pre ++ p :: post)
        = ((detectAndProcessCompletions L w pre).1 + 1
            + (detectAndProcessCompletions L
                (updateActiveWorkTracking L
                  (commitAndMoveFiles L (detectAndProcessCompletions L w pre).2
                    (checkIntentCompletion L (detectAndProcessCompletions L w pre).2 p)).2
                  p).2
                post).1,
           (detectAndProcessCompletions L
              (updateActiveWorkTracking L
                (commitAndMoveFiles L (detectAndProcessCompletions L w pre).2
                  (checkIntentCompletion L (detectAndProcessCompletions L w pre).2 p)).2
                p).2
              post).2) ∧
      orchestratorCalls L w (pre ++ p :: post)
        = orchestratorCalls L w pre
            ++ OrchestratorCall.check p true :: OrchestratorCall.archive p true
            :: OrchestratorCall.track p
            :: orchestratorCalls L
                (updateActiveWorkTracking L
                  (commitAndMoveFiles L (detectAndProcessCompletions L w pre).2
                    (checkIntentCompletion L (detectAndProcessCompletions L w pre).2 p)).2
                  p).2
                post) := by
  obtain ⟨hrun, hcalls⟩ := detectAndProcessCompletions_split L w pre p post
  refine ⟨completionLoop_checked L (pre ++ p :: post) w, ?_, ?_, ?_⟩
  · intro hc
    have hp : processCompletion L (detectAndProcessCompletions L w pre).2 p
        = (0, [OrchestratorCall.check p false], (detectAndProcessCompletions L w pre).2) := by
      simp [processCompletion, hc]
    rw [hrun, hcalls, hp]
    simp
  · intro hc hm
    have hp : processCompletion L (detectAndProcessCompletions L w pre).2 p
        = (0, [OrchestratorCall.check p true, OrchestratorCall.archive p false],
           (commitAndMoveFiles L (detectAndProcessCompletions L w pre).2
              (checkIntentCompletion L (detectAndProcessCompletions L w pre).2 p)).2) := by
      simp [processCompletion, hc, hm]
    rw [hrun, hcalls, hp]
    simp
  · intro hc hm
    have hp : processCompletion L (detectAndProcessCompletions L w pre).2 p
        = (1, [OrchestratorCall.check p true, OrchestratorCall.archive p true,
               OrchestratorCall.track p],
           (updateActiveWorkTracking L
              (commitAndMoveFiles L (detectAndProcessCompletions L w pre).2
                (checkIntentCompletion L (detectAndProcessCompletions L w pre).2 p)).2
              p).2) := by
      simp [processCompletion, hc, hm]
    rw [hrun, hcalls, hp]
    simp

/-- Witness for C17: in the batch `missing, parent, half, done` the check of "missing"
fails (no state file), the archival of "parent" fails and is rolled back, "half" is
incomplete; "done" is still checked, archived and counted, so the batch returns 1, and
the staging command of "done" is among the mutations of the final world. -/
theorem detectAndProcessCompletions_never_aborts_witness :
    ((checkIntentCompletion treeLib batchWorld
        "/repo/.carl/project/features/missing.intent.carl").completed = false ∧
     (checkIntentCompletion treeLib batchWorld
        "/repo/.carl/project/features/parent.intent.carl").completed = true ∧
     (commitAndMoveFiles treeLib batchWorld
        (checkIntentCompletion treeLib batchWorld
          "/repo/.carl/project/features/parent.intent.carl")).1 = false ∧
     (detectAndProcessCompletions treeLib batchWorld
        ["/repo/.carl/project/features/missing.intent.carl",
         "/repo/.carl/project/features/parent.intent.carl",
         "/repo/.carl/project/stories/half.intent.carl"]).1 = 0) ∧
    (detectAndProcessCompletions treeLib batchWorld
        (["/repo/.carl/project/features/missing.intent.carl",
          "/repo/.carl/project/features/parent.intent.carl",
          "/repo/.carl/project/stories/half.intent.carl"]
          ++ "/repo/.carl/project/stories/done.intent.carl" :: [])).1 = 1 ∧
    Event.execSync "git add \"/repo/.carl/project/stories/done.intent.carl\" \"/repo/.carl/project/stories/done.state.carl\""
        "/repo"
      ∈ (detectAndProcessCompletions treeLib batchWorld
          (["/repo/.carl/project/features/missing.intent.carl",
            "/repo/.carl/project/features/parent.intent.carl",
            "/repo/.carl/project/stories/half.intent.carl"]
            ++ "/repo/.carl/project/stories/done.intent.carl" :: [])).2.trace := by
  have h := ((detectAndProcessCompletions_never_aborts treeLib batchWorld
    ["/repo/.carl/project/features/missing.intent.carl",
     "/repo/.carl/project/features/parent.intent.carl",
     "/repo/.carl/project/stories/half.intent.carl"]
    "/repo/.carl/project/stories/done.intent.carl" []).2.2.2 (by decide!) (by decide!)).1
  refine ⟨⟨by decide!, by decide!, by decide!, by decide!⟩, ?_, ?_⟩
  · rw [h]
    decide!
  · decide!

/-! ### C11: the percentage written and the percentage read -/

theorem applyPercentage_obj_truthy (L : Lib) (w w1 : World) (fields : List (String × JSValue))
    (r : JSNum) (updated : JSValue)
    (h : applyPercentage L w (JSValue.obj fields) r = .ok (updated, w1)) :
    updated.truthy = true := by
  simp only [applyPercentage, JSValue.getProp_obj, JSValue.setProp_obj] at h
  split at h <;> split at h <;>
    (injection h with h1; injection h1 with h2 _; rw [← h2]; rfl)

/-- Below 100 the update of a mapping is the write alone: it returns `true` and leaves
the world in which the parent's state file holds the printed updated document. -/
theorem updateParentCompletionPercentage_below_100 (L : Lib) (w : World)
    (parentIntentPath content : String) (fields : List (String × JSValue)) (x : JSNum)
    (hexists : w.files.pathExists (statePathOf parentIntentPath) = .ok true)
    (hread : w.files.safeReadFile (statePathOf parentIntentPath) = some content)
    (hnonempty : content ≠ "")
    (hparse : L.yamlParse content = .ok (JSValue.obj fields))
    (hwrite : w.writeFileFails (statePathOf parentIntentPath) = false)
    (hbelow : (JSNum.round2 x).ge (JSNum.fin 100) = false) :
    ∃ updated w1,
      applyPercentage L w (JSValue.obj fields) (JSNum.round2 x) = .ok (updated, w1) ∧
      (updateParentCompletionPercentage L w parentIntentPath x).1 = true ∧
      (updateParentCompletionPercentage L w parentIntentPath x).2.files.pathExists
        (statePathOf parentIntentPath) = .ok true ∧
      (updateParentCompletionPercentage L w parentIntentPath x).2.files.safeReadFile
        (statePathOf parentIntentPath) = some (L.yamlStringify updated) := by
  obtain ⟨updated, w1, happly, _, _, hwf, _, _⟩ :=
    applyPercentage_obj L w fields (JSNum.round2 x)
  have hw1 : w1.writeFileFails (statePathOf parentIntentPath) = false := by rw [hwf]; exact hwrite
  obtain ⟨w2, hw2, hread2, hexists2⟩ :=
    World.writeFile_of_allowed w1 (statePathOf parentIntentPath) (L.yamlStringify updated) hw1
  refine ⟨updated, w1, happly, ?_⟩
  simp only [updateParentCompletionPercentage, hexists, hread, hnonempty, hparse, if_false,
    JSValue.truthy, Bool.not_true, Bool.false_eq_true, happly, hw2, hbelow]
  exact ⟨trivial, hexists2, hread2⟩

/-- What `getCompletionPercentage` returns after an update below 100 of a mapping, when
the parser reads back the document that the printer wrote: the resolution order
applied to the updated document. -/
theorem getCompletionPercentage_after_update (L : Lib) (w : World)
    (parentIntentPath content : String) (fields : List (String × JSValue)) (x : JSNum)
    (hexists : w.files.pathExists (statePathOf parentIntentPath) = .ok true)
    (hread : w.files.safeReadFile (statePathOf parentIntentPath) = some content)
    (hnonempty : content ≠ "")
    (hparse : L.yamlParse content = .ok (JSValue.obj fields))
    (hwrite : w.writeFileFails (statePathOf parentIntentPath) = false)
    (hbelow : (JSNum.round2 x).ge (JSNum.fin 100) = false)
    (hround : ∀ updated w1,
      applyPercentage L w (JSValue.obj fields) (JSNum.round2 x) = .ok (updated, w1) →
      L.yamlStringify updated ≠ "" ∧ L.yamlParse (L.yamlStringify updated) = .ok updated) :
    (updateParentCompletionPercentage L w parentIntentPath x).1 = true ∧
    (∀ n mf, (JSValue.obj fields).field "completion_percentage" = JSValue.num n →
      (JSValue.obj fields).field "metadata" = JSValue.obj mf →
      getCompletionPercentage L (updateParentCompletionPercentage L w parentIntentPath x).2
        (statePathOf parentIntentPath) = some (clampPercentage n)) ∧
    (((JSValue.obj fields).field "metadata").truthy = false →
      getCompletionPercentage L (updateParentCompletionPercentage L w parentIntentPath x).2
        (statePathOf parentIntentPath) = some (clampPercentage (JSNum.round2 x))) ∧
    (∀ mf, ((JSValue.obj fields).field "completion_percentage").isNumber = false →
      (JSValue.obj fields).field "metadata" = JSValue.obj mf →
      getCompletionPercentage L (updateParentCompletionPercentage L w parentIntentPath x).2
        (statePathOf parentIntentPath) = some (clampPercentage (JSNum.round2 x))) := by
  obtain ⟨updated, w1, happly, hsucc, hexists2, hread2⟩ :=
    updateParentCompletionPercentage_below_100 L w parentIntentPath content fields x
      hexists hread hnonempty hparse hwrite hbelow
  obtain ⟨updated', w1', happly', _, _, _, htop, hnested⟩ :=
    applyPercentage_obj L w fields (JSNum.round2 x)
  have hsame : updated' = updated := by
    rw [happly] at happly'
    injection happly' with h1
    injection h1 with h2 _
    exact h2.symm
  subst hsame
  have htruthy := applyPercentage_obj_truthy L w w1 fields _ updated' happly
  obtain ⟨hne, hback⟩ := hround updated' w1 happly
  have hget : getCompletionPercentage L
      (updateParentCompletionPercentage L w parentIntentPath x).2 (statePathOf parentIntentPath)
      = (match resolvePercentage updated' with
         | .ok n => some n
         | .error _ => none) := by
    simp [getCompletionPercentage, hexists2, hread2, hne, hback, htruthy]
  rw [hget, resolvePercentage_of_truthy updated' htruthy]
  refine ⟨hsucc, ?_, ?_, ?_⟩
  · intro n mf hcp hmeta
    obtain ⟨_, hkeep, _, _⟩ := hnested mf hmeta
    rw [hkeep, hcp]
    rfl
  · intro hfalsy
    rw [(htop hfalsy).1]
    rfl
  · intro mf hnot hmeta
    obtain ⟨hstored, hkeep, _, _⟩ := hnested mf hmeta
    have hnone : ((JSValue.obj fields).field "completion_percentage").asNum = none := by
      cases h : (JSValue.obj fields).field "completion_percentage" <;>
        simp_all [JSValue.isNumber, JSValue.asNum]
    rw [hkeep, hnone, hstored]
    rfl

/-- C11 (failing input): the state document of "both" has the top-level percentage 20
and a `metadata` section.  `updateParentCompletionPercentage(both, 75)` returns true
and writes 75 under `metadata`; `getCompletionPercentage` then still returns 20, the
top-level number, not 75. -/
theorem updateParentCompletionPercentage_write_not_read :
    (updateParentCompletionPercentage bothLib bothWorld
        "/repo/.carl/project/features/both.intent.carl" (JSNum.fin 75)).1 = true ∧
    (updateParentCompletionPercentage bothLib bothWorld
        "/repo/.carl/project/features/both.intent.carl" (JSNum.fin 75)).2.trace
      = [Event.writeFile "/repo/.carl/project/features/both.state.carl" bothTextAt75] ∧
    bothLib.yamlParse bothTextAt75 = .ok bothDocAt75 ∧
    getCompletionPercentage bothLib
        (updateParentCompletionPercentage bothLib bothWorld
          "/repo/.carl/project/features/both.intent.carl" (JSNum.fin 75)).2
        "/repo/.carl/project/features/both.state.carl" = some (JSNum.fin 20) := by
  refine ⟨by decide!, by decide!, rfl, by decide!⟩

/-! ### Auxiliary facts about the relationship cache -/

theorem buildHierarchicalMap_of_stale (L : Lib) (d : Directories) (f : Files) (cwd : String)
    (now : Int) (cache : RelationshipCache) (h : cacheIsValid cache now = false) :
    (buildHierarchicalMap L d f cwd now cache).1 = scanRelationships L d f cwd ∧
    (∀ g, scanRelationships L d f cwd = .ok g →
      (buildHierarchicalMap L d f cwd now cache).2
        = { relationshipCache := g, cacheTimestamp := some now }) ∧
    (∀ e, scanRelationships L d f cwd = .error e →
      (buildHierarchicalMap L d f cwd now cache).2 = cache) := by
  unfold buildHierarchicalMap
  simp only [h, Bool.false_eq_true, if_false]
  cases hs : scanRelationships L d f cwd with
  | error e =>
    refine ⟨rfl, ?_, ?_⟩
    · intro g hg
      cases hg
    · intro _ _
      rfl
  | ok g =>
    refine ⟨rfl, ?_, ?_⟩
    · intro g' hg
      injection hg with hg
      subst hg
      rfl
    · intro e he
      cases he

theorem buildHierarchicalMap_of_valid (L : Lib) (d : Directories) (f : Files) (cwd : String)
    (now : Int) (cache : RelationshipCache) (h : cacheIsValid cache now = true) :
    buildHierarchicalMap L d f cwd now cache = (.ok cache.relationshipCache, cache) := by
  unfold buildHierarchicalMap
  simp only [h, if_true]

theorem cacheIsValid_iff (cache : RelationshipCache) (now : Int) :
    cacheIsValid cache now = true ↔
      cache.relationshipCache ≠ [] ∧
      ∃ t0, cache.cacheTimestamp = some t0 ∧ t0 ≠ 0 ∧ now - t0 < 300000 := by
  unfold cacheIsValid CACHE_DURATION
  cases hts : cache.cacheTimestamp with
  | none => simp
  | some t0 =>
    simp only [Bool.and_eq_true, decide_eq_true_eq, Option.some.injEq, exists_eq_left']
    constructor
    · rintro ⟨h1, h2, h3⟩
      exact ⟨fun h => by rw [h] at h1; simp at h1, h2, h3⟩
    · rintro ⟨h1, h2, h3⟩
      exact ⟨List.length_pos.mpr h1, h2, h3⟩

/-! ### C21 - C23: the relationship cache -/

/-- C21 (counterexample): the first build, on a tree without project directories,
returns the graph with no entries; an intent file tree is then put in place, and the
second call, one second later and with no clearing in between, rescans and returns
the four entries of the tree instead of the graph of the first call. -/
theorem buildHierarchicalMap_rescans_after_empty_build :
    (buildHierarchicalMap projectLib emptyDirectories emptyFiles "/repo" 1700000000000
        RelationshipCache.initial).1 = .ok [] ∧
    (buildHierarchicalMap projectLib projectDirectories projectFiles "/repo" 1700000001000
        (buildHierarchicalMap projectLib emptyDirectories emptyFiles "/repo" 1700000000000
          RelationshipCache.initial).2).1 = .ok projectMap := by
  refine ⟨rfl, rfl⟩

/-- C21 (amended): when a call at time `t0`, other than 0, rebuilds the graph and the
graph `g` it returns has at least one entry, a second call at time `t1` with
`t1 - t0 < 300000` and no clearing in between returns `g` again and leaves the cache
as it is, whatever the file tree has become: nothing is rescanned. -/
theorem buildHierarchicalMap_served_from_cache (L : Lib) (d : Directories) (f : Files)
    (cwd : String) (t0 t1 : Int) (cache : RelationshipCache) (g : RelationshipMap)
    (hrebuild : cacheIsValid cache t0 = false)
    (hfirst : (buildHierarchicalMap L d f cwd t0 cache).1 = .ok g)
    (hentries : g ≠ [])
    (hclock : t0 ≠ 0)
    (hwindow : t1 - t0 < 300000) :
    ∀ (d1 : Directories) (f1 : Files) (cwd1 : String),
      buildHierarchicalMap L d1 f1 cwd1 t1 (buildHierarchicalMap L d f cwd t0 cache).2
        = (.ok g, (buildHierarchicalMap L d f cwd t0 cache).2) := by
  intro d1 f1 cwd1
  obtain ⟨h1, h2, _⟩ := buildHierarchicalMap_of_stale L d f cwd t0 cache hrebuild
  rw [h1] at hfirst
  have hcache := h2 g hfirst
  have hvalid : cacheIsValid (buildHierarchicalMap L d f cwd t0 cache).2 t1 = true := by
    rw [cacheIsValid_iff, hcache]
    exact ⟨hentries, t0, rfl, hclock, hwindow⟩
  rw [buildHierarchicalMap_of_valid L d1 f1 cwd1 t1 _ hvalid, hcache]

/-- Witness for C21 (amended): the graph of the small project, built at
1700000000000, is returned again one second later on a tree without project
directories. -/
theorem buildHierarchicalMap_served_from_cache_witness :
    buildHierarchicalMap projectLib emptyDirectories emptyFiles "/nowhere" 1700000001000
        (buildHierarchicalMap projectLib projectDirectories projectFiles "/repo" 1700000000000
          RelationshipCache.initial).2
      = (.ok projectMap,
         (buildHierarchicalMap projectLib projectDirectories projectFiles "/repo" 1700000000000
          RelationshipCache.initial).2) :=
  buildHierarchicalMap_served_from_cache projectLib projectDirectories projectFiles "/repo"
    1700000000000 1700000001000 RelationshipCache.initial projectMap
    (by decide) rfl (by simp [projectMap]) (by decide) (by decide)
    emptyDirectories emptyFiles "/nowhere"

/-- C22: after `clearRelationshipCache`, the next `buildHierarchicalMap` call returns
the result of the scan of the file tree as it is at that call, whatever the cache
held and however recently it was built; when the scan returns a graph, the cache
then holds this graph with the time of the call. -/
theorem buildHierarchicalMap_after_clear (L : Lib) (d : Directories) (f : Files)
    (cwd : String) (now : Int) (cache : RelationshipCache) :
    (buildHierarchicalMap L d f cwd now (clearRelationshipCache cache)).1
      = scanRelationships L d f cwd ∧
    (∀ g, scanRelationships L d f cwd = .ok g →
      (buildHierarchicalMap L d f cwd now (clearRelationshipCache cache)).2
        = { relationshipCache := g, cacheTimestamp := some now }) := by
  have h := buildHierarchicalMap_of_stale L d f cwd now (clearRelationshipCache cache) rfl
  exact ⟨h.1, h.2.1⟩

/-- Witness for C22: the cache holds the graph of the small project, built one second
ago; after the clearing, a call on a tree without project directories returns the
graph with no entries. -/
theorem buildHierarchicalMap_after_clear_witness :
    (buildHierarchicalMap projectLib emptyDirectories emptyFiles "/repo" 1700000001000
        (clearRelationshipCache
          { relationshipCache := projectMap, cacheTimestamp := some 1700000000000 })).1
      = .ok [] ∧
    (buildHierarchicalMap projectLib emptyDirectories emptyFiles "/repo" 1700000001000
        (clearRelationshipCache
          { relationshipCache := projectMap, cacheTimestamp := some 1700000000000 })).2
      = { relationshipCache := [], cacheTimestamp := some 1700000001000 } := by
  have h := buildHierarchicalMap_after_clear projectLib emptyDirectories emptyFiles "/repo"
    1700000001000 { relationshipCache := projectMap, cacheTimestamp := some 1700000000000 }
  have hscan : scanRelationships projectLib emptyDirectories emptyFiles "/repo" = .ok [] :=
    rfl
  exact ⟨h.1.trans hscan, h.2 [] hscan⟩

/-- C23: for a cache built at time `t0`, a `buildHierarchicalMap` call at time `t`
returns something other than the result of a fresh scan only if `t - t0 < 300000`;
and for every `t` with `t - t0 >= 300000` the call returns the result of the scan,
and when the scan returns a graph it replaces the cached graph by it and the cache
timestamp by `t` (when the scan throws, the call throws and the cache stays as it
is: the old graph is not served). -/
theorem buildHierarchicalMap_expiry (L : Lib) (d : Directories) (f : Files) (cwd : String)
    (cache : RelationshipCache) (t0 t : Int) (hbuilt : cache.cacheTimestamp = some t0) :
    ((buildHierarchicalMap L d f cwd t cache).1 ≠ scanRelationships L d f cwd →
      t - t0 < 300000 ∧
      buildHierarchicalMap L d f cwd t cache = (.ok cache.relationshipCache, cache)) ∧
    (t - t0 ≥ 300000 →
      (buildHierarchicalMap L d f cwd t cache).1 = scanRelationships L d f cwd ∧
      (∀ g, scanRelationships L d f cwd = .ok g →
        (buildHierarchicalMap L d f cwd t cache).2
          = { relationshipCache := g, cacheTimestamp := some t }) ∧
      (∀ e, scanRelationships L d f cwd = .error e →
        buildHierarchicalMap L d f cwd t cache = (.error e, cache))) := by
  constructor
  · intro hne
    cases hv : cacheIsValid cache t with
    | false => exact absurd (buildHierarchicalMap_of_stale L d f cwd t cache hv).1 hne
    | true =>
      obtain ⟨_, t0', hts, _, hlt⟩ := (cacheIsValid_iff cache t).mp hv
      rw [hbuilt] at hts
      injection hts with hts
      subst hts
      exact ⟨hlt, buildHierarchicalMap_of_valid L d f cwd t cache hv⟩
  · intro hold
    have hv : cacheIsValid cache t = false := by
      rw [Bool.eq_false_iff]
      intro hv
      obtain ⟨_, t0', hts, _, hlt⟩ := (cacheIsValid_iff cache t).mp hv
      rw [hbuilt] at hts
      injection hts with hts
      subst hts
      omega
    have h := buildHierarchicalMap_of_stale L d f cwd t cache hv
    refine ⟨h.1, h.2.1, ?_⟩
    intro e he
    have h1 := h.1
    rw [he] at h1
    exact Prod.ext h1 (h.2.2 e he)

/-- Witness for C23: the cache holds a graph built at 1700000000000; exactly 300000 ms
later a call on the tree of the small project returns the graph of that tree and
stamps the cache with the time of the call. -/
theorem buildHierarchicalMap_expiry_witness :
    (buildHierarchicalMap projectLib projectDirectories projectFiles "/repo" 1700000300000
        { relationshipCache := treeMap, cacheTimestamp := some 1700000000000 }).1
      = .ok projectMap ∧
    (buildHierarchicalMap projectLib projectDirectories projectFiles "/repo" 1700000300000
        { relationshipCache := treeMap, cacheTimestamp := some 1700000000000 }).2
      = { relationshipCache := projectMap, cacheTimestamp := some 1700000300000 } := by
  have h := (buildHierarchicalMap_expiry projectLib projectDirectories projectFiles "/repo"
    { relationshipCache := treeMap, cacheTimestamp := some 1700000000000 }
    1700000000000 1700000300000 rfl).2 (by decide)
  have hscan : scanRelationships projectLib projectDirectories projectFiles "/repo"
      = .ok projectMap := rfl
  exact ⟨h.1.trans hscan, h.2.1 projectMap hscan⟩

/-! ### Auxiliary facts about the inventory and the second pass -/

theorem sameValueZero_eq (a b : JSValue) (h : sameValueZero a b = true) : a = b := by
  cases a <;> cases b <;> simp_all [sameValueZero]

theorem sameValueZero_symm (a b : JSValue) : sameValueZero a b = sameValueZero b a := by
  cases a <;> cases b <;> simp only [sameValueZero] <;>
    exact decide_eq_decide.mpr eq_comm

theorem inventorySet_keys (id : JSValue) (record : IntentRecord) (inv : Inventory) :
    ∀ x ∈ inventorySet id record inv,
      (∃ y ∈ inv, y.1 = x.1) ∨ (x.1 = id ∧ ∀ y ∈ inv, sameValueZero y.1 id = false) := by
  induction inv with
  | nil =>
    intro x hx
    simp only [inventorySet, List.mem_singleton] at hx
    subst hx
    exact Or.inr ⟨rfl, fun y hy => by cases hy⟩
  | cons kv rest ih =>
    obtain ⟨k, old⟩ := kv
    intro x hx
    simp only [inventorySet] at hx
    cases hk : sameValueZero k id with
    | true =>
      simp only [hk, if_true, List.mem_cons] at hx
      rcases hx with hx | hx
      · subst hx
        exact Or.inl ⟨(k, old), List.mem_cons_self _ _, rfl⟩
      · exact Or.inl ⟨x, List.mem_cons_of_mem _ hx, rfl⟩
    | false =>
      simp only [hk, Bool.false_eq_true, if_false, List.mem_cons] at hx
      rcases hx with hx | hx
      · subst hx
        exact Or.inl ⟨(k, old), List.mem_cons_self _ _, rfl⟩
      · rcases ih x hx with ⟨y, hy, hyx⟩ | ⟨hxid, hall⟩
        · exact Or.inl ⟨y, List.mem_cons_of_mem _ hy, hyx⟩
        · refine Or.inr ⟨hxid, ?_⟩
          intro y hy
          rcases List.mem_cons.mp hy with hy | hy
          · subst hy
            exact hk
          · exact hall y hy

theorem inventorySet_distinct (id : JSValue) (record : IntentRecord) (inv : Inventory)
    (h : DistinctIds inv) : DistinctIds (inventorySet id record inv) := by
  induction inv with
  | nil => simp [inventorySet, DistinctIds]
  | cons kv rest ih =>
    obtain ⟨k, old⟩ := kv
    unfold DistinctIds at h ih ⊢
    rw [List.pairwise_cons] at h
    simp only [inventorySet]
    cases hk : sameValueZero k id with
    | true =>
      simp only [if_true]
      rw [List.pairwise_cons]
      exact ⟨h.1, h.2⟩
    | false =>
      simp only [Bool.false_eq_true, if_false]
      rw [List.pairwise_cons]
      refine ⟨?_, ih h.2⟩
      intro x hx
      rcases inventorySet_keys id record rest x hx with ⟨y, hy, hyx⟩ | ⟨hxid, _⟩
      · rw [← hyx]
        exact h.1 y hy
      · rw [hxid]
        exact hk

theorem inventorySet_of_fresh (id : JSValue) (record : IntentRecord) (inv : Inventory)
    (h : ∀ y ∈ inv, sameValueZero y.1 id = false) :
    inventorySet id record inv = inv ++ [(id, record)] := by
  induction inv with
  | nil => rfl
  | cons kv rest ih =>
    obtain ⟨k, old⟩ := kv
    have hk : sameValueZero k id = false := h (k, old) (List.mem_cons_self _ _)
    simp only [inventorySet, hk, Bool.false_eq_true, if_false, List.cons_append]
    rw [ih (fun y hy => h y (List.mem_cons_of_mem _ hy))]

theorem foldl_inventorySet_distinct (cands : List (JSValue × IntentRecord)) (acc : Inventory)
    (h : DistinctIds acc) :
    DistinctIds (cands.foldl (fun a c => inventorySet c.1 c.2 a) acc) := by
  induction cands generalizing acc with
  | nil => exact h
  | cons c cs ih => exact ih _ (inventorySet_distinct c.1 c.2 acc h)

theorem foldl_inventorySet_of_distinct (cands : List (JSValue × IntentRecord))
    (acc : Inventory) (h : DistinctIds (acc ++ cands)) :
    cands.foldl (fun a c => inventorySet c.1 c.2 a) acc = acc ++ cands := by
  induction cands generalizing acc with
  | nil => simp
  | cons c cs ih =>
    have hfresh : ∀ y ∈ acc, sameValueZero y.1 c.1 = false := by
      intro y hy
      unfold DistinctIds at h
      rw [List.pairwise_append] at h
      exact h.2.2 y hy c (List.mem_cons_self _ _)
    simp only [List.foldl]
    rw [inventorySet_of_fresh c.1 c.2 acc hfresh]
    have hassoc : acc ++ [(c.1, c.2)] ++ cs = acc ++ c :: cs := by simp
    rw [ih (acc ++ [(c.1, c.2)]) (by rw [hassoc]; exact h), hassoc]

theorem foldl_registerIntentFile (L : Lib) (f : Files) (dirPath : String)
    (files : List String) (acc : Inventory) :
    files.foldl (registerIntentFile L f dirPath) acc
      = (files.filterMap (declaredIntent L f dirPath)).foldl
          (fun a c => inventorySet c.1 c.2 a) acc := by
  induction files generalizing acc with
  | nil => rfl
  | cons file rest ih =>
    simp only [List.foldl, List.filterMap_cons]
    rw [ih]
    unfold registerIntentFile
    cases hdecl : declaredIntent L f dirPath file with
    | none => rfl
    | some c => rfl

theorem processDirectoryForRelationships_eq (L : Lib) (d : Directories) (f : Files)
    (dirPath : String) (acc inv : Inventory)
    (h : processDirectoryForRelationships L d f dirPath acc = .ok inv) :
    inv = (directoryIntents L d f dirPath).foldl (fun a c => inventorySet c.1 c.2 a) acc := by
  unfold processDirectoryForRelationships at h
  unfold directoryIntents
  cases hr : d.readdir dirPath with
  | error e => rw [hr] at h; cases h
  | ok files =>
    rw [hr] at h
    injection h with h
    rw [← h, foldl_registerIntentFile]

theorem scanScopeDirectory_eq (L : Lib) (d : Directories) (f : Files) (projectDir : String)
    (acc inv : Inventory) (scopeDir : String)
    (h : scanScopeDirectory L d f projectDir acc scopeDir = .ok inv) :
    inv = (scopeIntents L d f projectDir scopeDir).foldl
      (fun a c => inventorySet c.1 c.2 a) acc := by
  unfold scanScopeDirectory at h
  unfold scopeIntents
  simp only [] at h
  cases he : f.pathExists (L.join [projectDir, scopeDir]) with
  | error e => rw [he] at h; cases h
  | ok b =>
    cases b with
    | false =>
      rw [he] at h
      injection h with h
      exact h.symm
    | true =>
      simp only [he] at h ⊢
      cases hp : processDirectoryForRelationships L d f (L.join [projectDir, scopeDir]) acc with
      | error e => rw [hp] at h; cases h
      | ok active =>
        have hactive := processDirectoryForRelationships_eq L d f _ acc active hp
        simp only [hp] at h
        rw [List.foldl_append, ← hactive]
        cases hc : f.pathExists (L.join [L.join [projectDir, scopeDir], "completed"]) with
        | error e => rw [hc] at h; cases h
        | ok c =>
          cases c with
          | false =>
            rw [hc] at h
            injection h with h
            exact h.symm
          | true =>
            simp only [hc] at h
            exact processDirectoryForRelationships_eq L d f _ active inv h

theorem scanScopeDirectories_eq (L : Lib) (d : Directories) (f : Files) (projectDir : String)
    (scopes : List String) (acc inv : Inventory)
    (h : scanScopeDirectories L d f projectDir scopes acc = .ok inv) :
    inv = (scopes.flatMap (scopeIntents L d f projectDir)).foldl
      (fun a c => inventorySet c.1 c.2 a) acc := by
  induction scopes generalizing acc with
  | nil =>
    simp only [scanScopeDirectories] at h
    injection h with h
    exact h.symm
  | cons s rest ih =>
    simp only [scanScopeDirectories] at h
    cases hs : scanScopeDirectory L d f projectDir acc s with
    | error e => rw [hs] at h; cases h
    | ok next =>
      simp only [hs] at h
      rw [List.flatMap_cons, List.foldl_append, ← scanScopeDirectory_eq L d f projectDir acc next s hs]
      exact ih next h

/-- The inventory of the first pass is the inventoried items entered one by one with
`Map.set`: for an id declared by several files, the record of the last of them. -/
theorem collectIntentFiles_eq (L : Lib) (d : Directories) (f : Files) (cwd : String)
    (inv : Inventory) (h : collectIntentFiles L d f cwd = .ok inv) :
    inv = (declaredIntents L d f cwd).foldl (fun a c => inventorySet c.1 c.2 a) [] :=
  scanScopeDirectories_eq L d f _ _ [] inv h

theorem collectIntentFiles_distinct (L : Lib) (d : Directories) (f : Files) (cwd : String)
    (inv : Inventory) (h : collectIntentFiles L d f cwd = .ok inv) : DistinctIds inv := by
  rw [collectIntentFiles_eq L d f cwd inv h]
  exact foldl_inventorySet_distinct _ [] List.Pairwise.nil

theorem collectIntentFiles_of_distinct (L : Lib) (d : Directories) (f : Files) (cwd : String)
    (inv : Inventory) (h : collectIntentFiles L d f cwd = .ok inv)
    (hids : DistinctIds (declaredIntents L d f cwd)) :
    inv = declaredIntents L d f cwd := by
  rw [collectIntentFiles_eq L d f cwd inv h, foldl_inventorySet_of_distinct _ [] (by simpa using hids)]
  simp

theorem relationshipSet_of_fresh (path : String) (entry : Relationship) (g : RelationshipMap)
    (h : path ∉ g.map Prod.fst) : relationshipSet path entry g = g ++ [(path, entry)] := by
  induction g with
  | nil => rfl
  | cons kv rest ih =>
    obtain ⟨k, old⟩ := kv
    simp only [List.map_cons, List.mem_cons, not_or] at h
    have hk : ¬ k = path := fun hk => h.1 hk.symm
    simp only [relationshipSet, hk, if_false, List.cons_append]
    rw [ih h.2]

theorem relationshipSet_keys (path : String) (entry : Relationship) (g : RelationshipMap) :
    (relationshipSet path entry g).map Prod.fst
      = if path ∈ g.map Prod.fst then g.map Prod.fst else g.map Prod.fst ++ [path] := by
  induction g with
  | nil => simp [relationshipSet]
  | cons kv rest ih =>
    obtain ⟨k, old⟩ := kv
    simp only [relationshipSet]
    by_cases hk : k = path
    · subst hk
      simp
    · have hk2 : ¬ path = k := fun h => hk h.symm
      simp only [hk, if_false, List.map_cons, ih, List.mem_cons, hk2, false_or]
      split <;> simp

theorem foldl_relationshipSet_nodup (entryOf : IntentRecord → Relationship)
    (entries : List (JSValue × IntentRecord)) (acc : RelationshipMap)
    (h : (acc.map Prod.fst).Nodup) :
    ((entries.foldl (fun g e => relationshipSet e.2.path (entryOf e.2) g) acc).map
      Prod.fst).Nodup := by
  induction entries generalizing acc with
  | nil => exact h
  | cons e es ih =>
    apply ih
    rw [relationshipSet_keys]
    split
    · exact h
    · rename_i hnot
      rw [List.nodup_append]
      refine ⟨h, List.nodup_singleton _, ?_⟩
      intro a ha hb
      rw [List.mem_singleton] at hb
      subst hb
      exact hnot ha

/-- The keys of a graph computed by the second pass are pairwise different. -/
theorem resolveRelationships_nodup (inv : Inventory) :
    ((resolveRelationships inv).map Prod.fst).Nodup :=
  foldl_relationshipSet_nodup (resolveRelationship inv) inv [] List.nodup_nil

theorem foldl_relationshipSet_of_nodup (entryOf : IntentRecord → Relationship)
    (entries : List (JSValue × IntentRecord)) (acc : RelationshipMap)
    (h : (acc.map Prod.fst ++ entries.map (fun e => e.2.path)).Nodup) :
    entries.foldl (fun g e => relationshipSet e.2.path (entryOf e.2) g) acc
      = acc ++ entries.map (fun e => (e.2.path, entryOf e.2)) := by
  induction entries generalizing acc with
  | nil => simp
  | cons e es ih =>
    have hfresh : e.2.path ∉ acc.map Prod.fst := by
      intro hin
      rw [List.nodup_append] at h
      exact h.2.2 hin (by simp)
    simp only [List.foldl]
    rw [relationshipSet_of_fresh _ _ acc hfresh, ih]
    · simp
    · simpa using h

/-- When the paths of the inventory are pairwise different, the second pass yields one
entry per record, keyed by its path, in the order of the inventory. -/
theorem resolveRelationships_of_nodup (inv : Inventory)
    (h : (inv.map (fun e => e.2.path)).Nodup) :
    resolveRelationships inv
      = inv.map (fun e => (e.2.path, resolveRelationship inv e.2)) := by
  unfold resolveRelationships
  rw [foldl_relationshipSet_of_nodup (resolveRelationship inv) inv [] (by simpa using h)]
  simp

theorem lookup_map_of_nodup (entryOf : IntentRecord → Relationship)
    (entries : List (JSValue × IntentRecord))
    (h : (entries.map (fun e => e.2.path)).Nodup) (e : JSValue × IntentRecord)
    (he : e ∈ entries) :
    (entries.map (fun e => (e.2.path, entryOf e.2))).lookup e.2.path = some (entryOf e.2) := by
  induction entries with
  | nil => cases he
  | cons x xs ih =>
    rw [List.map_cons, List.nodup_cons] at h
    rcases List.mem_cons.mp he with hx | hx
    · subst hx
      simp [List.lookup]
    · have hne : e.2.path ≠ x.2.path := by
        intro heq
        apply h.1
        rw [← heq]
        exact List.mem_map_of_mem (fun e => e.2.path) hx
      have hb : (e.2.path == x.2.path) = false := by simpa using hne
      simp only [List.map_cons, List.lookup, hb]
      exact ih h.2 hx

theorem resolveRelationship_paths (inv : Inventory) (data : IntentRecord) :
    (resolveRelationship inv data).parent = data.parent ∧
    (resolveRelationship inv data).children = data.children ∧
    (resolveRelationship inv data).parentPath
      = (if data.parent.truthy then resolvedPath inv data.parent else none) ∧
    (resolveRelationship inv data).childPaths = data.children.filterMap (resolvedPath inv) := by
  have hres : ∀ id, (if inventoryHas inv id = true then
        (inventoryGet inv id).map (fun found => found.path) else none) = resolvedPath inv id := by
    intro id
    unfold inventoryHas inventoryGet resolvedPath
    cases hany : inv.any (fun entry => sameValueZero entry.1 id) with
    | true =>
      simp only [if_true, Option.map_map]
      rfl
    | false =>
      have hnone : inv.find? (fun entry => sameValueZero entry.1 id) = none := by
        rw [List.find?_eq_none]
        intro x hx
        rw [List.any_eq_false] at hany
        exact hany x hx
      simp [hnone]
  refine ⟨rfl, rfl, ?_, ?_⟩
  · unfold resolveRelationship
    simp only [Bool.and_eq_true]
    cases ht : data.parent.truthy with
    | false => simp
    | true =>
      simp only [true_and, if_true]
      exact hres data.parent
  · unfold resolveRelationship
    simp only []
    congr 1
    funext childId
    exact hres childId

/-- A declared id resolves to the path of an inventoried item exactly when it is the id
of that item, provided ids and paths of the inventory are pairwise different. -/
theorem resolvedPath_eq_iff (inv : Inventory) (hids : DistinctIds inv)
    (hpaths : (inv.map (fun e => e.2.path)).Nodup) (e : JSValue × IntentRecord)
    (he : e ∈ inv) (id : JSValue) :
    resolvedPath inv id = some e.2.path ↔ sameValueZero e.1 id = true := by
  unfold resolvedPath
  constructor
  · intro h
    cases hf : inv.find? (fun entry => sameValueZero entry.1 id) with
    | none => rw [hf] at h; cases h
    | some x =>
      rw [hf] at h
      simp only [Option.map_some', Option.some.injEq] at h
      have hx : x ∈ inv := List.mem_of_find?_eq_some hf
      have hxe : x = e := List.inj_on_of_nodup_map hpaths hx he h
      have hfound : sameValueZero x.1 id = true :=
        @List.find?_some _ (fun entry : JSValue × IntentRecord => sameValueZero entry.1 id) x inv hf
      rw [hxe] at hfound
      exact hfound
  · intro h
    cases hf : inv.find? (fun entry => sameValueZero entry.1 id) with
    | none =>
      rw [List.find?_eq_none] at hf
      exact absurd h (hf e he)
    | some x =>
      have hx : x ∈ inv := List.mem_of_find?_eq_some hf
      have hxid : sameValueZero x.1 id = true :=
        @List.find?_some _ (fun entry : JSValue × IntentRecord => sameValueZero entry.1 id) x inv hf
      have hsame : sameValueZero x.1 e.1 = true := by
        have h1 := sameValueZero_eq _ _ h
        rw [h1]
        exact hxid
      have hxe : x = e := by
        by_contra hne
        have hsym : Symmetric (fun a b : JSValue × IntentRecord => sameValueZero a.1 b.1 = false) := by
          intro a b hab
          rw [sameValueZero_symm]
          exact hab
        have := List.Pairwise.forall hsym hids hx he hne
        rw [hsame] at this
        cases this
      rw [hxe]
      rfl

/-- The resolved paths of a list of declared ids are no more than the declared ids. -/
theorem filterMap_resolvedPath_length (inv : Inventory) (children : List JSValue) :
    (children.filterMap (resolvedPath inv)).length ≤ children.length :=
  List.length_filterMap_le _ _

theorem resolveRelationships_lookup (inv : Inventory)
    (hpaths : (inv.map (fun e => e.2.path)).Nodup) (e : JSValue × IntentRecord)
    (he : e ∈ inv) :
    (resolveRelationships inv).lookup e.2.path = some (resolveRelationship inv e.2) := by
  rw [resolveRelationships_of_nodup inv hpaths]
  exact lookup_map_of_nodup (resolveRelationship inv) inv hpaths e he

theorem scanRelationships_of_collected (L : Lib) (d : Directories) (f : Files) (cwd : String)
    (inv : Inventory) (h : collectIntentFiles L d f cwd = .ok inv) :
    scanRelationships L d f cwd = .ok (resolveRelationships inv) := by
  unfold scanRelationships
  rw [h]

theorem resolvedPath_eq_none_iff (inv : Inventory) (id : JSValue) :
    resolvedPath inv id = none ↔ ∀ p ∈ inv, sameValueZero p.1 id = false := by
  unfold resolvedPath
  rw [Option.map_eq_none', List.find?_eq_none]
  constructor
  · intro h p hp
    have := h p hp
    simpa using this
  · intro h p hp
    rw [h p hp]
    simp

/-! ### C24 - C26: the relationship graph -/

/-- C24: on a rebuild (the cache is not valid) whose scan succeeds, when the
inventoried items, that is the intent files with a truthy declared id of the four scope
directories and their `completed` subdirectories, have pairwise different ids (an id
is unique across the project) and pairwise different paths, `buildHierarchicalMap`
returns a graph keyed by file path with exactly one entry per inventoried item, in scan
order.  The entry of an item carries its declared parent and children; its
`parentPath` is the path of the inventoried item whose id equals the declared parent,
and null exactly when there is no declared parent or no inventoried item has this id;
its `childPaths` are, in declaration order, the paths that the declared child ids
resolve to, ids that match no inventoried item being left out, so they are no more
than the declared ids. -/
theorem buildHierarchicalMap_rebuild_entries (L : Lib) (d : Directories) (f : Files)
    (cwd : String) (now : Int) (cache : RelationshipCache) (inv : Inventory)
    (hstale : cacheIsValid cache now = false)
    (hscan : collectIntentFiles L d f cwd = .ok inv)
    (hids : DistinctIds (declaredIntents L d f cwd))
    (hpaths : ((declaredIntents L d f cwd).map (fun e => e.2.path)).Nodup) :
    ∃ g, (buildHierarchicalMap L d f cwd now cache).1 = .ok g ∧
      g.map Prod.fst = (declaredIntents L d f cwd).map (fun e => e.2.path) ∧
      g.length = (declaredIntents L d f cwd).length ∧
      (∀ p ∈ declaredIntents L d f cwd, ∀ id,
        resolvedPath (declaredIntents L d f cwd) id = some p.2.path
          ↔ sameValueZero p.1 id = true) ∧
      ∀ e ∈ declaredIntents L d f cwd, ∃ r, g.lookup e.2.path = some r ∧
        r.parent = e.2.parent ∧
        r.children = e.2.children ∧
        (∀ p ∈ declaredIntents L d f cwd, r.parentPath = some p.2.path ↔
          e.2.parent.truthy = true ∧ sameValueZero p.1 e.2.parent = true) ∧
        (r.parentPath = none ↔
          e.2.parent.truthy = false ∨
            ∀ p ∈ declaredIntents L d f cwd, sameValueZero p.1 e.2.parent = false) ∧
        r.childPaths
          = e.2.children.filterMap (resolvedPath (declaredIntents L d f cwd)) ∧
        r.childPaths.length ≤ e.2.children.length := by
  have hinv : inv = declaredIntents L d f cwd :=
    collectIntentFiles_of_distinct L d f cwd inv hscan hids
  rw [← hinv] at hids hpaths ⊢
  have hkeys : (resolveRelationships inv).map Prod.fst = inv.map (fun e => e.2.path) := by
    rw [resolveRelationships_of_nodup inv hpaths, List.map_map]
    rfl
  refine ⟨resolveRelationships inv, ?_, hkeys, ?_,
    fun p hp id => resolvedPath_eq_iff inv hids hpaths p hp id, ?_⟩
  · rw [(buildHierarchicalMap_of_stale L d f cwd now cache hstale).1,
      scanRelationships_of_collected L d f cwd inv hscan]
  · have := congrArg List.length hkeys
    simpa using this
  · intro e he
    obtain ⟨h1, h2, h3, h4⟩ := resolveRelationship_paths inv e.2
    refine ⟨resolveRelationship inv e.2, resolveRelationships_lookup inv hpaths e he, h1, h2,
      ?_, ?_, h4, ?_⟩
    · intro p hp
      rw [h3]
      cases ht : e.2.parent.truthy with
      | false => simp
      | true =>
        simp only [if_true, true_and]
        exact resolvedPath_eq_iff inv hids hpaths p hp e.2.parent
    · rw [h3]
      cases ht : e.2.parent.truthy with
      | false => simp
      | true =>
        simp only [if_true, Bool.true_eq_false, false_or]
        exact resolvedPath_eq_none_iff inv e.2.parent
    · rw [h4]
      exact filterMap_resolvedPath_length inv e.2.children

/-- Witness for C24: the rebuild on the small project, whose four intent files with an
id have different ids and paths, returns a graph with one entry per such file. -/
theorem buildHierarchicalMap_rebuild_entries_witness :
    ∃ g, (buildHierarchicalMap projectLib projectDirectories projectFiles "/repo"
        1700000000000 RelationshipCache.initial).1 = .ok g ∧
      g.map Prod.fst
        = ["/repo/.carl/project/epics/goal.intent.carl",
           "/repo/.carl/project/features/solo.intent.carl",
           "/repo/.carl/project/stories/orphan.intent.carl",
           "/repo/.carl/project/stories/completed/done.intent.carl"] ∧
      g.length = 4 := by
  have hdecl : declaredIntents projectLib projectDirectories projectFiles "/repo"
      = projectInventory := rfl
  obtain ⟨g, hg, hkeys, hlen, _⟩ :=
    buildHierarchicalMap_rebuild_entries projectLib projectDirectories projectFiles "/repo"
      1700000000000 RelationshipCache.initial projectInventory
      rfl rfl (by rw [hdecl]; unfold DistinctIds; decide!) (by rw [hdecl]; decide)
  exact ⟨g, hg, hkeys.trans rfl, hlen.trans rfl⟩

/-- C25 (counterexample): in the graph of the small project the story "orphan"
declares the epic "goal" as its parent, and "goal" does not list it among its
children: `getParentIntentPath(orphan)` is the path of "goal", but the path of
"orphan" is not among `getChildIntentPaths(goal)`. -/
theorem getParentIntentPath_without_child_link :
    (buildHierarchicalMap projectLib projectDirectories projectFiles "/repo" 1700000000000
        RelationshipCache.initial).1 = .ok projectMap ∧
    getParentIntentPath projectMap "/repo/.carl/project/stories/orphan.intent.carl"
      = some "/repo/.carl/project/epics/goal.intent.carl" ∧
    "/repo/.carl/project/stories/orphan.intent.carl"
      ∉ getChildIntentPaths projectMap "/repo/.carl/project/epics/goal.intent.carl" :=
  ⟨rfl, rfl, by decide⟩

/-- C25 (amended): in a graph rebuilt from an inventory with pairwise different paths,
each direction follows the declarations of one item: for items `p` and `c` of the
inventory, `getParentIntentPath(c)` is the path of `p` exactly when `c` declares the id
of `p` as its parent, and the path of `c` is among `getChildIntentPaths(p)` exactly
when `p` declares the id of `c` as a child.  So the two lookups agree for `p` and `c`
exactly when the two declarations do. -/
theorem relationship_directions (L : Lib) (d : Directories) (f : Files)
    (cwd : String) (now : Int) (cache : RelationshipCache) (inv : Inventory)
    (hstale : cacheIsValid cache now = false)
    (hscan : collectIntentFiles L d f cwd = .ok inv)
    (hpaths : (inv.map (fun e => e.2.path)).Nodup) :
    ∃ g, (buildHierarchicalMap L d f cwd now cache).1 = .ok g ∧
      ∀ p ∈ inv, ∀ c ∈ inv,
        (getParentIntentPath g c.2.path = some p.2.path ↔
          c.2.parent.truthy = true ∧ sameValueZero p.1 c.2.parent = true) ∧
        (c.2.path ∈ getChildIntentPaths g p.2.path ↔
          ∃ id ∈ p.2.children, sameValueZero c.1 id = true) ∧
        ((getParentIntentPath g c.2.path = some p.2.path ↔
            c.2.path ∈ getChildIntentPaths g p.2.path) ↔
          ((c.2.parent.truthy = true ∧ sameValueZero p.1 c.2.parent = true) ↔
            ∃ id ∈ p.2.children, sameValueZero c.1 id = true)) := by
  have hids := collectIntentFiles_distinct L d f cwd inv hscan
  refine ⟨resolveRelationships inv, ?_, ?_⟩
  · rw [(buildHierarchicalMap_of_stale L d f cwd now cache hstale).1,
      scanRelationships_of_collected L d f cwd inv hscan]
  · intro p hp c hc
    have hparent : getParentIntentPath (resolveRelationships inv) c.2.path = some p.2.path ↔
        c.2.parent.truthy = true ∧ sameValueZero p.1 c.2.parent = true := by
      unfold getParentIntentPath
      rw [resolveRelationships_lookup inv hpaths c hc]
      simp only [(resolveRelationship_paths inv c.2).2.2.1]
      cases ht : c.2.parent.truthy with
      | false => simp
      | true =>
        simp only [if_true, true_and]
        exact resolvedPath_eq_iff inv hids hpaths p hp c.2.parent
    have hchild : c.2.path ∈ getChildIntentPaths (resolveRelationships inv) p.2.path ↔
        ∃ id ∈ p.2.children, sameValueZero c.1 id = true := by
      unfold getChildIntentPaths
      rw [resolveRelationships_lookup inv hpaths p hp]
      simp only [(resolveRelationship_paths inv p.2).2.2.2, List.mem_filterMap]
      constructor
      · rintro ⟨id, hid, hres⟩
        exact ⟨id, hid, (resolvedPath_eq_iff inv hids hpaths c hc id).mp hres⟩
      · rintro ⟨id, hid, hsame⟩
        exact ⟨id, hid, (resolvedPath_eq_iff inv hids hpaths c hc id).mpr hsame⟩
    refine ⟨hparent, hchild, ?_⟩
    rw [hparent, hchild]

/-- Witness for C25 (amended): in the small project the feature "solo" declares the
epic "goal" as its parent and "goal" lists "solo" as a child, so both lookups link
them. -/
theorem relationship_directions_witness :
    ∃ g, (buildHierarchicalMap projectLib projectDirectories projectFiles "/repo"
        1700000000000 RelationshipCache.initial).1 = .ok g ∧
      getParentIntentPath g "/repo/.carl/project/features/solo.intent.carl"
        = some "/repo/.carl/project/epics/goal.intent.carl" ∧
      "/repo/.carl/project/features/solo.intent.carl"
        ∈ getChildIntentPaths g "/repo/.carl/project/epics/goal.intent.carl" := by
  obtain ⟨g, hg, hall⟩ :=
    relationship_directions projectLib projectDirectories projectFiles "/repo"
      1700000000000 RelationshipCache.initial projectInventory
      rfl rfl (by decide)
  have h := hall
    (JSValue.str "goal",
      { path := "/repo/.carl/project/epics/goal.intent.carl"
        parent := JSValue.null
        children := [JSValue.str "solo", JSValue.str "ghost"] })
    (List.mem_cons_self _ _)
    (JSValue.str "solo",
      { path := "/repo/.carl/project/features/solo.intent.carl"
        parent := JSValue.str "goal"
        children := [JSValue.str "done"] })
    (List.mem_cons_of_mem _ (List.mem_cons_self _ _))
  exact ⟨g, hg, h.1.mpr ⟨rfl, rfl⟩,
    h.2.1.mpr ⟨JSValue.str "solo", List.mem_cons_self _ _, rfl⟩⟩

/-- C26: for a path that is not a key of the relationship graph,
`getParentIntentPath` returns null and `getChildIntentPaths` the empty list; for a path
that is a key of a graph with pairwise different keys (as every graph computed by the
scan is), they return the `parentPath` and the `childPaths` of its entry.  Both are
total functions of the graph: nothing is thrown. -/
theorem getParentIntentPath_lookup (g : RelationshipMap) (path : String) :
    ((∀ r, (path, r) ∉ g) →
      getParentIntentPath g path = none ∧ getChildIntentPaths g path = []) ∧
    (∀ r, (g.map Prod.fst).Nodup → (path, r) ∈ g →
      getParentIntentPath g path = r.parentPath ∧ getChildIntentPaths g path = r.childPaths) ∧
    (∀ (L : Lib) (d : Directories) (f : Files) (cwd : String),
      scanRelationships L d f cwd = .ok g → (g.map Prod.fst).Nodup) := by
  refine ⟨?_, ?_, ?_⟩
  · intro h
    have hnone : g.lookup path = none := by
      rw [List.lookup_eq_none_iff]
      intro kv hkv
      rw [bne_iff_ne]
      intro hk
      apply h kv.2
      rw [hk]
      exact hkv
    simp [getParentIntentPath, getChildIntentPaths, hnone]
  · intro r hnodup hmem
    have hsome : g.lookup path = some r := by
      induction g with
      | nil => cases hmem
      | cons kv rest ih =>
        obtain ⟨k, v⟩ := kv
        rw [List.map_cons, List.nodup_cons] at hnodup
        rcases List.mem_cons.mp hmem with h | h
        · injection h with h1 h2
          subst h1
          subst h2
          simp [List.lookup]
        · have hne : path ≠ k := by
            intro heq
            apply hnodup.1
            rw [← heq]
            exact List.mem_map.mpr ⟨(path, r), h, rfl⟩
          have hb : (path == k) = false := by simpa using hne
          simp only [List.lookup, hb]
          exact ih hnodup.2 h
    simp [getParentIntentPath, getChildIntentPaths, hsome]
  · intro L d f cwd hscan
    unfold scanRelationships at hscan
    cases hc : collectIntentFiles L d f cwd with
    | error e => rw [hc] at hscan; cases hscan
    | ok inv =>
      rw [hc] at hscan
      injection hscan with hscan
      rw [← hscan]
      exact resolveRelationships_nodup inv

/-- Witness for C26: in the graph of the small project, a path that is no key has no
parent and no children; the feature "solo" has the parent and the child of its
entry. -/
theorem getParentIntentPath_lookup_witness :
    (getParentIntentPath projectMap "/repo/.carl/project/features/nobody.intent.carl" = none ∧
      getChildIntentPaths projectMap "/repo/.carl/project/features/nobody.intent.carl" = []) ∧
    (getParentIntentPath projectMap "/repo/.carl/project/features/solo.intent.carl"
        = some "/repo/.carl/project/epics/goal.intent.carl" ∧
      getChildIntentPaths projectMap "/repo/.carl/project/features/solo.intent.carl"
        = ["/repo/.carl/project/stories/completed/done.intent.carl"]) := by
  refine ⟨(getParentIntentPath_lookup projectMap
      "/repo/.carl/project/features/nobody.intent.carl").1 ?_,
    (getParentIntentPath_lookup projectMap
      "/repo/.carl/project/features/solo.intent.carl").2.1
      { parent := JSValue.str "goal"
        children := [JSValue.str "done"]
        parentPath := some "/repo/.carl/project/epics/goal.intent.carl"
        childPaths := ["/repo/.carl/project/stories/completed/done.intent.carl"] }
      (by decide) (by simp [projectMap])⟩
  intro r hr
  simp [projectMap] at hr

/-! ### Auxiliary facts about the files written by the aggregation engine -/

theorem writtenPaths_append (a b : List Event) :
    writtenPaths (a ++ b) = writtenPaths a ++ writtenPaths b := by
  simp [writtenPaths, List.filterMap_append]

theorem World.execSync_written (w : World) (command : String) :
    writtenPaths (w.execSync command).2.trace = writtenPaths w.trace ∧
    (w.execSync command).2.trace.length = w.trace.length + 1 := by
  rw [World.execSync_trace, writtenPaths_append]
  simp [writtenPaths]

theorem rollbackCompletion_written (w : World) :
    writtenPaths (rollbackCompletion w).2.trace = writtenPaths w.trace ∧
    (rollbackCompletion w).2.trace.length = w.trace.length + 1 ∧
    (rollbackCompletion w).2.carlRoot = w.carlRoot := by
  unfold rollbackCompletion
  exact ⟨(World.execSync_written w _).1, (World.execSync_written w _).2,
    World.execSync_carlRoot w _⟩

/-- The archival workflow writes no file with `fs.writeFile`, performs at most seven
mutations and leaves the root as it is. -/
theorem commitAndMoveFiles_written (L : Lib) (w : World) (info : CompletionCheck) :
    writtenPaths (commitAndMoveFiles L w info).2.trace = writtenPaths w.trace ∧
    (commitAndMoveFiles L w info).2.trace.length ≤ w.trace.length + 7 ∧
    (commitAndMoveFiles L w info).2.carlRoot = w.carlRoot := by
  have hroll : ∀ (v : World), writtenPaths v.trace = writtenPaths w.trace →
      ∀ n, n ≤ 6 → v.trace.length = w.trace.length + n → v.carlRoot = w.carlRoot →
      writtenPaths (rollbackCompletion v).2.trace = writtenPaths w.trace ∧
      (rollbackCompletion v).2.trace.length ≤ w.trace.length + 7 ∧
      (rollbackCompletion v).2.carlRoot = w.carlRoot := by
    intro v h1 n hn h2 h3
    obtain ⟨r1, r2, r3⟩ := rollbackCompletion_written v
    exact ⟨r1.trans h1, by omega, r3.trans h3⟩
  have hexec : ∀ (v : World) (c : String), writtenPaths v.trace = writtenPaths w.trace →
      ∀ n, v.trace.length = w.trace.length + n → v.carlRoot = w.carlRoot →
      writtenPaths (v.execSync c).2.trace = writtenPaths w.trace ∧
      (v.execSync c).2.trace.length = w.trace.length + (n + 1) ∧
      (v.execSync c).2.carlRoot = w.carlRoot := by
    intro v c h1 n h2 h3
    obtain ⟨e1, e2⟩ := World.execSync_written v c
    exact ⟨e1.trans h1, by omega, (World.execSync_carlRoot v c).trans h3⟩
  unfold commitAndMoveFiles
  simp only []
  split
  · exact hroll w rfl 0 (by omega) rfl rfl
  · rename_i intentPath _
    obtain ⟨a1, a2, a3⟩ := hexec w
      ("git add \"" ++ intentPath ++ "\" \"" ++ info.statePath.getD "undefined" ++ "\"")
      rfl 0 rfl rfl
    split
    · exact hroll _ a1 1 (by omega) a2 a3
    · split
      · rename_i completionPercentage phase _ _
        obtain ⟨b1, b2, b3⟩ := hexec _
          ("git commit -m \""
            ++ completionCommitMessage L (getScopeTypeFromPath intentPath)
                (L.basenameExt intentPath ".intent.carl") completionPercentage phase
            ++ "\"") a1 1 a2 a3
        split
        · exact hroll _ b1 2 (by omega) b2 b3
        · split
          · exact hroll _ b1 2 (by omega) b2 b3
          · rename_i w3 hdir
            obtain ⟨d1, d2⟩ := World.ensureDir_trace _ _ _ hdir
            have c1 : writtenPaths w3.trace = writtenPaths w.trace := by
              rw [d1, writtenPaths_append, b1]
              simp [writtenPaths]
            have c2 : w3.trace.length = w.trace.length + 3 := by
              rw [d1, List.length_append, b2]
              rfl
            have c3 : w3.carlRoot = w.carlRoot := d2.trans b3
            split
            · exact hroll _ c1 3 (by omega) c2 c3
            · rename_i statePath _
              obtain ⟨m1, m2, m3⟩ := hexec w3
                ("git mv \"" ++ intentPath ++ "\" \""
                  ++ L.join [getCompletedDirectory L
                      ((w.execSync ("git add \"" ++ intentPath ++ "\" \""
                          ++ info.statePath.getD "undefined" ++ "\"")).2.execSync
                        ("git commit -m \""
                          ++ completionCommitMessage L (getScopeTypeFromPath intentPath)
                              (L.basenameExt intentPath ".intent.carl") completionPercentage phase
                          ++ "\"")).2 intentPath, L.basename intentPath] ++ "\"")
                c1 3 c2 c3
              split
              · exact hroll _ m1 4 (by omega) m2 m3
              · obtain ⟨n1, n2, n3⟩ := hexec _
                  ("git mv \"" ++ statePath ++ "\" \""
                    ++ L.join [getCompletedDirectory L
                        ((w.execSync ("git add \"" ++ intentPath ++ "\" \""
                            ++ info.statePath.getD "undefined" ++ "\"")).2.execSync
                          ("git commit -m \""
                            ++ completionCommitMessage L (getScopeTypeFromPath intentPath)
                                (L.basenameExt intentPath ".intent.carl") completionPercentage
                                phase
                            ++ "\"")).2 intentPath, L.basename statePath] ++ "\"")
                  m1 4 m2 m3
                split
                · exact hroll _ n1 5 (by omega) n2 n3
                · obtain ⟨o1, o2, o3⟩ := hexec _
                    ("git commit -m \""
                      ++ moveCommitMessage (getScopeTypeFromPath intentPath)
                          (L.basenameExt intentPath ".intent.carl") (L.basename intentPath)
                          (L.basename statePath)
                      ++ "\"") n1 5 n2 n3
                  split
                  · exact hroll _ o1 6 (by omega) o2 o3
                  · refine ⟨o1, ?_, o3⟩
                    dsimp only
                    omega
      · exact hroll _ a1 1 (by omega) a2 a3

theorem World.writeFile_written (w w1 : World) (path content : String)
    (h : w.writeFile path content = .ok w1) :
    writtenPaths w1.trace = writtenPaths w.trace ++ [path] ∧
    w1.trace.length = w.trace.length + 1 ∧
    w1.carlRoot = w.carlRoot := by
  have ht := World.writeFile_trace w w1 path content h
  refine ⟨by rw [ht, writtenPaths_append]; rfl, by rw [ht, List.length_append]; rfl, ?_⟩
  unfold World.writeFile at h
  split at h
  · cases h
  · injection h with h
    subst h
    rfl

/-- The tracking update writes at most one file, the active work file. -/
theorem updateActiveWorkTracking_written (L : Lib) (w : World) (intentPath : String) :
    (∃ extra, writtenPaths (updateActiveWorkTracking L w intentPath).2.trace
        = writtenPaths w.trace ++ extra ∧
      ∀ q ∈ extra, q = L.join [w.carlRoot, ".carl/project/active.work.carl"]) ∧
    (updateActiveWorkTracking L w intentPath).2.trace.length ≤ w.trace.length + 1 ∧
    (updateActiveWorkTracking L w intentPath).2.carlRoot = w.carlRoot := by
  have hsame : (∃ extra, writtenPaths w.trace = writtenPaths w.trace ++ extra ∧
      ∀ q ∈ extra, q = L.join [w.carlRoot, ".carl/project/active.work.carl"]) ∧
      w.trace.length ≤ w.trace.length + 1 ∧ w.carlRoot = w.carlRoot :=
    ⟨⟨[], by simp, fun q hq => by cases hq⟩, by omega, rfl⟩
  unfold updateActiveWorkTracking
  simp only []
  repeat' split
  all_goals first
    | exact hsame
    | (rename_i w1 hw
       obtain ⟨h1, h2, h3⟩ := World.writeFile_written _ _ _ _ hw
       refine ⟨⟨[L.join [w.carlRoot, ".carl/project/active.work.carl"]], h1, ?_⟩, ?_, h3⟩
       · intro q hq
         exact List.mem_singleton.mp hq
       · dsimp only
         omega)

/-- The completion trigger writes at most the active work file and performs at most
eight mutations. -/
theorem triggerCompletionWorkflow_written (L : Lib) (w : World) (parentIntentPath : String) :
    (∃ extra, writtenPaths (triggerCompletionWorkflow L w parentIntentPath).trace
        = writtenPaths w.trace ++ extra ∧
      ∀ q ∈ extra, q = L.join [w.carlRoot, ".carl/project/active.work.carl"]) ∧
    (triggerCompletionWorkflow L w parentIntentPath).trace.length ≤ w.trace.length + 8 ∧
    (triggerCompletionWorkflow L w parentIntentPath).carlRoot = w.carlRoot := by
  unfold triggerCompletionWorkflow
  simp only []
  split
  · obtain ⟨c1, c2, c3⟩ :=
      commitAndMoveFiles_written L w (checkIntentCompletion L w parentIntentPath)
    obtain ⟨⟨extra, t1, t2⟩, t3, t4⟩ := updateActiveWorkTracking_written L
      (commitAndMoveFiles L w (checkIntentCompletion L w parentIntentPath)).2 parentIntentPath
    refine ⟨⟨extra, by rw [t1, c1], ?_⟩, by omega, t4.trans c3⟩
    intro q hq
    rw [← c3]
    exact t2 q hq
  · exact ⟨⟨[], by simp, fun q hq => by cases hq⟩, by omega, rfl⟩

theorem applyPercentage_world (L : Lib) (w w1 : World) (stateData updated : JSValue)
    (r : JSNum) (h : applyPercentage L w stateData r = .ok (updated, w1)) :
    w1.trace = w.trace ∧ w1.carlRoot = w.carlRoot ∧ w1.writeFileFails = w.writeFileFails := by
  unfold applyPercentage at h
  split at h
  · cases h
  · simp only [] at h
    split at h <;> split at h <;>
      (injection h with h; injection h with _ h; subst h; exact ⟨rfl, rfl, rfl⟩)

/-- The update of a parent writes at most the parent's state file and the active work
file, and performs at most nine mutations. -/
theorem updateParentCompletionPercentage_written (L : Lib) (w : World)
    (parentIntentPath : String) (x : JSNum) :
    (∃ extra, writtenPaths (updateParentCompletionPercentage L w parentIntentPath x).2.trace
        = writtenPaths w.trace ++ extra ∧
      ∀ q ∈ extra, q = statePathOf parentIntentPath ∨
        q = L.join [w.carlRoot, ".carl/project/active.work.carl"]) ∧
    (updateParentCompletionPercentage L w parentIntentPath x).2.trace.length
      ≤ w.trace.length + 9 := by
  have hsame : (∃ extra, writtenPaths w.trace = writtenPaths w.trace ++ extra ∧
      ∀ q ∈ extra, q = statePathOf parentIntentPath ∨
        q = L.join [w.carlRoot, ".carl/project/active.work.carl"]) ∧
      w.trace.length ≤ w.trace.length + 9 :=
    ⟨⟨[], by simp, fun q hq => by cases hq⟩, by omega⟩
  unfold updateParentCompletionPercentage
  simp only []
  cases hx : w.files.pathExists (statePathOf parentIntentPath) with
  | error e => exact hsame
  | ok b =>
    cases b with
    | false => exact hsame
    | true =>
      cases hr : w.files.safeReadFile (statePathOf parentIntentPath) with
      | none => exact hsame
      | some content =>
        by_cases hc : content = ""
        · simp only [hc, if_true]
          exact hsame
        · simp only [hc, if_false]
          cases hp : L.yamlParse content with
          | error e => exact hsame
          | ok stateData =>
            cases ht : stateData.truthy with
            | false =>
              simp only [ht, Bool.not_false, if_true]
              exact hsame
            | true =>
              simp only [ht, Bool.not_true, Bool.false_eq_true, if_false]
              cases ha : applyPercentage L w stateData (JSNum.round2 x) with
              | error e =>
                simp only []
                exact hsame
              | ok uw =>
                obtain ⟨updated, w1⟩ := uw
                obtain ⟨a1, a2, _⟩ := applyPercentage_world L w w1 stateData updated _ ha
                simp only []
                cases hw : w1.writeFile (statePathOf parentIntentPath)
                    (L.yamlStringify updated) with
                | error e =>
                  simp only []
                  rw [a1]
                  exact hsame
                | ok w2 =>
                  obtain ⟨w1', w2', w3'⟩ := World.writeFile_written _ _ _ _ hw
                  simp only []
                  split
                  · obtain ⟨⟨extra, t1, t2⟩, t3, _⟩ :=
                      triggerCompletionWorkflow_written L w2 parentIntentPath
                    refine ⟨⟨statePathOf parentIntentPath :: extra, ?_, ?_⟩, ?_⟩
                    · rw [t1, w1', a1]
                      simp
                    · intro q hq
                      rcases List.mem_cons.mp hq with hq | hq
                      · exact Or.inl hq
                      · refine Or.inr ?_
                        rw [← a2, ← w3']
                        exact t2 q hq
                    · rw [a1] at w2'
                      dsimp only
                      omega
                  · refine ⟨⟨[statePathOf parentIntentPath], ?_, ?_⟩, ?_⟩
                    · rw [w1', a1]
                    · intro q hq
                      exact Or.inl (List.mem_singleton.mp hq)
                    · rw [a1] at w2'
                      dsimp only
                      omega

/-- The files written by `recalculateParentCompletion`: at most the parent's state
file and the active work file; at most nine mutations are performed. -/
theorem recalculateParentCompletion_written (L : Lib) (w : World)
    (hierarchicalMap : Except String RelationshipMap) (parentIntentPath : String) :
    (∃ extra,
      writtenPaths (recalculateParentCompletion L w hierarchicalMap parentIntentPath).2.trace
        = writtenPaths w.trace ++ extra ∧
      ∀ q ∈ extra, q = statePathOf parentIntentPath ∨
        q = L.join [w.carlRoot, ".carl/project/active.work.carl"]) ∧
    (recalculateParentCompletion L w hierarchicalMap parentIntentPath).2.trace.length
      ≤ w.trace.length + 9 := by
  have hsame : (∃ extra, writtenPaths w.trace = writtenPaths w.trace ++ extra ∧
      ∀ q ∈ extra, q = statePathOf parentIntentPath ∨
        q = L.join [w.carlRoot, ".carl/project/active.work.carl"]) ∧
      w.trace.length ≤ w.trace.length + 9 :=
    ⟨⟨[], by simp, fun q hq => by cases hq⟩, by omega⟩
  unfold recalculateParentCompletion
  simp only []
  split
  · exact hsame
  · split
    · exact hsame
    · split
      · split
        · exact updateParentCompletionPercentage_written L w parentIntentPath _
        · exact updateParentCompletionPercentage_written L w parentIntentPath _
      · exact hsame

/-! ### C27 - C28: propagation and cycles -/

/-- C27 (counterexample): in the small project the epic "goal" (at 0) has the single
child "solo", whose single child "done" is at 100.  The call
`recalculateParentCompletion(solo)` brings "solo" to 100 and returns success; the only
file it writes is the state file of "solo".  Afterwards the state file of "goal" still
says 0, although the average of its children is now 100. -/
theorem recalculateParentCompletion_leaves_grandparent :
    (recalculateParentCompletion projectLib projectWorld (.ok projectMap)
        "/repo/.carl/project/features/solo.intent.carl").1.success = true ∧
    (recalculateParentCompletion projectLib projectWorld (.ok projectMap)
        "/repo/.carl/project/features/solo.intent.carl").1.newPercentage
      = some (JSNum.fin 100) ∧
    getParentIntentPath projectMap "/repo/.carl/project/features/solo.intent.carl"
      = some "/repo/.carl/project/epics/goal.intent.carl" ∧
    writtenPaths (recalculateParentCompletion projectLib projectWorld (.ok projectMap)
        "/repo/.carl/project/features/solo.intent.carl").2.trace
      = ["/repo/.carl/project/features/solo.state.carl"] ∧
    getCompletionPercentage projectLib
        (recalculateParentCompletion projectLib projectWorld (.ok projectMap)
          "/repo/.carl/project/features/solo.intent.carl").2
        "/repo/.carl/project/epics/goal.state.carl" = some (JSNum.fin 0) ∧
    childrenAverage projectLib
        (recalculateParentCompletion projectLib projectWorld (.ok projectMap)
          "/repo/.carl/project/features/solo.intent.carl").2
        projectMap "/repo/.carl/project/epics/goal.intent.carl" = JSNum.fin 100 := by
  refine ⟨by decide!, by decide!, rfl, by decide!, by decide!, by decide!⟩

/-- C27 (amended): whatever the graph and the percentages, the files that one
`recalculateParentCompletion` call writes are at most the state file of the given
parent and the active work file.  The state file of any other item, in particular of
the parent's own parent, is not written: its percentage is not persisted within the
call. -/
theorem recalculateParentCompletion_writes_parent_only (L : Lib) (w : World)
    (hierarchicalMap : Except String RelationshipMap) (parentIntentPath : String) :
    ∃ extra,
      writtenPaths (recalculateParentCompletion L w hierarchicalMap parentIntentPath).2.trace
        = writtenPaths w.trace ++ extra ∧
      (∀ q ∈ extra, q = statePathOf parentIntentPath ∨
        q = L.join [w.carlRoot, ".carl/project/active.work.carl"]) ∧
      ∀ grandparent : String,
        statePathOf grandparent ≠ statePathOf parentIntentPath →
        statePathOf grandparent ≠ L.join [w.carlRoot, ".carl/project/active.work.carl"] →
        statePathOf grandparent ∉ extra := by
  obtain ⟨⟨extra, h1, h2⟩, _⟩ :=
    recalculateParentCompletion_written L w hierarchicalMap parentIntentPath
  refine ⟨extra, h1, h2, ?_⟩
  intro grandparent hne1 hne2 hmem
  rcases h2 _ hmem with h | h
  · exact hne1 h
  · exact hne2 h

/-- Witness for C27 (amended): the call for "solo" in the small project does not write
the state file of "goal". -/
theorem recalculateParentCompletion_writes_parent_only_witness :
    ∃ extra,
      writtenPaths (recalculateParentCompletion projectLib projectWorld (.ok projectMap)
          "/repo/.carl/project/features/solo.intent.carl").2.trace
        = writtenPaths projectWorld.trace ++ extra ∧
      "/repo/.carl/project/epics/goal.state.carl" ∉ extra := by
  obtain ⟨extra, h1, _, h3⟩ :=
    recalculateParentCompletion_writes_parent_only projectLib projectWorld (.ok projectMap)
      "/repo/.carl/project/features/solo.intent.carl"
  exact ⟨extra, h1,
    h3 "/repo/.carl/project/epics/goal.intent.carl" (by decide) (by decide)⟩

/-- C28 (counterexample): the graph of the project with cycles comes out of the scan;
in it "ring" is its own child and "ping" and "pong" are each other's child.
`recalculateParentCompletion` returns for "ring" (nothing to update: success, no
mutation) and for "ping" (it is brought to 100 and archived: success after seven
mutations). -/
theorem recalculateParentCompletion_returns_on_cycles :
    scanRelationships cycleLib
        (Directories.ofListing cycleListing cycleDocs) cycleWorld.files "/repo"
      = .ok cycleMap ∧
    "/repo/.carl/project/features/ring.intent.carl"
      ∈ getChildIntentPaths cycleMap "/repo/.carl/project/features/ring.intent.carl" ∧
    "/repo/.carl/project/stories/pong.intent.carl"
      ∈ getChildIntentPaths cycleMap "/repo/.carl/project/stories/ping.intent.carl" ∧
    "/repo/.carl/project/stories/ping.intent.carl"
      ∈ getChildIntentPaths cycleMap "/repo/.carl/project/stories/pong.intent.carl" ∧
    (recalculateParentCompletion cycleLib cycleWorld (.ok cycleMap)
        "/repo/.carl/project/features/ring.intent.carl").1.success = true ∧
    (recalculateParentCompletion cycleLib cycleWorld (.ok cycleMap)
        "/repo/.carl/project/features/ring.intent.carl").2.trace = [] ∧
    (recalculateParentCompletion cycleLib cycleWorld (.ok cycleMap)
        "/repo/.carl/project/stories/ping.intent.carl").1.success = true ∧
    (recalculateParentCompletion cycleLib cycleWorld (.ok cycleMap)
        "/repo/.carl/project/stories/ping.intent.carl").1.newPercentage
      = some (JSNum.fin 100) ∧
    (recalculateParentCompletion cycleLib cycleWorld (.ok cycleMap)
        "/repo/.carl/project/stories/ping.intent.carl").2.trace.length = 7 := by
  refine ⟨rfl, by decide, by decide, by decide, by decide!, by decide!, by decide!,
    by decide!, by decide!⟩

/-- C28 (amended): `recalculateParentCompletion` is not recursive and returns for every
relationship graph, with or without cycles.  It consults the graph for the child paths
of the given parent only, so two graphs that agree on them give the same result and
the same world, whatever else they contain; and it performs at most nine mutations
(the write of the parent's state file, at most seven of the archival workflow, and
the write of the active work file). -/
theorem recalculateParentCompletion_bounded (L : Lib) (w : World) (g : RelationshipMap)
    (parentIntentPath : String) :
    (∀ g' : RelationshipMap,
      getChildIntentPaths g parentIntentPath = getChildIntentPaths g' parentIntentPath →
      recalculateParentCompletion L w (.ok g) parentIntentPath
        = recalculateParentCompletion L w (.ok g') parentIntentPath) ∧
    (recalculateParentCompletion L w (.ok g) parentIntentPath).2.trace.length
      ≤ w.trace.length + 9 := by
  refine ⟨?_, (recalculateParentCompletion_written L w (.ok g) parentIntentPath).2⟩
  intro g' h
  simp only [recalculateParentCompletion, h]

/-- Witness for C28 (amended): for "ping", the graph with the cycle gives the same
result and world as the graph that holds the entry of "ping" alone, and at most nine
mutations are made. -/
theorem recalculateParentCompletion_bounded_witness :
    recalculateParentCompletion cycleLib cycleWorld (.ok cycleMap)
        "/repo/.carl/project/stories/ping.intent.carl"
      = recalculateParentCompletion cycleLib cycleWorld
          (.ok [("/repo/.carl/project/stories/ping.intent.carl",
                 { parent := JSValue.str "pong"
                   children := [JSValue.str "pong"]
                   parentPath := some "/repo/.carl/project/stories/pong.intent.carl"
                   childPaths := ["/repo/.carl/project/stories/pong.intent.carl"] })])
          "/repo/.carl/project/stories/ping.intent.carl" ∧
    (recalculateParentCompletion cycleLib cycleWorld (.ok cycleMap)
        "/repo/.carl/project/stories/ping.intent.carl").2.trace.length
      ≤ cycleWorld.trace.length + 9 :=
  ⟨(recalculateParentCompletion_bounded cycleLib cycleWorld cycleMap
      "/repo/.carl/project/stories/ping.intent.carl").1 _ rfl,
   (recalculateParentCompletion_bounded cycleLib cycleWorld cycleMap
      "/repo/.carl/project/stories/ping.intent.carl").2⟩

/-! ### Auxiliary facts about the range of the average -/

/-- A percentage read by `getCompletionPercentage` is `NaN` or lies in `[0, 100]`. -/
theorem getCompletionPercentage_range (L : Lib) (w : World) (stateFilePath : String)
    (n : JSNum) (h : getCompletionPercentage L w stateFilePath = some n) :
    n = JSNum.nan ∨ ∃ q : ℚ, n = JSNum.fin q ∧ 0 ≤ q ∧ q ≤ 100 := by
  have hclamp : ∀ m : JSNum, clampPercentage m = JSNum.nan ∨
      ∃ q : ℚ, clampPercentage m = JSNum.fin q ∧ 0 ≤ q ∧ q ≤ 100 := by
    intro m
    by_cases hm : m = JSNum.nan
    · left
      rw [hm]
      rfl
    · exact Or.inr (clampPercentage_range m hm)
  unfold getCompletionPercentage at h
  split at h
  · cases h
  · cases h
  · split at h
    · cases h
    · split at h
      · cases h
      · split at h
        · cases h
        · rename_i stateData _
          cases ht : stateData.truthy with
          | false => simp [ht] at h
          | true =>
            simp only [ht, Bool.not_true, Bool.false_eq_true, if_false,
              resolvePercentage_of_truthy stateData ht, Option.some.injEq] at h
            rw [← h]
            split
            · exact hclamp _
            · split
              · exact hclamp _
              · split
                · exact Or.inr ⟨100, rfl, by norm_num, le_refl _⟩
                · exact Or.inr ⟨0, rfl, le_refl _, by norm_num⟩

theorem filterMap_asNum_percentageValue (cps : List (Option JSNum)) :
    (cps.map percentageValue).filterMap JSValue.asNum = cps.filterMap id := by
  induction cps with
  | nil => rfl
  | cons c cs ih =>
    cases c with
    | none => simpa [percentageValue, JSValue.asNum] using ih
    | some n => simpa [percentageValue, JSValue.asNum] using ih

theorem childPercentages_range (L : Lib) (w : World) (paths : List String) :
    ∀ n ∈ (childPercentages L w paths).filterMap id,
      n = JSNum.nan ∨ ∃ q : ℚ, n = JSNum.fin q ∧ 0 ≤ q ∧ q ≤ 100 := by
  intro n hn
  rw [List.mem_filterMap] at hn
  obtain ⟨c, hc, hcn⟩ := hn
  unfold childPercentages at hc
  rw [List.mem_map] at hc
  obtain ⟨path, _, hpath⟩ := hc
  rw [← hpath] at hcn
  exact getCompletionPercentage_range L w _ n hcn

theorem JSNum.foldl_add_nan (ns : List JSNum) :
    ns.foldl (fun acc p => acc.add p) JSNum.nan = JSNum.nan := by
  induction ns with
  | nil => rfl
  | cons n ns ih =>
    simp only [List.foldl]
    rw [show JSNum.nan.add n = JSNum.nan from by cases n <;> rfl]
    exact ih

theorem JSNum.foldl_add_of_nan_mem (ns : List JSNum) (acc : JSNum)
    (hnan : JSNum.nan ∈ ns) :
    ns.foldl (fun a p => a.add p) acc = JSNum.nan := by
  induction ns generalizing acc with
  | nil => cases hnan
  | cons n ns ih =>
    simp only [List.foldl]
    rcases List.mem_cons.mp hnan with h | h
    · rw [← h, show acc.add JSNum.nan = JSNum.nan from by cases acc <;> rfl]
      exact JSNum.foldl_add_nan ns
    · exact ih _ h

/-- An average over entries one of which is `NaN` is `NaN`. -/
theorem calculateAverageCompletion_of_nan (xs : List JSValue)
    (hnan : JSNum.nan ∈ xs.filterMap JSValue.asNum) :
    calculateAverageCompletion (some xs) = JSNum.nan := by
  have hvalid : (xs.filterMap JSValue.asNum).length ≠ 0 := by
    intro h
    rw [List.length_eq_zero.mp h] at hnan
    cases hnan
  have hxs0 : xs.length ≠ 0 := by
    intro h
    rw [List.length_eq_zero.mp h] at hnan
    cases hnan
  simp only [calculateAverageCompletion, hxs0, if_false, hvalid,
    JSNum.foldl_add_of_nan_mem _ (JSNum.fin 0) hnan]
  rfl

/-- An average over fewer than `2 ^ 32` finite entries between the natural `l` and 100
is a finite number between `l` and 100. -/
theorem calculateAverageCompletion_between (l : ℕ) (xs : List JSValue) (qs : List ℚ)
    (hne : qs ≠ []) (hxs : xs.filterMap JSValue.asNum = qs.map JSNum.fin)
    (hqs : ∀ q ∈ qs, (l : ℚ) ≤ q ∧ q ≤ 100) (hlen : qs.length < 2 ^ 32) :
    ∃ v : ℚ, calculateAverageCompletion (some xs) = JSNum.fin v ∧ (l : ℚ) ≤ v ∧ v ≤ 100 := by
  have hlen0 : qs.length ≠ 0 := fun h => hne (List.length_eq_zero.mp h)
  have hxs0 : xs.length ≠ 0 := by
    intro h
    rw [List.length_eq_zero.mp h] at hxs
    exact hne (List.map_eq_nil_iff.mp hxs.symm)
  have hq : ((qs.length : ℕ) : ℚ) ≠ 0 := Nat.cast_ne_zero.mpr hlen0
  have hqpos : (0 : ℚ) < qs.length := by exact_mod_cast Nat.pos_of_ne_zero hlen0
  obtain ⟨s, hs, s1, s2⟩ := JSNum.foldl_add_between l qs hqs 0 0 0 (by simp) (by simp)
    (by norm_num at hlen ⊢; omega)
  simp only [Nat.zero_add] at s1 s2
  push_cast at s1 s2
  obtain ⟨a, ha, a1, a2⟩ := JSNum.ofRat_between 100 l (by norm_num) (s / qs.length)
    (by rw [le_div_iff₀ hqpos]; exact s1)
    (by rw [div_le_iff₀ hqpos]; push_cast; exact s2)
  obtain ⟨v, hv, v1, v2⟩ := JSNum.round2_between l a a1 (by simpa using a2)
  refine ⟨v, ?_, v1, v2⟩
  simp only [calculateAverageCompletion, hxs0, if_false, hxs, List.length_map, hlen0]
  rw [hs, show (JSNum.fin s).div (JSNum.fin (qs.length : ℚ)) = JSNum.fin a from by
    simp only [JSNum.div]
    rw [if_neg hq]
    exact ha]
  exact hv

theorem exists_rationals_of_fin (ns : List JSNum)
    (h : ∀ n ∈ ns, ∃ q : ℚ, n = JSNum.fin q ∧ 0 ≤ q ∧ q ≤ 100) :
    ∃ qs : List ℚ, ns = qs.map JSNum.fin ∧ ∀ q ∈ qs, 0 ≤ q ∧ q ≤ 100 := by
  induction ns with
  | nil => exact ⟨[], rfl, fun q hq => by cases hq⟩
  | cons n ns ih =>
    obtain ⟨q, hq, hrange⟩ := h n (List.mem_cons_self _ _)
    obtain ⟨qs, hqs, hall⟩ := ih (fun m hm => h m (List.mem_cons_of_mem _ hm))
    refine ⟨q :: qs, by rw [hq, hqs]; rfl, ?_⟩
    intro r hr
    rcases List.mem_cons.mp hr with hr | hr
    · rw [hr]
      exact hrange
    · exact hall r hr

/-- When a child percentage is `NaN`, the threshold test of
`recalculateParentCompletion` fails. -/
theorem percentageDifference_of_nan (L : Lib) (w : World) (g : RelationshipMap)
    (parentIntentPath : String)
    (h : childrenAverage L w g parentIntentPath = JSNum.nan) :
    (percentageDifference L w g parentIntentPath).ge (JSNum.ofRat (1 / 100)) = false := by
  unfold percentageDifference
  rw [h]
  generalize JSNum.ofRat (1 / 100) = t
  cases orZero (getCompletionPercentage L w (statePathOf parentIntentPath)) <;>
    cases t <;> rfl

/-- The value that `recalculateParentCompletion` passes to
`updateParentCompletionPercentage` when the threshold test passes. -/
theorem childrenAverage_of_update (L : Lib) (w : World) (g : RelationshipMap)
    (parentIntentPath : String)
    (hlength : (getChildIntentPaths g parentIntentPath).length < 2 ^ 32)
    (hdiff : (percentageDifference L w g parentIntentPath).ge (JSNum.ofRat (1 / 100)) = true) :
    ∃ qs : List ℚ,
      (childPercentages L w (getChildIntentPaths g parentIntentPath)).filterMap id
        = qs.map JSNum.fin ∧
      (∀ q ∈ qs, 0 ≤ q ∧ q ≤ 100) ∧
      (qs = [] → childrenAverage L w g parentIntentPath = JSNum.fin 0) ∧
      (qs ≠ [] → ∃ v : ℚ, childrenAverage L w g parentIntentPath = JSNum.fin v ∧
        0 ≤ v ∧ v ≤ 100 ∧ ((∀ q ∈ qs, q = 100) → v = 100)) := by
  have hrange := childPercentages_range L w (getChildIntentPaths g parentIntentPath)
  have hvalid := filterMap_asNum_percentageValue
    (childPercentages L w (getChildIntentPaths g parentIntentPath))
  have hnonan : JSNum.nan ∉
      (childPercentages L w (getChildIntentPaths g parentIntentPath)).filterMap id := by
    intro hnan
    have havg : childrenAverage L w g parentIntentPath = JSNum.nan := by
      unfold childrenAverage
      apply calculateAverageCompletion_of_nan
      rw [hvalid]
      exact hnan
    rw [percentageDifference_of_nan L w g parentIntentPath havg] at hdiff
    cases hdiff
  obtain ⟨qs, hqs, hall⟩ := exists_rationals_of_fin _ (by
    intro n hn
    rcases hrange n hn with h | h
    · rw [h] at hn
      exact absurd hn hnonan
    · exact h)
  have hqslen : qs.length < 2 ^ 32 := by
    have h1 : (qs.map JSNum.fin).length
        ≤ (childPercentages L w (getChildIntentPaths g parentIntentPath)).length := by
      rw [← hqs]
      exact List.length_filterMap_le _ _
    have h2 : (childPercentages L w (getChildIntentPaths g parentIntentPath)).length
        = (getChildIntentPaths g parentIntentPath).length := by
      unfold childPercentages
      exact List.length_map _ _
    rw [List.length_map] at h1
    omega
  refine ⟨qs, hqs, hall, ?_, ?_⟩
  · intro hnil
    unfold childrenAverage
    have hempty : ((childPercentages L w (getChildIntentPaths g parentIntentPath)).map
        percentageValue).filterMap JSValue.asNum = [] := by
      rw [hvalid, hqs, hnil]
      rfl
    simp [calculateAverageCompletion, hempty]
  · intro hne
    obtain ⟨v, hv, v0, v100⟩ := calculateAverageCompletion_between 0 _ qs hne
      (by rw [hvalid, hqs]) (fun q hq => ⟨by simpa using (hall q hq).1, (hall q hq).2⟩) hqslen
    refine ⟨v, hv, by simpa using v0, v100, ?_⟩
    intro hhundred
    obtain ⟨v', hv', v1, v2⟩ := calculateAverageCompletion_between 100 _ qs hne
      (by rw [hvalid, hqs])
      (fun q hq => ⟨by rw [hhundred q hq]; norm_num, (hall q hq).2⟩) hqslen
    have hsame : v = v' := by
      have := hv.symm.trans hv'
      injection this
    rw [hsame]
    push_cast at v1
    exact le_antisymm v2 v1

/-! ### C29: the range of the persisted percentage -/

/-- C29 (counterexample): the feature "near" has three children, at 100, 100 and
99.99.  Their mean 99.9966... is rounded to 100.00: `recalculateParentCompletion`
passes 100 to `updateParentCompletionPercentage`, and the parent is stored at 100,
although one child with a resolvable percentage is not at 100. -/
theorem recalculateParentCompletion_rounds_up_to_100 :
    childPercentages closeLib closeWorld
        (getChildIntentPaths closeMap "/repo/.carl/project/features/near.intent.carl")
      = [some (JSNum.fin 100), some (JSNum.fin 100), some (JSNum.ofRat (9999 / 100))] ∧
    JSNum.ofRat (9999 / 100) = JSNum.fin (7036170730324623 / 70368744177664) ∧
    (7036170730324623 / 70368744177664 : ℚ) < 100 ∧
    childrenAverage closeLib closeWorld closeMap
        "/repo/.carl/project/features/near.intent.carl" = JSNum.fin 100 ∧
    (percentageDifference closeLib closeWorld closeMap
        "/repo/.carl/project/features/near.intent.carl").ge (JSNum.ofRat (1 / 100)) = true ∧
    (recalculateParentCompletion closeLib closeWorld (.ok closeMap)
        "/repo/.carl/project/features/near.intent.carl").1.newPercentage
      = some (JSNum.fin 100) ∧
    getCompletionPercentage closeLib
        (recalculateParentCompletion closeLib closeWorld (.ok closeMap)
          "/repo/.carl/project/features/near.intent.carl").2
        "/repo/.carl/project/features/near.state.carl" = some (JSNum.fin 100) := by
  refine ⟨by decide!, by decide!, by norm_num, by decide!, by decide!, by decide!, by decide!⟩

/-- C29 (amended): whenever `recalculateParentCompletion` calls
`updateParentCompletionPercentage` (the parent has children, fewer than `2 ^ 32` as in
every JavaScript array, and the difference is at least 0.01), the resolvable
percentages of the children are numbers `qs` in `[0, 100]` (none is `NaN`), and the
value `v` it passes is a number with `0 <= v <= 100`; so is the value `u =
Math.round(v * 100) / 100` that `updateParentCompletionPercentage` stores.  `v` is 0
when no child percentage is resolvable, and `v = u = 100` when every child with a
resolvable percentage is at 100; the converse does not hold. -/
theorem recalculateParentCompletion_persists_in_range (L : Lib) (w : World)
    (g : RelationshipMap) (parentIntentPath : String)
    (hchildren : getChildIntentPaths g parentIntentPath ≠ [])
    (hlength : (getChildIntentPaths g parentIntentPath).length < 2 ^ 32)
    (hdiff : (percentageDifference L w g parentIntentPath).ge (JSNum.ofRat (1 / 100)) = true) :
    ∃ (qs : List ℚ) (v u : ℚ),
      (childPercentages L w (getChildIntentPaths g parentIntentPath)).filterMap id
        = qs.map JSNum.fin ∧
      (∀ q ∈ qs, 0 ≤ q ∧ q ≤ 100) ∧
      childrenAverage L w g parentIntentPath = JSNum.fin v ∧
      (recalculateParentCompletion L w (.ok g) parentIntentPath).2
        = (updateParentCompletionPercentage L w parentIntentPath (JSNum.fin v)).2 ∧
      (recalculateParentCompletion L w (.ok g) parentIntentPath).1.success
        = (updateParentCompletionPercentage L w parentIntentPath (JSNum.fin v)).1 ∧
      0 ≤ v ∧ v ≤ 100 ∧
      JSNum.round2 (JSNum.fin v) = JSNum.fin u ∧ 0 ≤ u ∧ u ≤ 100 ∧
      (qs = [] → v = 0) ∧
      (qs ≠ [] → (∀ q ∈ qs, q = 100) → v = 100 ∧ u = 100) := by
  obtain ⟨qs, hqs, hall, hnil, hcons⟩ :=
    childrenAverage_of_update L w g parentIntentPath hlength hdiff
  have hlarge := recalculateParentCompletion_of_large L w g parentIntentPath hchildren hdiff
  have hworld : ∀ v : ℚ, childrenAverage L w g parentIntentPath = JSNum.fin v →
      (recalculateParentCompletion L w (.ok g) parentIntentPath).2
        = (updateParentCompletionPercentage L w parentIntentPath (JSNum.fin v)).2 ∧
      (recalculateParentCompletion L w (.ok g) parentIntentPath).1.success
        = (updateParentCompletionPercentage L w parentIntentPath (JSNum.fin v)).1 := by
    intro v hv
    rw [hlarge, hv]
    refine ⟨rfl, ?_⟩
    cases (updateParentCompletionPercentage L w parentIntentPath (JSNum.fin v)).1 <;> rfl
  by_cases hq : qs = []
  · obtain ⟨h1, h2⟩ := hworld 0 (hnil hq)
    obtain ⟨u, hu, u0, u100⟩ := JSNum.round2_between 0 0 (by norm_num) (by norm_num)
    exact ⟨qs, 0, u, hqs, hall, hnil hq, h1, h2, le_refl _, by norm_num, hu,
      by simpa using u0, u100, fun _ => rfl, fun hne => absurd hq hne⟩
  · obtain ⟨v, hv, v0, v100, vhundred⟩ := hcons hq
    obtain ⟨h1, h2⟩ := hworld v hv
    obtain ⟨u, hu, u0, u100⟩ := JSNum.round2_between 0 v (by simpa using v0) v100
    refine ⟨qs, v, u, hqs, hall, hv, h1, h2, v0, v100, hu, by simpa using u0, u100,
      fun h => absurd h hq, ?_⟩
    intro _ hhundred
    have hv100 := vhundred hhundred
    refine ⟨hv100, ?_⟩
    obtain ⟨u', hu', u1, u2⟩ := JSNum.round2_between 100 v (by rw [hv100]; norm_num) v100
    have hsame : u = u' := by
      have := hu.symm.trans hu'
      injection this
    rw [hsame]
    push_cast at u1
    exact le_antisymm u2 u1

/-- Witness for C29 (amended): for the feature "parent" of the aggregation examples,
with children at 100 and 50, the value passed and the value stored lie in `[0, 100]`. -/
theorem recalculateParentCompletion_persists_in_range_witness :
    ∃ v u : ℚ,
      childrenAverage treeLib treeWorld treeMap
          "/repo/.carl/project/features/parent.intent.carl" = JSNum.fin v ∧
      0 ≤ v ∧ v ≤ 100 ∧
      JSNum.round2 (JSNum.fin v) = JSNum.fin u ∧ 0 ≤ u ∧ u ≤ 100 := by
  obtain ⟨_, v, u, _, _, hv, _, _, h0, h100, hu, u0, u100, _⟩ :=
    recalculateParentCompletion_persists_in_range treeLib treeWorld treeMap
      "/repo/.carl/project/features/parent.intent.carl" (by decide) (by decide) (by decide!)
  exact ⟨v, u, hv, h0, h100, hu, u0, u100⟩

/-! ### Auxiliary facts about the full project review -/

theorem pushIntentFiles_eq (L : Lib) (d : Directories) (scopePath : String)
    (files : List String) (acc out : List String)
    (h : pushIntentFiles L d scopePath files acc = .ok out) :
    out = acc ++ ((files.filter (fun file => jsEndsWith file ".intent.carl")).map
      (fun file => L.join [scopePath, file])).filter
        (fun filePath =>
          match d.isFile filePath with
          | .ok true => true
          | _ => false) := by
  induction files generalizing acc with
  | nil =>
    simp only [pushIntentFiles] at h
    injection h with h
    simp [h]
  | cons file rest ih =>
    simp only [pushIntentFiles] at h
    cases hends : jsEndsWith file ".intent.carl" with
    | false =>
      simp only [hends, Bool.false_eq_true, if_false] at h
      rw [ih acc h]
      simp [List.filter_cons, hends]
    | true =>
      simp only [hends, if_true] at h
      cases hfile : d.isFile (L.join [scopePath, file]) with
      | error e => rw [hfile] at h; cases h
      | ok b =>
        cases b with
        | true =>
          simp only [hfile] at h
          rw [ih _ h]
          simp [List.filter_cons, hends, hfile]
        | false =>
          simp only [hfile] at h
          rw [ih _ h]
          simp [List.filter_cons, hends, hfile]

theorem pushIntentFiles_ok (L : Lib) (d : Directories) (scopePath : String)
    (files : List String) (acc : List String)
    (h : ∀ file ∈ files, jsEndsWith file ".intent.carl" = true →
      ∃ b, d.isFile (L.join [scopePath, file]) = .ok b) :
    ∃ out, pushIntentFiles L d scopePath files acc = .ok out := by
  induction files generalizing acc with
  | nil => exact ⟨acc, rfl⟩
  | cons file rest ih =>
    have hrest : ∀ f ∈ rest, jsEndsWith f ".intent.carl" = true →
        ∃ b, d.isFile (L.join [scopePath, f]) = .ok b :=
      fun f hf => h f (List.mem_cons_of_mem _ hf)
    simp only [pushIntentFiles]
    cases hends : jsEndsWith file ".intent.carl" with
    | false =>
      simp only [Bool.false_eq_true, if_false]
      exact ih acc hrest
    | true =>
      simp only [if_true]
      obtain ⟨b, hb⟩ := h file (List.mem_cons_self _ _) hends
      rw [hb]
      cases b with
      | true => exact ih _ hrest
      | false => exact ih _ hrest

theorem findIntentFiles_eq (L : Lib) (d : Directories) (f : Files) (projectRoot : String)
    (scopes : List String) (acc out : List String)
    (h : findIntentFiles L d f projectRoot scopes acc = .ok out) :
    out = acc ++ (scopes.filter (fun scopeDir =>
        match f.pathExists (L.join [projectRoot, scopeDir]) with
        | .ok true => true
        | _ => false)).flatMap
      (fun scopeDir => regularIntentFiles L d (L.join [projectRoot, scopeDir])) := by
  induction scopes generalizing acc with
  | nil =>
    simp only [findIntentFiles] at h
    injection h with h
    simp [h]
  | cons scopeDir rest ih =>
    simp only [findIntentFiles] at h
    cases hex : f.pathExists (L.join [projectRoot, scopeDir]) with
    | error e => rw [hex] at h; cases h
    | ok b =>
      cases b with
      | false =>
        simp only [hex] at h
        rw [ih acc h]
        simp [List.filter_cons, hex]
      | true =>
        simp only [hex] at h
        cases hread : d.readdir (L.join [projectRoot, scopeDir]) with
        | error e => rw [hread] at h; cases h
        | ok files =>
          simp only [hread] at h
          cases hpush : pushIntentFiles L d (L.join [projectRoot, scopeDir]) files acc with
          | error e => rw [hpush] at h; cases h
          | ok found =>
            simp only [hpush] at h
            rw [ih found h, pushIntentFiles_eq L d _ files acc found hpush]
            simp [List.filter_cons, hex, regularIntentFiles, hread]

theorem findIntentFiles_ok (L : Lib) (d : Directories) (f : Files) (projectRoot : String)
    (scopes : List String) (acc : List String)
    (hexists : ∀ scopeDir ∈ scopes, ∃ b, f.pathExists (L.join [projectRoot, scopeDir]) = .ok b)
    (hread : ∀ scopeDir ∈ scopes, f.pathExists (L.join [projectRoot, scopeDir]) = .ok true →
      ∃ names, d.readdir (L.join [projectRoot, scopeDir]) = .ok names ∧
        ∀ file ∈ names, jsEndsWith file ".intent.carl" = true →
          ∃ b, d.isFile (L.join [L.join [projectRoot, scopeDir], file]) = .ok b) :
    ∃ out, findIntentFiles L d f projectRoot scopes acc = .ok out := by
  induction scopes generalizing acc with
  | nil => exact ⟨acc, rfl⟩
  | cons scopeDir rest ih =>
    have h1 : ∀ s ∈ rest, ∃ b, f.pathExists (L.join [projectRoot, s]) = .ok b :=
      fun s hs => hexists s (List.mem_cons_of_mem _ hs)
    have h2 : ∀ s ∈ rest, f.pathExists (L.join [projectRoot, s]) = .ok true →
        ∃ names, d.readdir (L.join [projectRoot, s]) = .ok names ∧
          ∀ file ∈ names, jsEndsWith file ".intent.carl" = true →
            ∃ b, d.isFile (L.join [L.join [projectRoot, s], file]) = .ok b :=
      fun s hs => hread s (List.mem_cons_of_mem _ hs)
    simp only [findIntentFiles]
    obtain ⟨b, hb⟩ := hexists scopeDir (List.mem_cons_self _ _)
    cases b with
    | false =>
      simp only [hb]
      exact ih acc h1 h2
    | true =>
      obtain ⟨names, hnames, hfiles⟩ := hread scopeDir (List.mem_cons_self _ _) hb
      obtain ⟨found, hfound⟩ := pushIntentFiles_ok L d (L.join [projectRoot, scopeDir]) names acc
        hfiles
      simp only [hb, hnames, hfound]
      exact ih found h1 h2

theorem reviewedIntentFiles_eq (L : Lib) (d : Directories) (w : World) (files : List String)
    (h : reviewedIntentFiles L d w = .ok files) : files = filesUnderReview L d w := by
  unfold reviewedIntentFiles at h
  rw [findIntentFiles_eq L d w.files _ _ [] files h]
  rfl

theorem mem_filesUnderReview (L : Lib) (d : Directories) (w : World) (path : String)
    (h : path ∈ filesUnderReview L d w) :
    ∃ scopeDir ∈ scopeDirectories, ∃ names file,
      w.files.pathExists (L.join [L.join [w.carlRoot, ".carl/project"], scopeDir]) = .ok true ∧
      d.readdir (L.join [L.join [w.carlRoot, ".carl/project"], scopeDir]) = .ok names ∧
      file ∈ names ∧
      jsEndsWith file ".intent.carl" = true ∧
      path = L.join [L.join [L.join [w.carlRoot, ".carl/project"], scopeDir], file] ∧
      d.isFile path = .ok true := by
  unfold filesUnderReview at h
  rw [List.mem_flatMap] at h
  obtain ⟨scopeDir, hscope, hpath⟩ := h
  rw [List.mem_filter] at hscope
  obtain ⟨hmem, hexists⟩ := hscope
  have hex : w.files.pathExists (L.join [L.join [w.carlRoot, ".carl/project"], scopeDir])
      = .ok true := by
    split at hexists
    · assumption
    · cases hexists
  unfold regularIntentFiles at hpath
  cases hread : d.readdir (L.join [L.join [w.carlRoot, ".carl/project"], scopeDir]) with
  | error e =>
    rw [hread] at hpath
    cases hpath
  | ok names =>
    rw [hread] at hpath
    simp only [List.mem_filter, List.mem_map] at hpath
    obtain ⟨⟨file, ⟨hfile, hends⟩, hjoin⟩, hregular⟩ := hpath
    have hisFile : d.isFile path = .ok true := by
      split at hregular
      · assumption
      · cases hregular
    exact ⟨scopeDir, hmem, names, file, hex, hread, hfile, hends, hjoin.symm, hisFile⟩

theorem completedScopeOf_mem (intentPath : String) :
    completedScopeOf intentPath ∈ scopeDirectories := by
  unfold completedScopeOf scopeDirectories
  split
  · simp
  · split
    · simp
    · split
      · simp
      · split <;> simp

/-- With `/` as the separator, a file located directly in a scope directory is not
located directly in the `completed` subdirectory of a scope directory, unless its name
contains a `/`. -/
theorem scope_file_not_completed (root : List Char) (s t : String) (file name : List Char)
    (hs : s ∈ scopeDirectories) (ht : t ∈ scopeDirectories)
    (h : root ++ s.data ++ '/' :: file
      = root ++ t.data ++ '/' :: ("completed".data ++ '/' :: name)) : '/' ∈ file := by
  have e5 : "completed".data = ['c', 'o', 'm', 'p', 'l', 'e', 't', 'e', 'd'] := rfl
  rw [e5] at h
  simp only [scopeDirectories, List.mem_cons, List.mem_singleton, List.not_mem_nil,
    or_false] at hs ht
  rcases hs with hs | hs | hs | hs <;> rcases ht with ht | ht | ht | ht <;>
    subst hs <;> subst ht <;> simp at h <;> (try (rw [h]; simp))

/-! ### C30: full project review -/

/-- C30: whenever `fullProjectReview` reaches `detectAndProcessCompletions`, the list
it passes is exactly the list of the regular files whose name ends in `.intent.carl`
located directly in the existing scope directories epics, features, stories,
technical, in that order, and these are the paths checked; it does reach it when no
existence test, directory listing or `fs.stat` rejects.  Every file passed is an entry
of the listing of a scope directory; so, with `/` as the path separator and entry
names without `/`, no file passed is located in the directory that
`getCompletedDirectory` returns for any intent path: an archived item is not reviewed
again. -/
theorem fullProjectReview_files (L : Lib) (d : Directories) (w : World) :
    (∀ files, reviewedIntentFiles L d w = .ok files →
      files = filesUnderReview L d w ∧
      fullProjectReview L d w
        = .ok (detectAndProcessCompletions L w (filesUnderReview L d w)) ∧
      checkedPaths (orchestratorCalls L w files) = filesUnderReview L d w) ∧
    ((∀ scopeDir ∈ scopeDirectories, ∃ b,
        w.files.pathExists (L.join [L.join [w.carlRoot, ".carl/project"], scopeDir]) = .ok b) →
     (∀ scopeDir ∈ scopeDirectories,
        w.files.pathExists (L.join [L.join [w.carlRoot, ".carl/project"], scopeDir])
          = .ok true →
        ∃ names,
          d.readdir (L.join [L.join [w.carlRoot, ".carl/project"], scopeDir]) = .ok names ∧
          ∀ file ∈ names, jsEndsWith file ".intent.carl" = true →
            ∃ b, d.isFile
              (L.join [L.join [L.join [w.carlRoot, ".carl/project"], scopeDir], file])
                = .ok b) →
      fullProjectReview L d w
        = .ok (detectAndProcessCompletions L w (filesUnderReview L d w))) ∧
    (∀ path ∈ filesUnderReview L d w,
      ∃ scopeDir ∈ scopeDirectories, ∃ names file,
        w.files.pathExists (L.join [L.join [w.carlRoot, ".carl/project"], scopeDir])
          = .ok true ∧
        d.readdir (L.join [L.join [w.carlRoot, ".carl/project"], scopeDir]) = .ok names ∧
        file ∈ names ∧
        jsEndsWith file ".intent.carl" = true ∧
        path = L.join [L.join [L.join [w.carlRoot, ".carl/project"], scopeDir], file] ∧
        d.isFile path = .ok true) ∧
    ((∀ parts, L.join parts = String.intercalate "/" parts) →
     (∀ dir names, d.readdir dir = .ok names → ∀ name ∈ names, '/' ∉ name.data) →
      ∀ path ∈ filesUnderReview L d w, ∀ intentPath name,
        path ≠ L.join [getCompletedDirectory L w intentPath, name]) := by
  have hfirst : ∀ files, reviewedIntentFiles L d w = .ok files →
      files = filesUnderReview L d w ∧
      fullProjectReview L d w
        = .ok (detectAndProcessCompletions L w (filesUnderReview L d w)) ∧
      checkedPaths (orchestratorCalls L w files) = filesUnderReview L d w := by
    intro files hfiles
    have heq := reviewedIntentFiles_eq L d w files hfiles
    refine ⟨heq, ?_, ?_⟩
    · unfold fullProjectReview
      rw [hfiles, heq]
    · rw [← heq]
      exact completionLoop_checked L files w
  refine ⟨hfirst, ?_, mem_filesUnderReview L d w, ?_⟩
  · intro hexists hread
    obtain ⟨out, hout⟩ := findIntentFiles_ok L d w.files (L.join [w.carlRoot, ".carl/project"])
      ["epics", "features", "stories", "technical"] [] hexists hread
    exact (hfirst out hout).2.1
  · intro hjoin hnames path hpath intentPath name heq
    obtain ⟨scopeDir, hscope, names, file, _, hread, hfile, _, hjoined, _⟩ :=
      mem_filesUnderReview L d w path hpath
    have hslash := hnames _ names hread file hfile
    apply hslash
    rw [hjoined, getCompletedDirectory_eq_join] at heq
    simp only [hjoin, String.intercalate, String.intercalate.go] at heq
    have hdata := congrArg String.data heq
    simp only [String.data_append, List.append_assoc, List.cons_append, List.nil_append,
      List.singleton_append] at hdata
    have hcancel := List.append_cancel_left hdata
    simp only [List.cons.injEq, true_and] at hcancel
    have hcancel2 := List.append_cancel_left
      (show ".carl/project".data ++ ('/' :: (scopeDir.data ++ '/' :: file.data))
          = ".carl/project".data ++ ('/' :: ((completedScopeOf intentPath).data
              ++ '/' :: ("completed".data ++ '/' :: name.data))) from by
        simpa [List.append_assoc] using hcancel)
    simp only [List.cons.injEq, true_and] at hcancel2
    exact scope_file_not_completed [] scopeDir (completedScopeOf intentPath) file.data
      name.data hscope (completedScopeOf_mem intentPath) (by simpa using hcancel2)

/-- Witness for C30: in the small project the review passes the intent files of
"goal", "solo" and "orphan"; the directory `notes.intent.carl` and the archived
`completed/done.intent.carl` are not passed. -/
theorem fullProjectReview_files_witness :
    filesUnderReview projectLib projectDirectories projectWorld
      = ["/repo/.carl/project/epics/goal.intent.carl",
         "/repo/.carl/project/features/solo.intent.carl",
         "/repo/.carl/project/stories/orphan.intent.carl"] ∧
    fullProjectReview projectLib projectDirectories projectWorld
      = .ok (detectAndProcessCompletions projectLib projectWorld
          (filesUnderReview projectLib projectDirectories projectWorld)) := by
  obtain ⟨h1, h2, _⟩ :=
    (fullProjectReview_files projectLib projectDirectories projectWorld).1
      ["/repo/.carl/project/epics/goal.intent.carl",
       "/repo/.carl/project/features/solo.intent.carl",
       "/repo/.carl/project/stories/orphan.intent.carl"] rfl
  exact ⟨h1.symm, h2⟩

end Carl
